import Mathlib

/-!
# MdDiffAccActor: a shallow embedding

The model-difference accumulate actor of
`oneflow/core/actor/model_diff_accumulate_actor.cpp`, embedded as pure functions
on an explicit actor state.  The messages an actor posts on the message bus are
collected, in program order, in the field `sent_msgs`.

The methods of the `Actor` / `CompActor` base classes that the actor calls are
not part of the translated sources; they are modelled from the specification
and marked as such.  Blob payloads are `Int` vectors: addition is exact.

The later sections embed the actor registry, the stream type visitor and the
inference, signature and gradient functions of some user operators.  An
operator function is a function from its attributes, its inputs and the state it
writes to the value it returns (`MaybeVoid`) and the state it leaves; machine
integers are `Int` with explicit wrapping where a computation can overflow.
-/

namespace oneflow

/-! ## Data model -/

/-- A register produced (owned) by the actor.  `regst_id` stands for the address
`Regst*`; `model_diff_acc_cnt` is the entry of the map `model_diff_acc_cnt_`
keyed by this register, `none` when the map has no entry for it. -/
structure Regst where
  regst_id : Nat
  regst_desc_id : Nat
  piece_id : Nat
  packed_blob : List Int
  subscribers : List Nat
  reading_cnt : Nat
  model_diff_acc_cnt : Option Nat
deriving DecidableEq

/-- A reference to a register as carried by a register message
(`std::shared_ptr<RegstWrapper>`): the address of the register, its descriptor
id, its piece id, the actor that produced it and the contents of its packed
blob. -/
structure RegstWrapper where
  regst_raw_ptr : Nat
  regst_desc_id : Nat
  piece_id : Nat
  producer_actor_id : Nat
  packed_blob : List Int
deriving DecidableEq

/-- Actor commands; only `kEORD` is accepted by the handlers below. -/
inductive ActorCmd where
  | kEORD
  | kOtherCmd (code : Nat)
deriving DecidableEq

/-- An inbound message: a command (`ActorMsgType::kCmdMsg`) or a register
transfer (`ActorMsgType::kRegstMsg`). -/
inductive ActorMsg where
  | kCmdMsg (actor_cmd : ActorCmd)
  | kRegstMsg (regst_wrapper : RegstWrapper)
deriving DecidableEq

/-- An outbound message.  `readable` is the forward of a produced register to one
consumer (the register is recorded as it is when the message is issued),
`toProducer` the return of a consumed input register to its producer, `eord`
the end-of-register-data command for one consumer of one register descriptor. -/
inductive OutMsg where
  | readable (consumer : Nat) (regst : Regst)
  | toProducer (regst_wp : RegstWrapper)
  | eord (consumer : Nat) (regst_desc_id : Nat)
deriving DecidableEq

/-- The message handler installed with `OF_SET_MSG_HANDLE`. -/
inductive MsgHandle where
  | HandleNormal
  | HandleWaitUntilNoReadableRegst
  | HandleWaitUntilReadingCntEqualZero
  | nullptr
deriving DecidableEq

/-- State of a `MdDiffAccActor`: the members the handlers read and write, and
the log of the messages sent so far. -/
structure MdDiffAccActor where
  msg_handle_ : MsgHandle
  waiting_in_regst_ : List RegstWrapper
  expected_piece_id_ : Nat
  produced_regsts_ : List Regst
  total_reading_cnt_ : Nat
  sent_msgs : List OutMsg
deriving DecidableEq

/-- Result of running a piece of actor code: it completes with a value, it
aborts on a failed `CHECK` (carrying the actor state at the abort), or it runs
into undefined behaviour of the C++ program (dereferencing `end()` or a null
pointer, `front()` of an empty queue). -/
inductive Outcome (α : Type) where
  | ok (val : α)
  | fatal (at_abort : MdDiffAccActor)
  | undefined
deriving DecidableEq

/-! ## Base-class services -/

/-- Modelled from the spec: the registers `ForEachCurWriteableRegst` visits
(`Actor::ForEachCurWriteableRegst` is missing).  A register is free to be
written when its `reading_cnt` is zero (spec section 3); the current writable
register of a register descriptor is its first free register.  `seen` lists the
descriptors already served. -/
def curWriteableFrom : List Nat → List Regst → List Regst
  | _, [] => []
  | seen, r :: rs =>
    if r.reading_cnt = 0 ∧ r.regst_desc_id ∉ seen then
      r :: curWriteableFrom (r.regst_desc_id :: seen) rs
    else curWriteableFrom seen rs

/-- Modelled from the spec: `ForEachCurWriteableRegst(func)` for a `func` that
rewrites the visited register (`Actor::ForEachCurWriteableRegst` is missing);
registers that are not current writable registers are left as they are. -/
def mapCurWriteableFrom (func : Regst → Regst) : List Nat → List Regst → List Regst
  | _, [] => []
  | seen, r :: rs =>
    if r.reading_cnt = 0 ∧ r.regst_desc_id ∉ seen then
      func r :: mapCurWriteableFrom func (r.regst_desc_id :: seen) rs
    else r :: mapCurWriteableFrom func seen rs

/-- The current writable registers of the actor, one per register descriptor. -/
def curWriteableRegsts (s : MdDiffAccActor) : List Regst :=
  curWriteableFrom [] s.produced_regsts_

/-- Modelled from the spec: `ForEachCurWriteableRegst`
(`Actor::ForEachCurWriteableRegst` is missing). -/
def ForEachCurWriteableRegst (func : Regst → Regst) (s : MdDiffAccActor) : MdDiffAccActor :=
  { s with produced_regsts_ := mapCurWriteableFrom func [] s.produced_regsts_ }

/-- Modelled from the spec: `GetCurWriteableRegst(regst_desc_id)`
(`Actor::GetCurWriteableRegst` is missing): the current writable register of
the descriptor, `none` for `nullptr`. -/
def GetCurWriteableRegst (s : MdDiffAccActor) (regst_desc_id : Nat) : Option Regst :=
  (curWriteableRegsts s).find? (fun r => r.regst_desc_id = regst_desc_id)

/-- The accessor `total_reading_cnt()`. -/
def total_reading_cnt (s : MdDiffAccActor) : Nat := s.total_reading_cnt_

/-- The accessor `expected_piece_id()`. -/
def expected_piece_id (s : MdDiffAccActor) : Nat := s.expected_piece_id_

/-- Modelled from the spec: `IsReadReady` (declared in the missing header):
condition (a) of `ActUntilFail`, an input is waiting at the head of
`pending_inputs`.  Whether that head carries the expected piece id is checked by
`Act` itself, where a mismatch is fatal (spec sections 4.2 and 7). -/
def IsReadReady (s : MdDiffAccActor) : Bool := !s.waiting_in_regst_.isEmpty

/-- Modelled from the spec: `IsWriteReady` (`Actor::IsWriteReady` is missing):
condition (b) of `ActUntilFail`, at least one writable output register is free
to accept a result. -/
def IsWriteReady (s : MdDiffAccActor) : Bool := !(curWriteableRegsts s).isEmpty

/-- Modelled from the spec: `TryUpdtStateAsProducedRegst`
(`Actor::TryUpdtStateAsProducedRegst` is missing).  A register that is not one
of the actor's produced registers is an input: the result is non-zero and the
state is untouched.  Otherwise the message is the return of a produced register
by one consumer: its `reading_cnt` and `total_reading_cnt_` go down by one and
the result is 0.  A return that matches no outstanding forward breaks the
message invariant of spec section 3 and is fatal. -/
def TryUpdtStateAsProducedRegst (s : MdDiffAccActor) (regst : Nat) :
    Outcome (MdDiffAccActor × Int) :=
  match s.produced_regsts_.find? (fun r => r.regst_id = regst) with
  | none => .ok (s, -1)
  | some r =>
    if r.reading_cnt = 0 ∨ s.total_reading_cnt_ = 0 then .fatal s
    else .ok ({ s with
      produced_regsts_ := s.produced_regsts_.map (fun q =>
        if q.regst_id = regst then { q with reading_cnt := q.reading_cnt - 1 } else q)
      total_reading_cnt_ := s.total_reading_cnt_ - 1 }, 0)

/-- Modelled from the spec: the forward of one register to all its consumers
(part of the missing `Actor::AsyncSendReadableRegstMsg`). -/
def readableMsgs (r : Regst) : List OutMsg :=
  r.subscribers.map (fun consumer => OutMsg.readable consumer r)

/-- Modelled from the spec: `AsyncSendReadableRegstMsg(PreProcess)`
(`Actor::AsyncSendReadableRegstMsg` is missing), the generic forward step of
spec section 4.2: every current writable register is preprocessed and sent to
all its consumers, `outstanding_reads` grows by the number of consumers
notified, the register is held by those consumers, and the actor expects the
next piece. -/
def AsyncSendReadableRegstMsg (PreProcess : Regst → Regst) (s : MdDiffAccActor) :
    MdDiffAccActor :=
  let cur := (curWriteableRegsts s).map PreProcess
  { s with
    produced_regsts_ := mapCurWriteableFrom
      (fun r => { PreProcess r with reading_cnt := (PreProcess r).subscribers.length })
      [] s.produced_regsts_
    total_reading_cnt_ := s.total_reading_cnt_ + (cur.map (fun r => r.subscribers.length)).sum
    sent_msgs := s.sent_msgs ++ cur.flatMap readableMsgs
    expected_piece_id_ := s.expected_piece_id_ + 1 }

/-- Modelled from the spec: `AsyncSendRegstMsgToProducer`
(`Actor::AsyncSendRegstMsgToProducer` is missing): the return message for a
consumed input register. -/
def AsyncSendRegstMsgToProducer (regst_wp : RegstWrapper) (s : MdDiffAccActor) :
    MdDiffAccActor :=
  { s with sent_msgs := s.sent_msgs ++ [OutMsg.toProducer regst_wp] }

/-- One register per register descriptor, in order of first occurrence. -/
def producedRegstDescsFrom : List Nat → List Regst → List Regst
  | _, [] => []
  | seen, r :: rs =>
    if r.regst_desc_id ∉ seen then r :: producedRegstDescsFrom (r.regst_desc_id :: seen) rs
    else producedRegstDescsFrom seen rs

/-- The `EORD` messages for all produced register descriptors. -/
def eordMsgs (s : MdDiffAccActor) : List OutMsg :=
  (producedRegstDescsFrom [] s.produced_regsts_).flatMap
    (fun r => r.subscribers.map (fun consumer => OutMsg.eord consumer r.regst_desc_id))

/-- Modelled from the spec: `AsyncSendEORDMsgForAllProducedRegstDesc`
(missing from the sources): `EORD` goes to every downstream consumer of every
register descriptor this actor produces. -/
def AsyncSendEORDMsgForAllProducedRegstDesc (s : MdDiffAccActor) : MdDiffAccActor :=
  { s with sent_msgs := s.sent_msgs ++ eordMsgs s }

/-! ## The accumulate kernel -/

/-- In-place accumulation `out += inp` on the elements of `out`. -/
def addInto : List Int → List Int → List Int
  | o :: os, i :: is => (o + i) :: addInto os is
  | os, [] => os
  | [], _ :: _ => []

/-- The register provider handed to the kernel in `Act` (source lines 69 to 77):
a descriptor with a current writable register resolves to that register (left),
any other descriptor must be the descriptor of the head of `waiting_in_regst_`
and resolves to that head (right). -/
def Regst4RegstDescId (s : MdDiffAccActor) (regst_desc_id : Nat) :
    Outcome (Regst ⊕ RegstWrapper) :=
  match GetCurWriteableRegst s regst_desc_id with
  | none =>
    match s.waiting_in_regst_ with
    | [] => .undefined
    | front :: _ =>
      if regst_desc_id ≠ front.regst_desc_id then .fatal s
      else .ok (Sum.inr front)
  | some regst => .ok (Sum.inl regst)

/-- The blob a resolved register holds. -/
def resolvedBlob : Regst ⊕ RegstWrapper → List Int
  | Sum.inl regst => regst.packed_blob
  | Sum.inr regst_wp => regst_wp.packed_blob

/-- Modelled from the spec: `AsyncLaunchKernel` with the accumulate kernel (both
missing from the sources): the kernel adds the contents of the input register
into the output register in place (spec section 4.3).  It resolves its input
through the provider under the descriptor id of the head of
`waiting_in_regst_`, and writes every current writable register. -/
def AsyncLaunchKernel (s : MdDiffAccActor) : Outcome MdDiffAccActor :=
  match s.waiting_in_regst_ with
  | [] => .undefined
  | front :: _ =>
    match Regst4RegstDescId s front.regst_desc_id with
    | .ok src =>
      .ok (ForEachCurWriteableRegst
        (fun regst => { regst with packed_blob := addInto regst.packed_blob (resolvedBlob src) }) s)
    | .fatal a => .fatal a
    | .undefined => .undefined

/-! ## MdDiffAccActor -/

/-- Modelled from the spec: `CompActor::Init` (missing from the sources): the
registers of the task are allocated once and are all writable, nothing is
pending, nothing is being read, no message has been sent, and the first piece
expected is piece 0.  The contents of the freshly allocated blobs are whatever
`task_regsts` holds. -/
def CompActor_Init (task_regsts : List Regst) : MdDiffAccActor :=
  { msg_handle_ := MsgHandle.nullptr
    waiting_in_regst_ := []
    expected_piece_id_ := 0
    produced_regsts_ := task_regsts.map
      (fun r => { r with reading_cnt := 0, model_diff_acc_cnt := none })
    total_reading_cnt_ := 0
    sent_msgs := [] }

/-- Method `MdDiffAccActor::Init` (source lines 5 to 20): the handler is
`HandleNormal` and the counter of every current writable register is 0.  The
choice of the device context has no effect on the state modelled here. -/
def Init (task_regsts : List Regst) : MdDiffAccActor :=
  let s := CompActor_Init task_regsts
  let s := { s with msg_handle_ := MsgHandle.HandleNormal }
  ForEachCurWriteableRegst (fun regst => { regst with model_diff_acc_cnt := some 0 }) s

/-- The first lambda of `Act` (source lines 57 to 67) on a register whose
counter is `cnt`: a counter different from the batch size leaves the register
alone; otherwise the packed blob is zero-filled and the counter reset. -/
def resetIfBatchDone (num_of_piece_in_batch : Nat) (regst : Regst) : Regst :=
  match regst.model_diff_acc_cnt with
  | none => regst
  | some cnt =>
    if cnt ≠ num_of_piece_in_batch then regst
    else { regst with
      packed_blob := List.replicate regst.packed_blob.length 0
      model_diff_acc_cnt := some 0 }

/-- The preprocessor `Act` passes to `AsyncSendReadableRegstMsg` (source lines
78 to 81). -/
def tagAndCount (regst_wp : RegstWrapper) (regst : Regst) : Regst :=
  { regst with
    piece_id := regst_wp.piece_id
    model_diff_acc_cnt := regst.model_diff_acc_cnt.map (fun cnt => cnt + 1) }

/-- Method `MdDiffAccActor::Act` (source lines 53 to 84).  `num_of_piece_in_batch` is
`JobDesc::Singleton()->num_of_piece_in_batch()`.  A current writable register
without an entry in `model_diff_acc_cnt_` makes `diff_cnt->second` a
dereference of `end()`. -/
def Act (num_of_piece_in_batch : Nat) (s : MdDiffAccActor) : Outcome MdDiffAccActor :=
  match s.waiting_in_regst_ with
  | [] => .undefined
  | regst_wp :: rest =>
    if regst_wp.piece_id ≠ expected_piece_id s then .fatal s
    else if (curWriteableRegsts s).any (fun regst => regst.model_diff_acc_cnt.isNone) then
      .undefined
    else
      let s1 := ForEachCurWriteableRegst (resetIfBatchDone num_of_piece_in_batch) s
      match AsyncLaunchKernel s1 with
      | .ok s2 =>
        let s3 := AsyncSendReadableRegstMsg (tagAndCount regst_wp) s2
        let s4 := AsyncSendRegstMsgToProducer regst_wp s3
        .ok { s4 with waiting_in_regst_ := rest }
      | .fatal a => .fatal a
      | .undefined => .undefined

/-- The loop of `ActUntilFail` with an explicit bound on the number of
iterations. -/
def ActUntilFailLoop (num_of_piece_in_batch : Nat) : Nat → MdDiffAccActor → Outcome MdDiffAccActor
  | 0, s => .ok s
  | fuel + 1, s =>
    if IsReadReady s && IsWriteReady s then
      match Act num_of_piece_in_batch s with
      | .ok s1 => ActUntilFailLoop num_of_piece_in_batch fuel s1
      | .fatal a => .fatal a
      | .undefined => .undefined
    else .ok s

/-- Modelled from the spec: `ActUntilFail` (`Actor::ActUntilFail` is missing):
`Act` is repeated while an input is waiting and a writable output register is
free.  Every `Act` removes one entry of `waiting_in_regst_`, so the length of
the queue bounds the number of iterations: the loop always stops because its
condition fails, never because the bound is used up (`ActUntilFail_exit`). -/
def ActUntilFail (num_of_piece_in_batch : Nat) (s : MdDiffAccActor) : Outcome MdDiffAccActor :=
  ActUntilFailLoop num_of_piece_in_batch s.waiting_in_regst_.length s

/-- Handler `MdDiffAccActor::HandleNormal` (source lines 22 to 34); the value paired
with the state is the `int` the handler returns. -/
def HandleNormal (num_of_piece_in_batch : Nat) (s : MdDiffAccActor) (msg : ActorMsg) :
    Outcome (MdDiffAccActor × Int) :=
  let pre : Outcome MdDiffAccActor :=
    match msg with
    | .kCmdMsg actor_cmd =>
      if actor_cmd ≠ ActorCmd.kEORD then .fatal s
      else .ok { s with msg_handle_ := MsgHandle.HandleWaitUntilNoReadableRegst }
    | .kRegstMsg regst_wrapper =>
      match TryUpdtStateAsProducedRegst s regst_wrapper.regst_raw_ptr with
      | .ok (s1, ret) =>
        if ret ≠ 0 then
          .ok { s1 with waiting_in_regst_ := s1.waiting_in_regst_ ++ [regst_wrapper] }
        else .ok s1
      | .fatal a => .fatal a
      | .undefined => .undefined
  match pre with
  | .ok s1 =>
    match ActUntilFail num_of_piece_in_batch s1 with
    | .ok s2 => .ok (s2, 0)
    | .fatal a => .fatal a
    | .undefined => .undefined
  | .fatal a => .fatal a
  | .undefined => .undefined

/-- Handler `MdDiffAccActor::HandleWaitUntilNoReadableRegst` (source lines 36 to 51).  The
handler reads `msg.regst_wrapper()` at once: it expects a register transfer, and
a command observed in its place is a fatal assertion (spec section 7). -/
def HandleWaitUntilNoReadableRegst (num_of_piece_in_batch : Nat) (s : MdDiffAccActor)
    (msg : ActorMsg) : Outcome (MdDiffAccActor × Int) :=
  match msg with
  | .kCmdMsg _ => .fatal s
  | .kRegstMsg regst_wrapper =>
    match TryUpdtStateAsProducedRegst s regst_wrapper.regst_raw_ptr with
    | .ok (s1, ret) =>
      if ret ≠ 0 then .fatal s1
      else
        match ActUntilFail num_of_piece_in_batch s1 with
        | .ok s2 =>
          if s2.waiting_in_regst_.isEmpty then
            let s3 := AsyncSendEORDMsgForAllProducedRegstDesc s2
            if total_reading_cnt s3 = 0 then
              .ok ({ s3 with msg_handle_ := MsgHandle.nullptr }, 1)
            else
              .ok ({ s3 with msg_handle_ := MsgHandle.HandleWaitUntilReadingCntEqualZero }, 0)
          else .ok (s2, 0)
        | .fatal a => .fatal a
        | .undefined => .undefined
    | .fatal a => .fatal a
    | .undefined => .undefined

/-- Modelled from the spec: `HandleWaitUntilReadingCntEqualZero`
(`Actor::HandleWaitUntilReadingCntEqualZero` is missing), the state
AwaitReadsZero of spec section 4.2: only returns of produced registers are
accepted; they decrement `outstanding_reads`, and once it is zero the actor is
terminated. -/
def HandleWaitUntilReadingCntEqualZero (s : MdDiffAccActor) (msg : ActorMsg) :
    Outcome (MdDiffAccActor × Int) :=
  match msg with
  | .kCmdMsg _ => .fatal s
  | .kRegstMsg regst_wrapper =>
    match TryUpdtStateAsProducedRegst s regst_wrapper.regst_raw_ptr with
    | .ok (s1, ret) =>
      if ret ≠ 0 then .fatal s1
      else if total_reading_cnt s1 = 0 then
        .ok ({ s1 with msg_handle_ := MsgHandle.nullptr }, 1)
      else .ok (s1, 0)
    | .fatal a => .fatal a
    | .undefined => .undefined

/-- Modelled from the spec: `Actor::ProcessMsg` (missing from the sources), the
dispatch on the installed handler; a terminated actor (handler cleared) accepts
no further message. -/
def ProcessMsg (num_of_piece_in_batch : Nat) (s : MdDiffAccActor) (msg : ActorMsg) :
    Outcome (MdDiffAccActor × Int) :=
  match s.msg_handle_ with
  | .HandleNormal => HandleNormal num_of_piece_in_batch s msg
  | .HandleWaitUntilNoReadableRegst => HandleWaitUntilNoReadableRegst num_of_piece_in_batch s msg
  | .HandleWaitUntilReadingCntEqualZero => HandleWaitUntilReadingCntEqualZero s msg
  | .nullptr => .undefined

/-! ## The actor registry (`actor_registry.h`) -/

/-- Modelled from the spec: the enumeration `StreamType` of `stream_type.h`
(not in the sources; the spec leaves stream backends outside its scope), with
one enumerator for each `Visit` method of the visitor: the eleven stream
types. -/
inductive StreamType where
  | kCompute
  | kHost2Device
  | kDevice2Host
  | kAsyncedDevice2Host
  | kSyncedLaunchedCommNet
  | kAsyncedLaunchedCommNet
  | kBarrier
  | kCriticalSection
  | kLazyJobLauncher
  | kPinnedCompute
  | kTmpCompute
  deriving DecidableEq, Repr

/-- Method `StreamOnIndependentThread::VisitCompute` (source line 25). -/
def StreamOnIndependentThread.VisitCompute : Bool := false

/-- Method `StreamOnIndependentThread::VisitHost2Device` (source line 26). -/
def StreamOnIndependentThread.VisitHost2Device : Bool := false

/-- Method `StreamOnIndependentThread::VisitDevice2Host` (source line 27). -/
def StreamOnIndependentThread.VisitDevice2Host : Bool := false

/-- Method `StreamOnIndependentThread::VisitAsyncedDevice2Host` (source line 28). -/
def StreamOnIndependentThread.VisitAsyncedDevice2Host : Bool := true

/-- Method `StreamOnIndependentThread::VisitSyncedLaunchedCommNet` (source line 29). -/
def StreamOnIndependentThread.VisitSyncedLaunchedCommNet : Bool := false

/-- Method `StreamOnIndependentThread::VisitAsyncedLaunchedCommNet` (source line 30). -/
def StreamOnIndependentThread.VisitAsyncedLaunchedCommNet : Bool := false

/-- Method `StreamOnIndependentThread::VisitBarrier` (source line 31). -/
def StreamOnIndependentThread.VisitBarrier : Bool := false

/-- Method `StreamOnIndependentThread::VisitCriticalSection` (source line 32). -/
def StreamOnIndependentThread.VisitCriticalSection : Bool := true

/-- Method `StreamOnIndependentThread::VisitLazyJobLauncher` (source line 33). -/
def StreamOnIndependentThread.VisitLazyJobLauncher : Bool := true

/-- Method `StreamOnIndependentThread::VisitPinnedCompute` (source line 34): the
answer of `VisitCompute`. -/
def StreamOnIndependentThread.VisitPinnedCompute : Bool :=
  StreamOnIndependentThread.VisitCompute

/-- Method `StreamOnIndependentThread::VisitTmpCompute` (source line 35): the
answer of `VisitCompute`. -/
def StreamOnIndependentThread.VisitTmpCompute : Bool :=
  StreamOnIndependentThread.VisitCompute

/-- Modelled from the spec: the dispatch `StreamTypeVisitor<DerivedT>::Visit` of
`stream_type.h` (not in the sources), instantiated with
`StreamOnIndependentThread`: each stream type is answered by the `Visit` method
of its name. -/
def StreamOnIndependentThread.Visit : StreamType → Bool
  | .kCompute => StreamOnIndependentThread.VisitCompute
  | .kHost2Device => StreamOnIndependentThread.VisitHost2Device
  | .kDevice2Host => StreamOnIndependentThread.VisitDevice2Host
  | .kAsyncedDevice2Host => StreamOnIndependentThread.VisitAsyncedDevice2Host
  | .kSyncedLaunchedCommNet => StreamOnIndependentThread.VisitSyncedLaunchedCommNet
  | .kAsyncedLaunchedCommNet => StreamOnIndependentThread.VisitAsyncedLaunchedCommNet
  | .kBarrier => StreamOnIndependentThread.VisitBarrier
  | .kCriticalSection => StreamOnIndependentThread.VisitCriticalSection
  | .kLazyJobLauncher => StreamOnIndependentThread.VisitLazyJobLauncher
  | .kPinnedCompute => StreamOnIndependentThread.VisitPinnedCompute
  | .kTmpCompute => StreamOnIndependentThread.VisitTmpCompute

/-! ## User operators: the framework types the operator functions use -/

/-- The value of a `Maybe<void>` an operator function returns: `Ok`, or `Error`
when a `CHECK_..._OR_RETURN` fails.  `Abort` stands for a call that does not
return because a library access was out of range. -/
inductive MaybeVoid where
  | Ok
  | Error
  | Abort
  deriving DecidableEq, Repr

/-- The value of a 64-bit two's-complement computation whose exact result is `x`. -/
def wrap64 (x : Int) : Int := (x + 2 ^ 63) % 2 ^ 64 - 2 ^ 63

/-- The value of a 32-bit two's-complement computation, or of a narrowing to
`int32_t`, whose exact result is `x`. -/
def wrap32 (x : Int) : Int := (x + 2 ^ 31) % 2 ^ 32 - 2 ^ 31

/-- The loop `for (i = lo; i < hi; ++i)` (also `FOR_RANGE(type, i, lo, hi)`) over
a state: it runs `count` more iterations from `i` on and stops at the first
iteration that does not end with `Ok`. -/
def forLoop {σ : Type} (body : Int → σ → MaybeVoid × σ) : Nat → Int → σ → MaybeVoid × σ
  | 0, _, st => (MaybeVoid.Ok, st)
  | count + 1, i, st =>
    match body i st with
    | (MaybeVoid.Ok, st1) => forLoop body count (i + 1) st1
    | (status, st1) => (status, st1)

/-- The loop `for (i = lo; i < hi; ++i)`: `hi - lo` iterations when `lo < hi`,
none otherwise. -/
def forRange {σ : Type} (lo hi : Int) (body : Int → σ → MaybeVoid × σ) (init : σ) :
    MaybeVoid × σ :=
  forLoop body (hi - lo).toNat lo init

/-- Modelled from the spec: the class `Shape` of `shape.h` (not in the sources;
the spec leaves the operator library outside its scope): the vector of the
`int64_t` dimensions. -/
structure Shape where
  dim_vec : List Int
  deriving DecidableEq, Repr

/-- Modelled from the spec: `Shape::NumAxes` (not in the sources): the number of
dimensions. -/
def Shape.NumAxes (shape : Shape) : Int := shape.dim_vec.length

/-- Modelled from the spec: `Shape::At` and `DimVector::at` (not in the
sources): the dimension at `index`, `none` when `index` is out of range, where
the call does not return. -/
def Shape.At (shape : Shape) (index : Int) : Option Int :=
  if 0 ≤ index then shape.dim_vec[index.toNat]? else none

/-- Modelled from the spec: `Shape::elem_cnt` (not in the sources): the product
of the dimensions, accumulated in `int64_t`. -/
def Shape.elem_cnt (shape : Shape) : Int :=
  shape.dim_vec.foldl (fun cnt dim => wrap64 (cnt * dim)) 1

/-- Modelled from the spec: `ExpandDimIf0D` (not in the sources): a shape without
dimensions becomes the shape with the one dimension 1. -/
def ExpandDimIf0D (shape : Shape) : Shape :=
  if shape.NumAxes = 0 then { dim_vec := [1] } else shape

/-- The part of `user_op::TensorDesc` the shape-inference functions read and
write. -/
structure TensorDesc where
  shape : Shape
  is_dynamic : Bool
  deriving DecidableEq, Repr

/-- The message `SbpParallel`: split along an axis, broadcast or partial sum. -/
inductive SbpParallel where
  | Split (axis : Int)
  | Broadcast
  | PartialSum
  deriving DecidableEq, Repr

/-- The arguments a builder call names: `ctx->inputs()`, `ctx->outputs()`, or one
`user_op::OpArg(name, index)`. -/
inductive OpArgs where
  | inputs
  | outputs
  | OpArg (name : String) (index : Int)
  deriving DecidableEq, Repr

/-- A signature as `ctx->NewBuilder()...Build()` adds it to the signature list:
the calls of the builder in order. -/
abbrev SbpSignature := List (OpArgs × SbpParallel)

/-! ## The fake quantization operator (`fake_quantization_op.cpp`) -/

/-- Function `FakeQuantizationOp::CheckAttr` (source lines 92 to 104) on the
attributes of the operator configuration. -/
def FakeQuantizationOp.CheckAttr (quantization_bit : Int) (quantization_scheme : String)
    (quantization_formula : String) : MaybeVoid :=
  if ¬ (quantization_bit > 1) then MaybeVoid.Error
  else if ¬ (quantization_bit ≤ 8) then MaybeVoid.Error
  else if ¬ (quantization_scheme = "symmetric" ∨ quantization_scheme = "affine") then
    MaybeVoid.Error
  else if ¬ (quantization_formula = "google" ∨ quantization_formula = "cambricon") then
    MaybeVoid.Error
  else MaybeVoid.Ok

/-! ## The flatten operator (`flatten_op.cpp`) -/

/-- Function `FlattenOp::InferLogicalTensorDesc` (source lines 21 to 51).
`start_dim` and `end_dim` are the `int32_t` attributes, `in_tensor_desc` is the
input `("in", 0)`, and `out_tensor_desc` is the output `("out", 0)` as the call
finds it; the result is the value returned and the output as the call leaves
it. -/
def FlattenOp.InferLogicalTensorDesc (start_dim end_dim : Int)
    (in_tensor_desc out_tensor_desc : TensorDesc) : MaybeVoid × TensorDesc :=
  let in_shape := ExpandDimIf0D in_tensor_desc.shape
  if ¬ (start_dim ≥ 0) then (MaybeVoid.Error, out_tensor_desc)
  else if ¬ (start_dim < in_shape.NumAxes) then (MaybeVoid.Error, out_tensor_desc)
  else
    let true_end_dim := wrap32 (if end_dim < 0 then end_dim + in_shape.NumAxes else end_dim)
    if ¬ (true_end_dim ≥ 0) then (MaybeVoid.Error, out_tensor_desc)
    else if ¬ (true_end_dim < in_shape.NumAxes) then (MaybeVoid.Error, out_tensor_desc)
    else if ¬ (start_dim ≤ true_end_dim) then (MaybeVoid.Error, out_tensor_desc)
    else
      let out_tensor_desc := { out_tensor_desc with is_dynamic := in_tensor_desc.is_dynamic }
      match forRange 0 start_dim
          (fun i (dim_vec : List Int) =>
            match in_shape.At i with
            | some dim => (MaybeVoid.Ok, dim_vec ++ [dim])
            | none => (MaybeVoid.Abort, dim_vec))
          [] with
      | (MaybeVoid.Ok, dim_vec) =>
        match forRange start_dim (true_end_dim + 1)
            (fun i (flatten_dim : Int) =>
              match in_shape.At i with
              | some dim => (MaybeVoid.Ok, wrap64 (flatten_dim * dim))
              | none => (MaybeVoid.Abort, flatten_dim))
            1 with
        | (MaybeVoid.Ok, flatten_dim) =>
          match forRange (true_end_dim + 1) in_shape.NumAxes
              (fun i (dim_vec : List Int) =>
                match in_shape.At i with
                | some dim => (MaybeVoid.Ok, dim_vec ++ [dim])
                | none => (MaybeVoid.Abort, dim_vec))
              (dim_vec ++ [flatten_dim]) with
          | (MaybeVoid.Ok, dim_vec) =>
            let out_tensor_desc := { out_tensor_desc with shape := { dim_vec := dim_vec } }
            if out_tensor_desc.shape.elem_cnt ≠ in_shape.elem_cnt then
              (MaybeVoid.Error, out_tensor_desc)
            else (MaybeVoid.Ok, out_tensor_desc)
          | (status, _) => (status, out_tensor_desc)
        | (status, _) => (status, out_tensor_desc)
      | (status, _) => (status, out_tensor_desc)

/-- Function `FlattenOp::GetSbp` (source lines 57 to 84).  `in_shape` is the
logical shape of the input `("in", 0)` and `sbp_sig_list` the signature list of
the context as the call finds it; the result is the value returned and the
signature list as the call leaves it. -/
def FlattenOp.GetSbp (start_dim end_dim : Int) (in_shape : Shape)
    (sbp_sig_list : List SbpSignature) : MaybeVoid × List SbpSignature :=
  let sbp_sig_list := sbp_sig_list ++
    [[(OpArgs.inputs, SbpParallel.PartialSum), (OpArgs.outputs, SbpParallel.PartialSum)]]
  if in_shape.NumAxes = 0 then (MaybeVoid.Ok, sbp_sig_list)
  else if ¬ (start_dim ≥ 0) then (MaybeVoid.Error, sbp_sig_list)
  else if ¬ (start_dim < in_shape.NumAxes) then (MaybeVoid.Error, sbp_sig_list)
  else
    let true_end_dim := wrap32 (if end_dim < 0 then end_dim + in_shape.NumAxes else end_dim)
    if ¬ (true_end_dim ≥ 0) then (MaybeVoid.Error, sbp_sig_list)
    else if ¬ (true_end_dim < in_shape.NumAxes) then (MaybeVoid.Error, sbp_sig_list)
    else if ¬ (start_dim ≤ true_end_dim) then (MaybeVoid.Error, sbp_sig_list)
    else
      match forRange 0 (start_dim + 1)
          (fun i (sbp_sig_list : List SbpSignature) =>
            (MaybeVoid.Ok, sbp_sig_list ++
              [[(OpArgs.OpArg "in" 0, SbpParallel.Split i),
                (OpArgs.OpArg "out" 0, SbpParallel.Split i)]]))
          sbp_sig_list with
      | (MaybeVoid.Ok, sbp_sig_list) =>
        let diff := wrap32 (true_end_dim - start_dim)
        forRange (true_end_dim + 1) in_shape.NumAxes
          (fun i (sbp_sig_list : List SbpSignature) =>
            (MaybeVoid.Ok, sbp_sig_list ++
              [[(OpArgs.OpArg "in" 0, SbpParallel.Split i),
                (OpArgs.OpArg "out" 0, SbpParallel.Split (i - diff))]]))
          sbp_sig_list
      | (status, sbp_sig_list) => (status, sbp_sig_list)

/-! ## The reduce operators (`reduce_ops.cpp`) -/

/-- The template argument `binary_func` of `GetSbpFn` and `GeneratePartialSbp`:
the binary functions the reduce operators are instantiated with (source lines
115 to 120). -/
inductive BinaryFunc where
  | BinaryFuncAny
  | BinaryFuncAll
  | BinaryFuncMin
  | BinaryFuncMax
  | BinaryFuncSum
  | BinaryFuncProd
  deriving DecidableEq, Repr

/-- Function template `GeneratePartialSbp` (source lines 56 to 65): the
specialisation for `BinaryFuncSum` adds two signatures to the signature list,
the general template adds nothing. -/
def GeneratePartialSbp (binary_func : BinaryFunc) (axis : Int)
    (sbp_sig_list : List SbpSignature) : List SbpSignature :=
  match binary_func with
  | BinaryFunc.BinaryFuncSum =>
    sbp_sig_list ++
      [[(OpArgs.inputs, SbpParallel.Split axis), (OpArgs.outputs, SbpParallel.PartialSum)],
       [(OpArgs.inputs, SbpParallel.PartialSum), (OpArgs.outputs, SbpParallel.PartialSum)]]
  | _ => sbp_sig_list

/-- Function template `GetSbpFn` (source lines 67 to 91).  `num_axes` is the
number of dimensions of the input, `IsReducedAxis` the predicate the calls of
`ReduceSbpUtil::GetRegularAxes` and `ReduceSbpUtil::MakePredicatorIsReducedAxis`
(not in the sources) make from the attribute `axis`, and `sbp_sig_list` the
signature list of the context as the call finds it.  The state of the loop is
the signature list and `num_reduced_axes`. -/
def GetSbpFn (binary_func : BinaryFunc) (IsReducedAxis : Int → Bool) (num_axes : Int)
    (keep_dims : Bool) (sbp_sig_list : List SbpSignature) :
    MaybeVoid × List SbpSignature :=
  match forRange 0 num_axes
      (fun i (st : List SbpSignature × Int) =>
        if IsReducedAxis i then
          (MaybeVoid.Ok, (GeneratePartialSbp binary_func i st.1, wrap32 (st.2 + 1)))
        else
          (MaybeVoid.Ok,
            (st.1 ++
              [[(OpArgs.inputs, SbpParallel.Split i),
                (OpArgs.outputs, SbpParallel.Split (if keep_dims then i else i - st.2))]],
             st.2)))
      (sbp_sig_list, 0) with
  | (MaybeVoid.Ok, (sbp_sig_list, _)) =>
    if num_axes = 0 then
      (MaybeVoid.Ok, sbp_sig_list ++
        [[(OpArgs.inputs, SbpParallel.PartialSum), (OpArgs.outputs, SbpParallel.PartialSum)]])
    else (MaybeVoid.Ok, sbp_sig_list)
  | (status, (sbp_sig_list, _)) => (status, sbp_sig_list)

/-- Modelled from the spec: `ShiftNegativeAxis` (not in the sources; the spec
leaves the operator library outside its scope): a negative axis counts from the
end. -/
def ShiftNegativeAxis (axis num_axes : Int) : Int :=
  if axis < 0 then axis + num_axes else axis

/-- Modelled from the spec: `ReduceSbpUtil::GetRegularAxes` (not in the
sources): the set of the axes of the attribute, negative ones shifted. -/
def ReduceSbpUtil.GetRegularAxes (num_axes : Int) (reduce_axes : List Int) : List Int :=
  reduce_axes.map (fun axis => ShiftNegativeAxis axis num_axes)

/-- Modelled from the spec: `ReduceSbpUtil::MakePredicatorIsReducedAxis` (not in
the sources): membership in the set of regular axes. -/
def ReduceSbpUtil.MakePredicatorIsReducedAxis (conf_axes : List Int) (_num_axes : Int) :
    Int → Bool :=
  fun axis => decide (axis ∈ conf_axes)

/-- Modelled from the spec: `CreateReducedShape` (not in the sources): the shape
with every axis of `axis_vec`, negative ones shifted, set to 1; `none` when an
axis is out of range, where the call does not return. -/
def CreateReducedShape (shape : Shape) (axis_vec : List Int) : Option Shape :=
  if axis_vec.all (fun axis =>
      decide (0 ≤ ShiftNegativeAxis axis shape.NumAxes ∧
        ShiftNegativeAxis axis shape.NumAxes < shape.NumAxes)) then
    some { dim_vec := (List.range shape.dim_vec.length).map (fun (i : Nat) =>
      if (i : Int) ∈ axis_vec.map (fun axis => ShiftNegativeAxis axis shape.NumAxes) then 1
      else shape.dim_vec.getD i 1) }
  else none

/-- Modelled from the spec: `Shape::RemoveOnes` (not in the sources): the shape
without the axes of `axis_vec`, negative ones shifted. -/
def Shape.RemoveOnes (shape : Shape) (axis_vec : List Int) : Shape :=
  { dim_vec := ((List.range shape.dim_vec.length).filter (fun (i : Nat) =>
      decide ((i : Int) ∉ axis_vec.map (fun axis => ShiftNegativeAxis axis shape.NumAxes)))).map
      (fun i => shape.dim_vec.getD i 1) }

/-- Function `InferTensorDescFn` (source lines 23 to 43): the value returned
and the output shape.  The output stride, which is that of the output shape,
is not modelled. -/
def InferTensorDescFn (input_shape : Shape) (reduce_axes : List Int) (keepdims : Bool)
    (output_shape : Shape) : MaybeVoid × Shape :=
  if reduce_axes.isEmpty then (MaybeVoid.Ok, input_shape)
  else
    match CreateReducedShape input_shape reduce_axes with
    | none => (MaybeVoid.Abort, output_shape)
    | some reduce_shape =>
      if keepdims then (MaybeVoid.Ok, reduce_shape)
      else (MaybeVoid.Ok, reduce_shape.RemoveOnes reduce_axes)

/-! ## The unsorted batch segment sum operator (`unsorted_batch_segment_sum_op.cpp`) -/

/-- Modelled from the spec: the assignment `dim_vec.at(index) = value` on a
`DimVector` (`std::vector::at`; not in the sources, and the spec leaves the
operator library outside its scope): `none` when `index` is out of range, where
the access throws. -/
def DimVector.at_assign (dim_vec : List Int) (index value : Int) : Option (List Int) :=
  if 0 ≤ index ∧ index < dim_vec.length then some (dim_vec.set index.toNat value) else none

/-- Function `UnsortedBatchSegmentSumOp::InferLogicalTensorDesc` (source lines
40 to 59).  `num_segments` is the `int64_t` attribute, `data` and `segment_ids`
are the inputs and `out` is the output `("out", 0)` as the call finds it; the
result is the value returned and the output as the call leaves it. -/
def UnsortedBatchSegmentSumOp.InferLogicalTensorDesc (num_segments : Int)
    (data segment_ids out : TensorDesc) : MaybeVoid × TensorDesc :=
  if ¬ (segment_ids.shape.NumAxes ≥ 1) then (MaybeVoid.Error, out)
  else if ¬ (data.shape.NumAxes ≥ segment_ids.shape.NumAxes) then (MaybeVoid.Error, out)
  else if ¬ (segment_ids.is_dynamic = data.is_dynamic) then (MaybeVoid.Error, out)
  else if ¬ (num_segments ≥ 1) then (MaybeVoid.Error, out)
  else
    match forRange 0 (segment_ids.shape.NumAxes - 1)
        (fun i (st : Unit) =>
          match segment_ids.shape.At i, data.shape.At i with
          | some segment_dim, some data_dim =>
            if ¬ (segment_dim = data_dim) then (MaybeVoid.Error, st) else (MaybeVoid.Ok, st)
          | _, _ => (MaybeVoid.Abort, st))
        () with
    | (MaybeVoid.Ok, _) =>
      match DimVector.at_assign data.shape.dim_vec (segment_ids.shape.NumAxes - 1)
          num_segments with
      | some dim_vec => (MaybeVoid.Ok, { out with shape := { dim_vec := dim_vec } })
      | none => (MaybeVoid.Abort, out)
    | (status, _) => (status, out)

/-! ## The parallel cast operator (`parallel_cast_op.cpp`) -/

/-- Modelled from the spec: `GenRepeatedBn` (not in the sources; the spec leaves
the operator library outside its scope): the blob name of an argument, made of
the argument name and the index. -/
def GenRepeatedBn (bn_stem : String) (idx : Nat) : String :=
  bn_stem ++ "_" ++ toString idx

/-- The assignment `(*bn2sbp)[bn] = sbp_parallel` on the map
`bn_in_op2sbp_parallel` of a signature. -/
def bn2sbpAssign (bn2sbp : String → Option SbpParallel) (bn : String)
    (sbp_parallel : SbpParallel) : String → Option SbpParallel :=
  fun name => if name = bn then some sbp_parallel else bn2sbp name

/-- Function `ParallelCastOp::InferSbpSignature` (source lines 37 to 61).
`ParseSbpParallelFromString` (not in the sources) is taken as a parameter:
`none` when the string does not parse.  `sbp_parallel_str` is the attribute
`sbp_parallel`, `sbp_parallel_hint` the hint for the input `("in", 0)`,
`in_shape` the logical shape of that input, and `bn2sbp` the map of the
signature as the call finds it; the result is the value returned and the map
as the call leaves it. -/
def ParallelCastOp.InferSbpSignature
    (ParseSbpParallelFromString : String → Option SbpParallel)
    (sbp_parallel_str : String) (sbp_parallel_hint : SbpParallel) (in_shape : Shape)
    (bn2sbp : String → Option SbpParallel) : MaybeVoid × (String → Option SbpParallel) :=
  let ibn := GenRepeatedBn "in" 0
  let obn := GenRepeatedBn "out" 0
  if sbp_parallel_str = "" then
    (MaybeVoid.Ok, bn2sbpAssign (bn2sbpAssign bn2sbp ibn sbp_parallel_hint) obn sbp_parallel_hint)
  else
    match ParseSbpParallelFromString sbp_parallel_str with
    | none => (MaybeVoid.Error, bn2sbp)
    | some (SbpParallel.Split split_axis) =>
      if ¬ (split_axis ≥ 0) then (MaybeVoid.Error, bn2sbp)
      else if ¬ (split_axis < in_shape.NumAxes) then (MaybeVoid.Error, bn2sbp)
      else
        (MaybeVoid.Ok,
          bn2sbpAssign (bn2sbpAssign bn2sbp ibn (SbpParallel.Split split_axis)) obn
            (SbpParallel.Split split_axis))
    | some sbp_parallel =>
      (MaybeVoid.Ok, bn2sbpAssign (bn2sbpAssign bn2sbp ibn sbp_parallel) obn sbp_parallel)

/-! ## The hardshrink and hardtanh operators (`hardshrink_op.cpp`, `hardtanh_op.cpp`) -/

/-- The context of the inference functions of an operator, as far as they use
it: the shape and the data type of every input and output argument, `none`
where nothing is set. -/
structure InferContext where
  InputShape : String → Int → Option Shape
  InputDType : String → Int → Option Nat
  OutputShape : String → Int → Option Shape
  OutputDType : String → Int → Option Nat

/-- Function `HardShrinkOp::InferLogicalTensorDesc` (source lines 21 to 24): the
shape of the output `("out", 0)` is set to the shape of the input `("in", 0)`. -/
def HardShrinkOp.InferLogicalTensorDesc (ctx : InferContext) : MaybeVoid × InferContext :=
  (MaybeVoid.Ok,
    { ctx with
      OutputShape := fun arg_name index =>
        if arg_name = "out" ∧ index = 0 then ctx.InputShape "in" 0
        else ctx.OutputShape arg_name index })

/-- Function `HardShrinkOp::InferDataType` (source lines 38 to 41): the data type
of the output `("out", 0)` is set to the data type of the input `("in", 0)`. -/
def HardShrinkOp.InferDataType (ctx : InferContext) : MaybeVoid × InferContext :=
  (MaybeVoid.Ok,
    { ctx with
      OutputDType := fun arg_name index =>
        if arg_name = "out" ∧ index = 0 then ctx.InputDType "in" 0
        else ctx.OutputDType arg_name index })

/-- A tensor a backward operator generator names through the forward operator
`ctx->FwOp()` or through an operator it has defined: `output(arg, i)`,
`output_grad(arg, i)` of the forward operator, or `GetOp(op_name).output(arg, i)`. -/
inductive TensorRef where
  | FwOpOutput (arg_name : String) (index : Int)
  | FwOpOutputGrad (arg_name : String) (index : Int)
  | GetOpOutput (op_name : String) (arg_name : String) (index : Int)
  deriving DecidableEq, Repr

/-- The value of an attribute a builder sets: the attribute `attr_name` of the
forward operator, as `ctx->FwOp().attr<double>(attr_name)` reads it. -/
inductive AttrRef where
  | FwOpAttr (attr_name : String)
  deriving DecidableEq, Repr

/-- An operator as a `user_op::BackwardOpBuilder` builds it: the calls of
`OpTypeName`, `InputBind`, `Attr` and `Output` in order. -/
structure BackwardOp where
  op_name : String
  OpTypeName : String
  InputBind : List (String × TensorRef)
  Attr : List (String × AttrRef)
  Output : List String
  deriving DecidableEq, Repr

/-- What a backward operator generator has done to the
`user_op::BackwardOpConfContext`: the operators defined by `DefineOp` and the
gradients bound by `FwOp().InputGradBind`. -/
structure BackwardOpConf where
  DefineOp : List BackwardOp
  InputGradBind : List ((String × Int) × TensorRef)
  deriving DecidableEq, Repr

/-- The backward operator generator registered by
`REGISTER_USER_OP_GRAD("hardshrink")` (`hardshrink_op.cpp`, source lines 75 to
91), for the forward operator of name `fw_op_name`. -/
def hardshrinkBackwardOpConfGenFn (fw_op_name : String) : MaybeVoid × BackwardOpConf :=
  let hardshrink_grad_op_name := fw_op_name ++ "_grad"
  (MaybeVoid.Ok,
    { DefineOp := [
        { op_name := hardshrink_grad_op_name
          OpTypeName := "hardshrink_grad"
          InputBind := [("y", TensorRef.FwOpOutput "y" 0),
                        ("dy", TensorRef.FwOpOutputGrad "out" 0)]
          Attr := [("lambd", AttrRef.FwOpAttr "lambd")]
          Output := ["dx"] }]
      InputGradBind := [(("in", 0), TensorRef.GetOpOutput hardshrink_grad_op_name "dx" 0)] })

/-- The backward operator generator registered by
`REGISTER_USER_OP_GRAD("hardtanh")` (`hardtanh_op.cpp`, source lines 82 to 99),
for the forward operator of name `fw_op_name`. -/
def hardtanhBackwardOpConfGenFn (fw_op_name : String) : MaybeVoid × BackwardOpConf :=
  let hardtanh_grad_op_name := fw_op_name ++ "_grad"
  (MaybeVoid.Ok,
    { DefineOp := [
        { op_name := hardtanh_grad_op_name
          OpTypeName := "hardtanh_grad"
          InputBind := [("y", TensorRef.FwOpOutput "out" 0),
                        ("dy", TensorRef.FwOpOutputGrad "out" 0)]
          Attr := [("min_val", AttrRef.FwOpAttr "min_val"),
                   ("max_val", AttrRef.FwOpAttr "max_val")]
          Output := ["dx"] }]
      InputGradBind := [(("in", 0), TensorRef.GetOpOutput hardtanh_grad_op_name "dx" 0)] })

/-! ## Observations, scenarios and closed forms -/

/-- The transformation one `Act` applies to a current writable register, up to
the reading count: reset when the batch is done, accumulate `src`, tag and
count. -/
def actRegst (B : Nat) (regst_wp : RegstWrapper) (src : List Int) (regst : Regst) : Regst :=
  tagAndCount regst_wp
    { resetIfBatchDone B regst with
      packed_blob := addInto (resetIfBatchDone B regst).packed_blob src }

/-- The blob the kernel reads in an `Act` on `s` with `regst_wp` at the head of the queue. -/
def actSrc (B : Nat) (s : MdDiffAccActor) (regst_wp : RegstWrapper) : List Int :=
  match ((curWriteableRegsts s).map (resetIfBatchDone B)).find?
      (fun r => r.regst_desc_id = regst_wp.regst_desc_id) with
  | some regst => regst.packed_blob
  | none => regst_wp.packed_blob

/-- A register transformation that keeps the descriptor and the reading count. -/
def KeepsSlot (f : Regst → Regst) : Prop :=
  ∀ r, (f r).regst_desc_id = r.regst_desc_id ∧ (f r).reading_cnt = r.reading_cnt

/-- The state a successful `Act` produces, in closed form. -/
def actResult (B : Nat) (s : MdDiffAccActor) (regst_wp : RegstWrapper)
    (rest : List RegstWrapper) : MdDiffAccActor :=
  { msg_handle_ := s.msg_handle_
    waiting_in_regst_ := rest
    expected_piece_id_ := s.expected_piece_id_ + 1
    produced_regsts_ := mapCurWriteableFrom
      (fun r => { actRegst B regst_wp (actSrc B s regst_wp) r with
        reading_cnt := (actRegst B regst_wp (actSrc B s regst_wp) r).subscribers.length })
      [] s.produced_regsts_
    total_reading_cnt_ := s.total_reading_cnt_ +
      (((curWriteableRegsts s).map (actRegst B regst_wp (actSrc B s regst_wp))).map
        (fun r => r.subscribers.length)).sum
    sent_msgs := s.sent_msgs ++
      ((curWriteableRegsts s).map (actRegst B regst_wp (actSrc B s regst_wp))).flatMap readableMsgs
      ++ [OutMsg.toProducer regst_wp] }

/-- The blob the kernel reads when launched on `s` with `regst_wp` at the head. -/
def kernelSrc (s : MdDiffAccActor) (regst_wp : RegstWrapper) : List Int :=
  match (curWriteableRegsts s).find? (fun r => r.regst_desc_id = regst_wp.regst_desc_id) with
  | some regst => regst.packed_blob
  | none => regst_wp.packed_blob

/-- Runs the actor on a sequence of inbound messages, one `ProcessMsg` each. -/
def runMsgs (B : Nat) : MdDiffAccActor → List ActorMsg → Outcome MdDiffAccActor
  | s, [] => .ok s
  | s, msg :: msgs =>
    match ProcessMsg B s msg with
    | .ok (s1, _) => runMsgs B s1 msgs
    | .fatal a => .fatal a
    | .undefined => .undefined

/-- The registers forwarded to consumers by a sequence of outbound messages. -/
def forwardedRegsts : List OutMsg → List Regst
  | [] => []
  | .readable _ regst :: msgs => regst :: forwardedRegsts msgs
  | _ :: msgs => forwardedRegsts msgs

/-- The input registers returned to their producers by a sequence of outbound messages. -/
def returnedRegsts : List OutMsg → List RegstWrapper
  | [] => []
  | .toProducer regst_wp :: msgs => regst_wp :: returnedRegsts msgs
  | _ :: msgs => returnedRegsts msgs

/-- The `EORD` commands in a sequence of outbound messages. -/
def eordPart : List OutMsg → List OutMsg
  | [] => []
  | .eord consumer regst_desc_id :: msgs => .eord consumer regst_desc_id :: eordPart msgs
  | _ :: msgs => eordPart msgs

/-- Scenario: the single output register of an accumulator, with one consumer,
as the task hands it to `Init`; `blob` is what the fresh buffer holds. -/
def soleOutRegst (blob : List Int) (consumer : Nat) : Regst :=
  { regst_id := 0, regst_desc_id := 1, piece_id := 0, packed_blob := blob,
    subscribers := [consumer], reading_cnt := 0, model_diff_acc_cnt := none }

/-- Scenario: the input register of piece `piece_id` with payload `blob`. -/
def inRegst (piece_id : Nat) (blob : List Int) : RegstWrapper :=
  { regst_raw_ptr := piece_id + 1, regst_desc_id := 0, piece_id := piece_id,
    producer_actor_id := 0, packed_blob := blob }

/-- Scenario: the message that delivers the input register of piece `piece_id`. -/
def inRegstMsg (piece_id : Nat) (blob : List Int) : ActorMsg :=
  .kRegstMsg (inRegst piece_id blob)

/-- Scenario: the output register as a consumer hands it back. -/
def outRegstReturn : RegstWrapper :=
  { regst_raw_ptr := 0, regst_desc_id := 1, piece_id := 0,
    producer_actor_id := 0, packed_blob := [] }

/-- Scenario: the message by which the consumer returns the output register. -/
def outRegstReturnMsg : ActorMsg :=
  .kRegstMsg outRegstReturn

/-- Scenario: inputs delivered in order from piece `piece_id` on, the consumer
returning the output register after each of them. -/
def inOrderMsgs : Nat → List (List Int) → List ActorMsg
  | _, [] => []
  | piece_id, blob :: blobs =>
    inRegstMsg piece_id blob :: outRegstReturnMsg :: inOrderMsgs (piece_id + 1) blobs

/-- The accumulator at rest in the scenario. -/
def idleActor (handle : MsgHandle) (expected piece_id : Nat) (blob : List Int) (consumer cnt : Nat)
    (sent : List OutMsg) : MdDiffAccActor :=
  { msg_handle_ := handle
    waiting_in_regst_ := []
    expected_piece_id_ := expected
    produced_regsts_ := [
      { regst_id := 0, regst_desc_id := 1, piece_id := piece_id,
        packed_blob := blob, subscribers := [consumer], reading_cnt := 0,
        model_diff_acc_cnt := some cnt }]
    total_reading_cnt_ := 0
    sent_msgs := sent }

/-- The buffer an `Act` accumulates into when the counter is `cnt`. -/
def accBase (B cnt : Nat) (blob : List Int) : List Int :=
  if cnt = B then List.replicate blob.length 0 else blob

/-- The counter an `Act` leaves when it found `cnt`. -/
def accCnt (B cnt : Nat) : Nat := (if cnt = B then 0 else cnt) + 1

/-- The messages the accumulator at rest sends for one input of the scenario. -/
def stepTrace (B expected consumer cnt : Nat) (blob v : List Int) : List OutMsg :=
  [OutMsg.readable consumer
      { regst_id := 0, regst_desc_id := 1, piece_id := expected,
        packed_blob := addInto (accBase B cnt blob) v, subscribers := [consumer],
        reading_cnt := 0, model_diff_acc_cnt := some (accCnt B cnt) },
    OutMsg.toProducer (inRegst expected v)]

/-- The blobs forwarded while the accumulator, whose register holds `blob` with
counter `cnt`, consumes the payloads in order. -/
def runningBlobs (B : Nat) : Nat → List Int → List (List Int) → List (List Int)
  | _, _, [] => []
  | cnt, blob, v :: vs =>
    addInto (accBase B cnt blob) v ::
      runningBlobs B (accCnt B cnt) (addInto (accBase B cnt blob) v) vs

/-- The blobs of the registers forwarded by a run, `[]` when the run aborts. -/
def forwardedBlobsOf : Outcome MdDiffAccActor → List (List Int)
  | .ok s => (forwardedRegsts s.sent_msgs).map (fun r => r.packed_blob)
  | _ => []

/-- The descriptor and the consumers of every produced register: the part of
the registers that no handler changes. -/
def slotView (rs : List Regst) : List (Nat × List Nat) :=
  rs.map (fun r => (r.regst_desc_id, r.subscribers))

/-- What one run of `Act`s keeps and what it moves: the handler and the
register slots stay, a prefix `consumed` of the queue is removed and returned
to the producers in queue order, and no `EORD` is sent. -/
def ActsRel (s s1 : MdDiffAccActor) : Prop :=
  s1.msg_handle_ = s.msg_handle_ ∧
  slotView s1.produced_regsts_ = slotView s.produced_regsts_ ∧
  ∃ consumed sent, s.waiting_in_regst_ = consumed ++ s1.waiting_in_regst_ ∧
    s1.sent_msgs = s.sent_msgs ++ sent ∧
    returnedRegsts sent = consumed ∧ eordPart sent = []

/-- The handlers an actor can have after it has sent `EORD`. -/
def AfterEORD (s : MdDiffAccActor) : Prop :=
  s.msg_handle_ = MsgHandle.HandleWaitUntilReadingCntEqualZero ∨
  s.msg_handle_ = MsgHandle.nullptr

/-- The handlers under which `Act` can run. -/
def BeforeEORD (s : MdDiffAccActor) : Prop :=
  s.msg_handle_ = MsgHandle.HandleNormal ∨
  s.msg_handle_ = MsgHandle.HandleWaitUntilNoReadableRegst

/-- What a message step reports: the value returned, the handler installed, the
length of `waiting_in_regst_` and `total_reading_cnt()` at the end of the step;
`none` when the step aborts. -/
def stepSummary : Outcome (MdDiffAccActor × Int) → Option (Int × MsgHandle × Nat × Nat)
  | .ok (s, ret) =>
    some (ret, s.msg_handle_, s.waiting_in_regst_.length, total_reading_cnt s)
  | _ => none

/-- The state at which a message step aborts on a failed `CHECK`. -/
def abortStateOf : Outcome (MdDiffAccActor × Int) → Option MdDiffAccActor
  | .fatal a => some a
  | _ => none

/-- The accumulator of the scenario while its consumer holds the output register. -/
def busyActor (handle : MsgHandle) (expected piece_id : Nat) (blob : List Int) (consumer cnt : Nat)
    (sent : List OutMsg) : MdDiffAccActor :=
  { msg_handle_ := handle
    waiting_in_regst_ := []
    expected_piece_id_ := expected
    produced_regsts_ := [
      { regst_id := 0, regst_desc_id := 1, piece_id := piece_id,
        packed_blob := blob, subscribers := [consumer], reading_cnt := 1,
        model_diff_acc_cnt := some cnt }]
    total_reading_cnt_ := 1
    sent_msgs := sent }

/-- The pairs (consumer, register) addressed by the forward messages of a
sequence of outbound messages. -/
def forwardTargets : List OutMsg → List (Nat × Nat)
  | [] => []
  | .readable consumer regst :: msgs => (consumer, regst.regst_id) :: forwardTargets msgs
  | _ :: msgs => forwardTargets msgs

/-- The accumulation counters of the produced registers after a run, `[]` when
the run aborts. -/
def countersOf : Outcome MdDiffAccActor → List (Option Nat)
  | .ok s => s.produced_regsts_.map (fun r => r.model_diff_acc_cnt)
  | _ => []

/-- The messages sent by a run, `[]` when the run aborts. -/
def sentOf : Outcome MdDiffAccActor → List OutMsg
  | .ok s => s.sent_msgs
  | _ => []

/-- Scenario: the accumulator after `Init`, with the first input (piece 0,
payload `v`) at the head of its queue; the output buffer holds `blob`. -/
def firstActState (blob v : List Int) : MdDiffAccActor :=
  { Init [soleOutRegst blob 9] with waiting_in_regst_ := [inRegst 0 v] }

/-- The input register a message step appends to `waiting_in_regst_`: the
register of a register message that `HandleNormal` receives and that is not one
of the actor's produced registers. -/
def enqueuedBy (s : MdDiffAccActor) : ActorMsg → List RegstWrapper
  | .kCmdMsg _ => []
  | .kRegstMsg regst_wrapper =>
    if s.msg_handle_ = MsgHandle.HandleNormal ∧
        (s.produced_regsts_.find? (fun r => r.regst_id = regst_wrapper.regst_raw_ptr)).isNone
    then [regst_wrapper] else []

/-- The final state of a run, `none` when the run aborts. -/
def stateOf : Outcome MdDiffAccActor → Option MdDiffAccActor
  | .ok s => some s
  | _ => none

/-- The message step that follows a run. -/
def processAfter (B : Nat) (run : Outcome MdDiffAccActor) (msg : ActorMsg) :
    Outcome (MdDiffAccActor × Int) :=
  match run with
  | .ok s => ProcessMsg B s msg
  | .fatal a => .fatal a
  | .undefined => .undefined

/-- Scenario: a draining accumulator whose output register has two consumers,
`reading` of which still hold it, with `waiting` in its queue. -/
def twoReaderActor (handle : MsgHandle) (reading : Nat) (waiting : List RegstWrapper) :
    MdDiffAccActor :=
  { msg_handle_ := handle
    waiting_in_regst_ := waiting
    expected_piece_id_ := 1
    produced_regsts_ := [
      { regst_id := 0, regst_desc_id := 1, piece_id := 0,
        packed_blob := [2], subscribers := [9, 8], reading_cnt := reading,
        model_diff_acc_cnt := some 1 }]
    total_reading_cnt_ := reading
    sent_msgs := [] }

/-- A handler result: the outcome of the handler's body with the `int` the
handler returns when the body completes. -/
def returning (ret : Int) : Outcome MdDiffAccActor → Outcome (MdDiffAccActor × Int)
  | .ok s => .ok (s, ret)
  | .fatal a => .fatal a
  | .undefined => .undefined

/-- The input registers the message steps of a run append to
`waiting_in_regst_`, in the order of their arrival. -/
def enqueuedAlong (B : Nat) : MdDiffAccActor → List ActorMsg → List RegstWrapper
  | _, [] => []
  | s, msg :: msgs =>
    enqueuedBy s msg ++
      (match ProcessMsg B s msg with
        | .ok (s1, _) => enqueuedAlong B s1 msgs
        | _ => [])

/-- Scenario: an accumulator with two registers of one descriptor; the first
has been forwarded (piece 0, contents 2) and is held by its consumer, the second
is free and has a counter; `waiting` is the queue. -/
def heldAndFreeActor (waiting : List RegstWrapper) : MdDiffAccActor :=
  { msg_handle_ := MsgHandle.HandleNormal
    waiting_in_regst_ := waiting
    expected_piece_id_ := 1
    produced_regsts_ := [
      { regst_id := 0, regst_desc_id := 1, piece_id := 0,
        packed_blob := [2], subscribers := [9], reading_cnt := 1,
        model_diff_acc_cnt := some 1 },
      { regst_id := 10, regst_desc_id := 1, piece_id := 0,
        packed_blob := [0], subscribers := [9], reading_cnt := 0,
        model_diff_acc_cnt := some 0 }]
    total_reading_cnt_ := 1
    sent_msgs := [] }

/-- A produced register without the value of its accumulation counter and
without the contents of its blob; whether it has a counter is kept. -/
def eraseRegst (r : Regst) : Regst :=
  { r with packed_blob := [], model_diff_acc_cnt := r.model_diff_acc_cnt.map (fun _ => 0) }

/-- An outbound message without counter values and blob contents of the
register it forwards. -/
def eraseMsg : OutMsg → OutMsg
  | .readable consumer regst => .readable consumer (eraseRegst regst)
  | .toProducer regst_wp => .toProducer regst_wp
  | .eord consumer regst_desc_id => .eord consumer regst_desc_id

/-- The actor state without the counter values and blob contents of its
produced registers: the handler, the queue, the expected piece, the reading
counts and the kinds and addressees of the messages sent are kept. -/
def eraseActor (s : MdDiffAccActor) : MdDiffAccActor :=
  { s with
    produced_regsts_ := s.produced_regsts_.map eraseRegst
    sent_msgs := s.sent_msgs.map eraseMsg }

/-- The outcome of a piece of actor code, with the state erased by `eraseActor`. -/
def eraseOutcome : Outcome MdDiffAccActor → Outcome MdDiffAccActor
  | .ok s => .ok (eraseActor s)
  | .fatal a => .fatal (eraseActor a)
  | .undefined => .undefined

/-- The outcome of a handler, with the state erased by `eraseActor`. -/
def eraseStep : Outcome (MdDiffAccActor × Int) → Outcome (MdDiffAccActor × Int)
  | .ok (s, ret) => .ok (eraseActor s, ret)
  | .fatal a => .fatal (eraseActor a)
  | .undefined => .undefined

/-- The actor state with every accumulation counter that exists set to 0: two
states with the same image differ only in the values of their counters. -/
def eraseCounterValues (s : MdDiffAccActor) : MdDiffAccActor :=
  { s with
    produced_regsts_ := s.produced_regsts_.map
      (fun r => { r with model_diff_acc_cnt := r.model_diff_acc_cnt.map (fun _ => 0) }) }

/-- Scenario: an accumulator that has seen `EORD` (handler
`HandleWaitUntilNoReadableRegst`) while its consumer 9 holds the single output
register, whose accumulation counter is `cnt`; `waiting` is its input queue. -/
def drainingActor (cnt : Nat) (waiting : List RegstWrapper) : MdDiffAccActor :=
  { msg_handle_ := MsgHandle.HandleWaitUntilNoReadableRegst
    waiting_in_regst_ := waiting
    expected_piece_id_ := 1
    produced_regsts_ := [
      { regst_id := 0, regst_desc_id := 1, piece_id := 0,
        packed_blob := [2], subscribers := [9], reading_cnt := 1,
        model_diff_acc_cnt := some cnt }]
    total_reading_cnt_ := 1
    sent_msgs := [] }

/-- The product of `dims` accumulated in `int64_t` from `cnt` on, as
`Shape::elem_cnt` and the loop over `flatten_dim` compute it. -/
def wrapProd (cnt : Int) (dims : List Int) : Int :=
  dims.foldl (fun cnt dim => wrap64 (cnt * dim)) cnt

/-- The flattened shape as the claim states it: the dimensions before
`start_dim`, the product (in `int64_t`) of the dimensions from `start_dim` to
`true_end_dim`, and the dimensions after `true_end_dim`. -/
def flattenedDims (dims : List Int) (start_dim true_end_dim : Nat) : List Int :=
  dims.take start_dim
    ++ [wrap64 ((dims.drop start_dim).take (true_end_dim - start_dim + 1)).prod]
    ++ dims.drop (true_end_dim + 1)

/-- The end of the flattened range as the operator computes it from the
attribute `end_dim` for an input of `num_axes` dimensions. -/
def trueEndDim (end_dim num_axes : Int) : Int :=
  if end_dim < 0 then end_dim + num_axes else end_dim

/-- The values of type `int32_t`. -/
def IsInt32 (x : Int) : Prop := -2 ^ 31 ≤ x ∧ x < 2 ^ 31

/-- The values of type `int64_t`. -/
def IsInt64 (x : Int) : Prop := -2 ^ 63 ≤ x ∧ x < 2 ^ 63

/-- The signature `Split(in_0, i).Split(out_0, j)`. -/
def splitInOut (axes : Int × Int) : SbpSignature :=
  [(OpArgs.OpArg "in" 0, SbpParallel.Split axes.1),
   (OpArgs.OpArg "out" 0, SbpParallel.Split axes.2)]

/-- The pairs (input axis, output axis) of the claim about `FlattenOp::GetSbp`,
for an input of `n` dimensions flattened from `start_dim` to `true_end_dim`:
`(i, i)` for `i ≤ start_dim`, then `(i, i - (true_end_dim - start_dim))` for
`true_end_dim < i < n`. -/
def flattenSplitAxes (n start_dim true_end_dim : Nat) : List (Int × Int) :=
  (List.range (start_dim + 1)).map (fun (i : Nat) => ((i : Int), (i : Int)))
    ++ (List.range (n - (true_end_dim + 1))).map
        (fun (k : Nat) => (((true_end_dim + 1 + k : Nat) : Int),
          ((true_end_dim + 1 + k : Nat) : Int) - ((true_end_dim : Int) - (start_dim : Int))))

/-- The number of reduced axes below `i`. -/
def reducedBelow (IsReducedAxis : Int → Bool) (i : Nat) : Nat :=
  ((List.range i).filter (fun (a : Nat) => IsReducedAxis (a : Int))).length

/-- The signatures the claim about `GetSbpFn` gives for axis `i`: a reduced axis
gets the signatures of `GeneratePartialSbp`; any other axis gets
`Split(inputs, i)`, `Split(outputs, j)` with `j = i` when `keep_dims` holds and
`j = i` minus the number of reduced axes below `i` otherwise. -/
def reduceAxisSignatures (binary_func : BinaryFunc) (IsReducedAxis : Int → Bool)
    (keep_dims : Bool) (i : Nat) : List SbpSignature :=
  if IsReducedAxis (i : Int) then GeneratePartialSbp binary_func (i : Int) []
  else
    [[(OpArgs.inputs, SbpParallel.Split (i : Int)),
      (OpArgs.outputs, SbpParallel.Split
        (if keep_dims then (i : Int) else (i : Int) - (reducedBelow IsReducedAxis i : Int)))]]

/-- The pair (input axis, output axis) of a signature `Split(inputs, i)`,
`Split(outputs, j)`. -/
def splitPairOf : SbpSignature → Option (Int × Int)
  | [(OpArgs.inputs, SbpParallel.Split i), (OpArgs.outputs, SbpParallel.Split j)] => some (i, j)
  | _ => none

/-- The output axes of the claim about `GetSbpFn` without `keepdims`: for the
axes that are not reduced, in increasing order, the axis minus the number of
reduced axes below it. -/
def reduceOutAxes (IsReducedAxis : Int → Bool) (n : Nat) : List Int :=
  ((List.range n).filter (fun (i : Nat) => ! IsReducedAxis (i : Int))).map
    (fun (i : Nat) => (i : Int) - (reducedBelow IsReducedAxis i : Int))

/-- The conditions of the claim about
`UnsortedBatchSegmentSumOp::InferLogicalTensorDesc`: with `k` the number of
dimensions of `segment_ids`, `k` is at least 1 and at most the number of
dimensions of `data`, the `is_dynamic` flags agree, `num_segments` is at least
1, and the two shapes agree on every axis below `k - 1`. -/
def segmentSumChecks (num_segments : Int) (data segment_ids : TensorDesc) : Prop :=
  1 ≤ segment_ids.shape.dim_vec.length ∧
  segment_ids.shape.dim_vec.length ≤ data.shape.dim_vec.length ∧
  segment_ids.is_dynamic = data.is_dynamic ∧ 1 ≤ num_segments ∧
  ∀ i, i < segment_ids.shape.dim_vec.length - 1 →
    segment_ids.shape.dim_vec[i]? = data.shape.dim_vec[i]?

/-- The map after `in_0` and `out_0` have been given the value `sbp_parallel`. -/
def assignInOut (bn2sbp : String → Option SbpParallel) (sbp_parallel : SbpParallel) :
    String → Option SbpParallel :=
  bn2sbpAssign (bn2sbpAssign bn2sbp (GenRepeatedBn "in" 0) sbp_parallel)
    (GenRepeatedBn "out" 0) sbp_parallel

/-- The values the parallel cast operator rejects: a split whose axis is not an
axis of the input. -/
def splitOutOfRange (sbp_parallel : SbpParallel) (num_axes : Int) : Prop :=
  ∃ split_axis, sbp_parallel = SbpParallel.Split split_axis ∧
    ¬ (0 ≤ split_axis ∧ split_axis < num_axes)

/-- Scenario: an inference context in which only the input `("in", 0)` is known:
its shape is 2 x 3 and its data type has the number 1. -/
def onlyInputKnown : InferContext :=
  { InputShape := fun arg_name index =>
      if arg_name = "in" ∧ index = 0 then some { dim_vec := [2, 3] } else none
    InputDType := fun arg_name index => if arg_name = "in" ∧ index = 0 then some 1 else none
    OutputShape := fun _ _ => none
    OutputDType := fun _ _ => none }

/-- The tensor bound to the input `arg_name` of the first operator a generator
has defined. -/
def boundInput (conf : BackwardOpConf) (arg_name : String) : Option TensorRef :=
  match conf.DefineOp with
  | [] => none
  | op :: _ => (op.InputBind.find? (fun bind => bind.1 = arg_name)).map (fun bind => bind.2)

/-- Scenario: a tensor description with the given dimensions, not dynamic. -/
def staticTensor (dim_vec : List Int) : TensorDesc :=
  { shape := { dim_vec := dim_vec }, is_dynamic := false }

/-- Scenario: a parser that knows the strings "S(1)", "S(5)" and "B". -/
def parseScenario (sbp_parallel_str : String) : Option SbpParallel :=
  if sbp_parallel_str = "S(1)" then some (SbpParallel.Split 1)
  else if sbp_parallel_str = "S(5)" then some (SbpParallel.Split 5)
  else if sbp_parallel_str = "B" then some SbpParallel.Broadcast
  else none

/-! ## Lemmas -/

theorem mapCurWriteableFrom_comp (f g : Regst → Regst) (hf : KeepsSlot f) :
    ∀ (rs : List Regst) (seen : List Nat),
      mapCurWriteableFrom g seen (mapCurWriteableFrom f seen rs)
        = mapCurWriteableFrom (fun r => g (f r)) seen rs := by
  intro rs
  induction rs with
  | nil => intro seen; rfl
  | cons r rs ih =>
    intro seen
    by_cases h : r.reading_cnt = 0 ∧ r.regst_desc_id ∉ seen
    · simp only [mapCurWriteableFrom, (hf r).1, (hf r).2, if_pos h, ih]
    · simp only [mapCurWriteableFrom, if_neg h, ih]

theorem curWriteableFrom_map (f : Regst → Regst) (hf : KeepsSlot f) :
    ∀ (rs : List Regst) (seen : List Nat),
      curWriteableFrom seen (mapCurWriteableFrom f seen rs)
        = (curWriteableFrom seen rs).map f := by
  intro rs
  induction rs with
  | nil => intro seen; rfl
  | cons r rs ih =>
    intro seen
    by_cases h : r.reading_cnt = 0 ∧ r.regst_desc_id ∉ seen
    · simp only [mapCurWriteableFrom, curWriteableFrom, (hf r).1, (hf r).2, if_pos h, ih,
        List.map_cons]
    · simp only [mapCurWriteableFrom, curWriteableFrom, if_neg h, ih]

theorem keepsSlot_reset (B : Nat) : KeepsSlot (resetIfBatchDone B) := by
  intro r
  unfold resetIfBatchDone
  cases r.model_diff_acc_cnt with
  | none => exact ⟨rfl, rfl⟩
  | some c =>
    by_cases h : c ≠ B
    · simp only [if_pos h, and_self]
    · simp only [if_neg h, and_self]

theorem keepsSlot_add (src : List Int) :
    KeepsSlot (fun regst => { regst with packed_blob := addInto regst.packed_blob src }) :=
  fun _ => ⟨rfl, rfl⟩

theorem AsyncLaunchKernel_eq (s : MdDiffAccActor) (w : RegstWrapper) (rest : List RegstWrapper)
    (h : s.waiting_in_regst_ = w :: rest) :
    AsyncLaunchKernel s = .ok (ForEachCurWriteableRegst
      (fun regst => { regst with packed_blob := addInto regst.packed_blob (kernelSrc s w) }) s) := by
  unfold AsyncLaunchKernel Regst4RegstDescId GetCurWriteableRegst kernelSrc
  rw [h]
  cases hf : (curWriteableRegsts s).find? (fun r => r.regst_desc_id = w.regst_desc_id) with
  | none => simp [resolvedBlob, hf]
  | some r => simp [resolvedBlob, hf]

theorem Act_eq (B : Nat) (s : MdDiffAccActor) (w : RegstWrapper) (rest : List RegstWrapper)
    (h : s.waiting_in_regst_ = w :: rest) (hp : w.piece_id = s.expected_piece_id_)
    (hc : (curWriteableRegsts s).any (fun regst => regst.model_diff_acc_cnt.isNone) = false) :
    Act B s = .ok (actResult B s w rest) := by
  unfold Act
  rw [h]
  simp only [expected_piece_id, hp, ne_eq, not_true_eq_false, if_false, hc, Bool.false_eq_true]
  have h1 : (ForEachCurWriteableRegst (resetIfBatchDone B) s).waiting_in_regst_ = w :: rest := h
  rw [AsyncLaunchKernel_eq _ w rest h1]
  simp only [AsyncSendRegstMsgToProducer, AsyncSendReadableRegstMsg, ForEachCurWriteableRegst,
    curWriteableRegsts, actResult, actSrc, actRegst, kernelSrc]
  rw [mapCurWriteableFrom_comp _ _ (keepsSlot_reset B), curWriteableFrom_map _ (keepsSlot_reset B)]
  rw [mapCurWriteableFrom_comp _ _ (fun r => ⟨by simp [(keepsSlot_reset B r).1],
    by simp [(keepsSlot_reset B r).2]⟩)]
  rw [curWriteableFrom_map _ (fun r => ⟨by simp [(keepsSlot_reset B r).1],
    by simp [(keepsSlot_reset B r).2]⟩)]
  simp only [List.map_map, Function.comp_def]
  rfl

theorem idle_step (B expected piece_id consumer cnt : Nat) (blob v : List Int)
    (sent : List OutMsg) :
    runMsgs B (idleActor .HandleNormal expected piece_id blob consumer cnt sent)
        [inRegstMsg expected v, outRegstReturnMsg]
      = .ok (idleActor .HandleNormal (expected + 1) expected (addInto (accBase B cnt blob) v) consumer
          (accCnt B cnt)
          (sent ++ stepTrace B expected consumer cnt blob v)) := by
  by_cases hB : cnt = B
  · simp [runMsgs, ProcessMsg, idleActor, inRegstMsg, inRegst, outRegstReturnMsg, outRegstReturn, HandleNormal,
      TryUpdtStateAsProducedRegst, ActUntilFail, ActUntilFailLoop, IsReadReady, IsWriteReady,
      curWriteableRegsts, curWriteableFrom, mapCurWriteableFrom, Act, expected_piece_id,
      ForEachCurWriteableRegst, AsyncLaunchKernel, Regst4RegstDescId, GetCurWriteableRegst,
      resolvedBlob, AsyncSendReadableRegstMsg, AsyncSendRegstMsgToProducer, readableMsgs,
      resetIfBatchDone, tagAndCount, accBase, accCnt, stepTrace, hB]
  · simp [runMsgs, ProcessMsg, idleActor, inRegstMsg, inRegst, outRegstReturnMsg, outRegstReturn, HandleNormal,
      TryUpdtStateAsProducedRegst, ActUntilFail, ActUntilFailLoop, IsReadReady, IsWriteReady,
      curWriteableRegsts, curWriteableFrom, mapCurWriteableFrom, Act, expected_piece_id,
      ForEachCurWriteableRegst, AsyncLaunchKernel, Regst4RegstDescId, GetCurWriteableRegst,
      resolvedBlob, AsyncSendReadableRegstMsg, AsyncSendRegstMsgToProducer, readableMsgs,
      resetIfBatchDone, tagAndCount, accBase, accCnt, stepTrace, hB]

theorem runMsgs_append (B : Nat) (ms1 ms2 : List ActorMsg) :
    ∀ s s1, runMsgs B s ms1 = .ok s1 → runMsgs B s (ms1 ++ ms2) = runMsgs B s1 ms2 := by
  induction ms1 with
  | nil =>
    intro s s1 h
    simp only [runMsgs, Outcome.ok.injEq] at h
    rw [h]; rfl
  | cons m ms ih =>
    intro s s1 h
    simp only [runMsgs, List.cons_append] at h ⊢
    cases hp : ProcessMsg B s m with
    | ok v =>
      obtain ⟨s2, r⟩ := v
      rw [hp] at h
      exact ih s2 s1 h
    | fatal a => rw [hp] at h; cases h
    | undefined => rw [hp] at h; cases h

theorem forwardedRegsts_append (xs ys : List OutMsg) :
    forwardedRegsts (xs ++ ys) = forwardedRegsts xs ++ forwardedRegsts ys := by
  induction xs with
  | nil => rfl
  | cons x xs ih => cases x <;> simp [forwardedRegsts, ih]

theorem returnedRegsts_append (xs ys : List OutMsg) :
    returnedRegsts (xs ++ ys) = returnedRegsts xs ++ returnedRegsts ys := by
  induction xs with
  | nil => rfl
  | cons x xs ih => cases x <;> simp [returnedRegsts, ih]

theorem eordPart_append (xs ys : List OutMsg) :
    eordPart (xs ++ ys) = eordPart xs ++ eordPart ys := by
  induction xs with
  | nil => rfl
  | cons x xs ih => cases x <;> simp [eordPart, ih]

theorem run_inOrder (B consumer : Nat) :
    ∀ (vs : List (List Int)) (expected piece_id cnt : Nat) (blob : List Int) (sent : List OutMsg),
      ∃ piece_id1 cnt1 blob1 sent1,
        runMsgs B (idleActor .HandleNormal expected piece_id blob consumer cnt sent)
            (inOrderMsgs expected vs)
          = .ok (idleActor .HandleNormal (expected + vs.length) piece_id1 blob1 consumer cnt1
              (sent ++ sent1)) ∧
        (forwardedRegsts sent1).map (fun r => r.packed_blob) = runningBlobs B cnt blob vs ∧
        (returnedRegsts sent1).length = vs.length ∧ eordPart sent1 = [] := by
  intro vs
  induction vs with
  | nil =>
    intro expected piece_id cnt blob sent
    exact ⟨piece_id, cnt, blob, [], by simp [inOrderMsgs, runMsgs], rfl, rfl, rfl⟩
  | cons v vs ih =>
    intro expected piece_id cnt blob sent
    obtain ⟨p1, c1, b1, t1, hrun, hfwd, hret, heord⟩ :=
      ih (expected + 1) expected (accCnt B cnt) (addInto (accBase B cnt blob) v)
        (sent ++ stepTrace B expected consumer cnt blob v)
    refine ⟨p1, c1, b1, stepTrace B expected consumer cnt blob v ++ t1, ?_, ?_, ?_, ?_⟩
    · have hstep := idle_step B expected piece_id consumer cnt blob v sent
      have := runMsgs_append B [inRegstMsg expected v, outRegstReturnMsg]
        (inOrderMsgs (expected + 1) vs) _ _ hstep
      simp only [List.cons_append, List.nil_append] at this
      simp only [inOrderMsgs, this, hrun, List.length_cons, List.append_assoc]
      congr 2
      omega
    · rw [forwardedRegsts_append, List.map_append, hfwd]
      simp [stepTrace, forwardedRegsts, runningBlobs]
    · rw [returnedRegsts_append, List.length_append, hret]
      simp [stepTrace, returnedRegsts]
      omega
    · rw [eordPart_append, heord]
      simp [stepTrace, eordPart]

theorem addInto_length : ∀ (out inp : List Int), (addInto out inp).length = out.length
  | [], [] => rfl
  | [], _ :: _ => rfl
  | _ :: _, [] => rfl
  | o :: os, i :: is => by simp [addInto, addInto_length os is]

theorem foldl_addInto_length (vs : List (List Int)) :
    ∀ blob : List Int, (vs.foldl addInto blob).length = blob.length := by
  induction vs with
  | nil => intro blob; rfl
  | cons v vs ih => intro blob; simp [List.foldl_cons, ih, addInto_length]

theorem scanl_eq_cons_tail {α β : Type} (f : β → α → β) (a : β) (l : List α) :
    List.scanl f a l = a :: (List.scanl f a l).tail := by
  cases l <;> simp [List.scanl]

theorem runningBlobs_within (B : Nat) (post : List (List Int)) :
    ∀ (pre : List (List Int)) (cnt : Nat) (blob : List Int), cnt + pre.length ≤ B →
      runningBlobs B cnt blob (pre ++ post)
        = (List.scanl addInto blob pre).tail
          ++ runningBlobs B (cnt + pre.length) (pre.foldl addInto blob) post := by
  intro pre
  induction pre with
  | nil => intro cnt blob _; simp [List.scanl]
  | cons v pre ih =>
    intro cnt blob h
    simp only [List.length_cons] at h
    have hne : cnt ≠ B := by omega
    have hb : accBase B cnt blob = blob := by simp [accBase, hne]
    have hc : accCnt B cnt = cnt + 1 := by simp [accCnt, hne]
    have e : runningBlobs B cnt blob (v :: (pre ++ post))
        = addInto (accBase B cnt blob) v ::
          runningBlobs B (accCnt B cnt) (addInto (accBase B cnt blob) v) (pre ++ post) := rfl
    rw [List.cons_append, e, hb, hc, ih (cnt + 1) (addInto blob v) (by omega)]
    simp only [List.scanl, List.tail_cons, List.foldl_cons, List.length_cons]
    rw [scanl_eq_cons_tail addInto (addInto blob v) pre]
    simp only [List.cons_append, List.tail_cons]
    congr 3
    omega

theorem runningBlobs_batch (B : Nat) (hB : 1 ≤ B) (b post : List (List Int)) (blob : List Int)
    (hb : b.length = B) :
    runningBlobs B B blob (b ++ post)
      = (List.scanl addInto (List.replicate blob.length 0) b).tail
        ++ runningBlobs B B (b.foldl addInto (List.replicate blob.length 0)) post := by
  cases b with
  | nil => simp at hb; omega
  | cons v b =>
    simp only [List.length_cons] at hb
    have hc : accCnt B B = 1 := by simp [accCnt]
    have hz : accBase B B blob = List.replicate blob.length 0 := by simp [accBase]
    have e : runningBlobs B B blob (v :: (b ++ post))
        = addInto (accBase B B blob) v ::
          runningBlobs B (accCnt B B) (addInto (accBase B B blob) v) (b ++ post) := rfl
    rw [List.cons_append, e, hz, hc, runningBlobs_within B post b 1 _ (by omega)]
    simp only [List.scanl, List.tail_cons, List.foldl_cons]
    rw [scanl_eq_cons_tail addInto (addInto (List.replicate blob.length 0) v) b]
    simp only [List.cons_append, List.tail_cons]
    congr 3
    omega

theorem runningBlobs_batches (B : Nat) (hB : 1 ≤ B) :
    ∀ (batches : List (List (List Int))) (blob : List Int),
      (∀ b ∈ batches, b.length = B) →
      runningBlobs B B blob batches.flatten
        = batches.flatMap
            (fun b => (List.scanl addInto (List.replicate blob.length 0) b).tail) := by
  intro batches
  induction batches with
  | nil => intro blob _; simp [runningBlobs]
  | cons b bs ih =>
    intro blob h
    have hb : b.length = B := h b (List.mem_cons_self _ _)
    simp only [List.flatten_cons, List.flatMap_cons]
    rw [runningBlobs_batch B hB b bs.flatten blob hb]
    rw [ih _ (fun x hx => h x (List.mem_cons_of_mem _ hx))]
    simp only [foldl_addInto_length, List.length_replicate]

theorem Init_soleOutRegst (blob : List Int) (consumer : Nat) :
    Init [soleOutRegst blob consumer] = idleActor .HandleNormal 0 0 blob consumer 0 [] := by
  simp [Init, CompActor_Init, ForEachCurWriteableRegst, mapCurWriteableFrom, soleOutRegst,
    idleActor]

theorem runningBlobs_length (B : Nat) :
    ∀ (vs : List (List Int)) (cnt : Nat) (blob : List Int),
      (runningBlobs B cnt blob vs).length = vs.length := by
  intro vs
  induction vs with
  | nil => intro cnt blob; rfl
  | cons v vs ih => intro cnt blob; simp [runningBlobs, ih]

theorem flatten_length_const {α : Type} (B : Nat) :
    ∀ (batches : List (List α)), (∀ b ∈ batches, b.length = B) →
      batches.flatten.length = batches.length * B := by
  intro batches
  induction batches with
  | nil => intro _; simp
  | cons b bs ih =>
    intro h
    simp only [List.flatten_cons, List.length_append, List.length_cons,
      h b (List.mem_cons_self _ _), ih (fun x hx => h x (List.mem_cons_of_mem _ hx))]
    ring

theorem Act_ok_inv (B : Nat) (s s1 : MdDiffAccActor) (h : Act B s = .ok s1) :
    ∃ w rest, s.waiting_in_regst_ = w :: rest ∧ w.piece_id = s.expected_piece_id_ ∧
      (curWriteableRegsts s).any (fun regst => regst.model_diff_acc_cnt.isNone) = false ∧
      s1 = actResult B s w rest := by
  cases hw : s.waiting_in_regst_ with
  | nil => simp [Act, hw] at h
  | cons w rest =>
    by_cases hp : w.piece_id = s.expected_piece_id_
    · cases hc : (curWriteableRegsts s).any (fun regst => regst.model_diff_acc_cnt.isNone) with
      | true => simp [Act, hw, expected_piece_id, hp, hc] at h
      | false =>
        rw [Act_eq B s w rest hw hp hc] at h
        exact ⟨w, rest, rfl, hp, rfl, (Outcome.ok.inj h).symm⟩
    · simp [Act, hw, expected_piece_id, hp] at h

theorem Act_mismatch (B : Nat) (s : MdDiffAccActor) (w : RegstWrapper) (rest : List RegstWrapper)
    (hw : s.waiting_in_regst_ = w :: rest) (hp : w.piece_id ≠ s.expected_piece_id_) :
    Act B s = .fatal s := by
  simp [Act, hw, expected_piece_id, hp]

theorem Act_fatal_inv (B : Nat) (s a : MdDiffAccActor) (h : Act B s = .fatal a) : a = s := by
  cases hw : s.waiting_in_regst_ with
  | nil => simp [Act, hw] at h
  | cons w rest =>
    by_cases hp : w.piece_id = s.expected_piece_id_
    · cases hc : (curWriteableRegsts s).any (fun regst => regst.model_diff_acc_cnt.isNone) with
      | true => simp [Act, hw, expected_piece_id, hp, hc] at h
      | false => rw [Act_eq B s w rest hw hp hc] at h; cases h
    · rw [Act_mismatch B s w rest hw hp] at h
      exact (Outcome.fatal.inj h).symm

theorem returnedRegsts_readableMsgs (rs : List Regst) :
    returnedRegsts (rs.flatMap readableMsgs) = [] := by
  induction rs with
  | nil => rfl
  | cons r rs ih =>
    rw [List.flatMap_cons, returnedRegsts_append, ih, List.append_nil]
    unfold readableMsgs
    induction r.subscribers with
    | nil => rfl
    | cons c cs ihc => simpa [returnedRegsts] using ihc

theorem eordPart_readableMsgs (rs : List Regst) :
    eordPart (rs.flatMap readableMsgs) = [] := by
  induction rs with
  | nil => rfl
  | cons r rs ih =>
    rw [List.flatMap_cons, eordPart_append, ih, List.append_nil]
    unfold readableMsgs
    induction r.subscribers with
    | nil => rfl
    | cons c cs ihc => simpa [eordPart] using ihc

theorem slotView_mapCurWriteableFrom (f : Regst → Regst)
    (hf : ∀ r, (f r).regst_desc_id = r.regst_desc_id ∧ (f r).subscribers = r.subscribers) :
    ∀ (rs : List Regst) (seen : List Nat),
      slotView (mapCurWriteableFrom f seen rs) = slotView rs := by
  intro rs
  induction rs with
  | nil => intro seen; rfl
  | cons r rs ih =>
    intro seen
    by_cases h : r.reading_cnt = 0 ∧ r.regst_desc_id ∉ seen
    · simp only [mapCurWriteableFrom, if_pos h, slotView, List.map_cons, (hf r).1, (hf r).2]
      exact congrArg _ (ih _)
    · simp only [mapCurWriteableFrom, if_neg h, slotView, List.map_cons]
      exact congrArg _ (ih _)

theorem actRegst_slot (B : Nat) (w : RegstWrapper) (src : List Int) (r : Regst) :
    (actRegst B w src r).regst_desc_id = r.regst_desc_id ∧
    (actRegst B w src r).subscribers = r.subscribers ∧
    (actRegst B w src r).regst_id = r.regst_id := by
  unfold actRegst tagAndCount resetIfBatchDone
  cases r.model_diff_acc_cnt with
  | none => simp
  | some c => by_cases h : c = B <;> simp [h]

theorem Act_rel (B : Nat) (s s1 : MdDiffAccActor) (h : Act B s = .ok s1) : ActsRel s s1 := by
  obtain ⟨w, rest, hw, -, -, rfl⟩ := Act_ok_inv B s s1 h
  refine ⟨rfl, ?_, [w],
    ((curWriteableRegsts s).map (actRegst B w (actSrc B s w))).flatMap readableMsgs
      ++ [OutMsg.toProducer w], ?_, ?_, ?_, ?_⟩
  · show slotView (mapCurWriteableFrom _ [] s.produced_regsts_) = _
    apply slotView_mapCurWriteableFrom
    intro r
    exact ⟨(actRegst_slot B w (actSrc B s w) r).1, (actRegst_slot B w (actSrc B s w) r).2.1⟩
  · simpa [actResult] using hw
  · simp [actResult]
  · simp [returnedRegsts_append, returnedRegsts_readableMsgs, returnedRegsts]
  · simp [eordPart_append, eordPart_readableMsgs, eordPart]

theorem ActsRel_refl (s : MdDiffAccActor) : ActsRel s s :=
  ⟨rfl, rfl, [], [], rfl, (List.append_nil _).symm, rfl, rfl⟩

theorem ActsRel_trans (s s1 s2 : MdDiffAccActor) (h1 : ActsRel s s1) (h2 : ActsRel s1 s2) :
    ActsRel s s2 := by
  obtain ⟨a1, b1, k1, t1, d1, e1, f1, g1⟩ := h1
  obtain ⟨a2, b2, k2, t2, d2, e2, f2, g2⟩ := h2
  refine ⟨a2.trans a1, b2.trans b1, k1 ++ k2, t1 ++ t2, ?_, ?_, ?_, ?_⟩
  · rw [d1, d2, List.append_assoc]
  · rw [e2, e1, List.append_assoc]
  · rw [returnedRegsts_append, f1, f2]
  · rw [eordPart_append, g1, g2]; rfl

theorem ActUntilFailLoop_rel (B : Nat) :
    ∀ (fuel : Nat) (s : MdDiffAccActor),
      (∀ s1, ActUntilFailLoop B fuel s = .ok s1 → ActsRel s s1) ∧
      (∀ a, ActUntilFailLoop B fuel s = .fatal a → ActsRel s a) := by
  intro fuel
  induction fuel with
  | zero =>
    intro s
    constructor
    · intro s1 h
      simp only [ActUntilFailLoop, Outcome.ok.injEq] at h
      rw [← h]; exact ActsRel_refl s
    · intro a h; simp [ActUntilFailLoop] at h
  | succ fuel ih =>
    intro s
    by_cases hc : (IsReadReady s && IsWriteReady s) = true
    · cases ha : Act B s with
      | ok s1 =>
        have hr := Act_rel B s s1 ha
        constructor
        · intro s2 h
          simp only [ActUntilFailLoop, hc, if_true, ha] at h
          exact ActsRel_trans s s1 s2 hr ((ih s1).1 s2 h)
        · intro a h
          simp only [ActUntilFailLoop, hc, if_true, ha] at h
          exact ActsRel_trans s s1 a hr ((ih s1).2 a h)
      | fatal a0 =>
        constructor
        · intro s2 h
          simp [ActUntilFailLoop, hc, ha] at h
        · intro a h
          simp only [ActUntilFailLoop, hc, if_true, ha, Outcome.fatal.injEq] at h
          rw [← h, Act_fatal_inv B s a0 ha]; exact ActsRel_refl s
      | undefined =>
        constructor
        · intro s2 h
          simp [ActUntilFailLoop, hc, ha] at h
        · intro a h
          simp [ActUntilFailLoop, hc, ha] at h
    · constructor
      · intro s1 h
        simp only [ActUntilFailLoop, hc, Bool.false_eq_true, if_false, Outcome.ok.injEq] at h
        rw [← h]; exact ActsRel_refl s
      · intro a h
        simp [ActUntilFailLoop, hc] at h

theorem ActUntilFail_rel (B : Nat) (s s1 : MdDiffAccActor) (h : ActUntilFail B s = .ok s1) :
    ActsRel s s1 :=
  (ActUntilFailLoop_rel B _ s).1 s1 h

theorem ActUntilFail_rel_fatal (B : Nat) (s a : MdDiffAccActor)
    (h : ActUntilFail B s = .fatal a) : ActsRel s a :=
  (ActUntilFailLoop_rel B _ s).2 a h

theorem ActUntilFailLoop_exit (B : Nat) :
    ∀ (fuel : Nat) (s s1 : MdDiffAccActor), s.waiting_in_regst_.length ≤ fuel →
      ActUntilFailLoop B fuel s = .ok s1 → (IsReadReady s1 && IsWriteReady s1) = false := by
  intro fuel
  induction fuel with
  | zero =>
    intro s s1 hl h
    simp only [ActUntilFailLoop, Outcome.ok.injEq] at h
    have : s.waiting_in_regst_ = [] := List.length_eq_zero.mp (Nat.le_zero.mp hl)
    simp [← h, IsReadReady, this]
  | succ fuel ih =>
    intro s s1 hl h
    by_cases hc : (IsReadReady s && IsWriteReady s) = true
    · cases ha : Act B s with
      | ok s2 =>
        simp only [ActUntilFailLoop, hc, if_true, ha] at h
        obtain ⟨w, rest, hw, -, -, rfl⟩ := Act_ok_inv B s s2 ha
        refine ih _ s1 ?_ h
        rw [hw] at hl
        simpa [actResult] using Nat.le_of_succ_le_succ hl
      | fatal a0 => simp [ActUntilFailLoop, hc, ha] at h
      | undefined => simp [ActUntilFailLoop, hc, ha] at h
    · simp only [ActUntilFailLoop, hc, Bool.false_eq_true, if_false, Outcome.ok.injEq] at h
      rw [← h]
      simpa using hc

theorem ActUntilFail_exit (B : Nat) (s s1 : MdDiffAccActor) (h : ActUntilFail B s = .ok s1) :
    (IsReadReady s1 && IsWriteReady s1) = false :=
  ActUntilFailLoop_exit B _ s s1 (Nat.le_refl _) h

theorem forwardTargets_append (xs ys : List OutMsg) :
    forwardTargets (xs ++ ys) = forwardTargets xs ++ forwardTargets ys := by
  induction xs with
  | nil => rfl
  | cons x xs ih => cases x <;> simp [forwardTargets, ih]

theorem forwardTargets_readableMsgs (r : Regst) :
    forwardTargets (readableMsgs r) = r.subscribers.map (fun c => (c, r.regst_id)) := by
  unfold readableMsgs
  induction r.subscribers with
  | nil => rfl
  | cons c cs ih => simp [forwardTargets, ih]

theorem forwardTargets_act (f : Regst → Regst)
    (hf : ∀ r, (f r).subscribers = r.subscribers ∧ (f r).regst_id = r.regst_id) :
    ∀ rs : List Regst, forwardTargets ((rs.map f).flatMap readableMsgs)
      = rs.flatMap (fun r => r.subscribers.map (fun c => (c, r.regst_id))) := by
  intro rs
  induction rs with
  | nil => rfl
  | cons r rs ih =>
    simp only [List.map_cons, List.flatMap_cons, forwardTargets_append,
      forwardTargets_readableMsgs, ih, (hf r).1, (hf r).2]

theorem map_mapCurWriteableFrom_congr {β : Type} (proj : Regst → β) (f g : Regst → Regst)
    (h : ∀ r, proj (f r) = proj (g r)) :
    ∀ (rs : List Regst) (seen : List Nat),
      (mapCurWriteableFrom f seen rs).map proj = (mapCurWriteableFrom g seen rs).map proj := by
  intro rs
  induction rs with
  | nil => intro seen; rfl
  | cons r rs ih =>
    intro seen
    by_cases hc : r.reading_cnt = 0 ∧ r.regst_desc_id ∉ seen
    · simp only [mapCurWriteableFrom, if_pos hc, List.map_cons, h r, ih]
    · simp only [mapCurWriteableFrom, if_neg hc, List.map_cons, ih]

theorem actSrc_input (B : Nat) (s : MdDiffAccActor) (w : RegstWrapper)
    (hd : GetCurWriteableRegst s w.regst_desc_id = none) : actSrc B s w = w.packed_blob := by
  unfold GetCurWriteableRegst at hd
  have hk : ∀ r : Regst, (resetIfBatchDone B r).regst_desc_id = r.regst_desc_id :=
    fun r => (keepsSlot_reset B r).1
  unfold actSrc
  rw [List.find?_map]
  have : ((fun r : Regst => decide (r.regst_desc_id = w.regst_desc_id)) ∘ resetIfBatchDone B)
      = (fun r : Regst => decide (r.regst_desc_id = w.regst_desc_id)) := by
    funext r; simp [hk r]
  rw [this, hd]
  rfl

theorem actRegst_blob (B : Nat) (w : RegstWrapper) (src : List Int) (r : Regst) :
    (actRegst B w src r).packed_blob
      = addInto (if r.model_diff_acc_cnt = some B then List.replicate r.packed_blob.length 0
          else r.packed_blob) src := by
  unfold actRegst tagAndCount resetIfBatchDone
  cases r.model_diff_acc_cnt with
  | none => simp
  | some c => by_cases h : c = B <;> simp [h]

theorem actRegst_cnt (B : Nat) (w : RegstWrapper) (src : List Int) (r : Regst) :
    (actRegst B w src r).model_diff_acc_cnt
      = r.model_diff_acc_cnt.map (fun cnt => (if cnt = B then 0 else cnt) + 1) := by
  unfold actRegst tagAndCount resetIfBatchDone
  cases hc : r.model_diff_acc_cnt with
  | none => simp [hc]
  | some c => by_cases h : c = B <;> simp [h, hc]

theorem drain_step (B expected piece_id consumer cnt : Nat) (blob v : List Int)
    (sent : List OutMsg) :
    runMsgs B (idleActor .HandleNormal expected piece_id blob consumer cnt sent)
        [inRegstMsg expected v, .kCmdMsg .kEORD]
      = .ok (busyActor .HandleWaitUntilNoReadableRegst (expected + 1) expected
          (addInto (accBase B cnt blob) v) consumer (accCnt B cnt)
          (sent ++ stepTrace B expected consumer cnt blob v)) ∧
    ProcessMsg B (busyActor .HandleWaitUntilNoReadableRegst (expected + 1) expected
          (addInto (accBase B cnt blob) v) consumer (accCnt B cnt)
          (sent ++ stepTrace B expected consumer cnt blob v)) outRegstReturnMsg
      = .ok (idleActor .nullptr (expected + 1) expected
          (addInto (accBase B cnt blob) v) consumer (accCnt B cnt)
          (sent ++ stepTrace B expected consumer cnt blob v ++ [OutMsg.eord consumer 1]), 1) := by
  by_cases hB : cnt = B
  · simp [runMsgs, ProcessMsg, idleActor, busyActor, inRegstMsg, inRegst, outRegstReturnMsg, outRegstReturn,
      HandleNormal, HandleWaitUntilNoReadableRegst, AsyncSendEORDMsgForAllProducedRegstDesc,
      eordMsgs, producedRegstDescsFrom, total_reading_cnt,
      TryUpdtStateAsProducedRegst, ActUntilFail, ActUntilFailLoop, IsReadReady, IsWriteReady,
      curWriteableRegsts, curWriteableFrom, mapCurWriteableFrom, Act, expected_piece_id,
      ForEachCurWriteableRegst, AsyncLaunchKernel, Regst4RegstDescId, GetCurWriteableRegst,
      resolvedBlob, AsyncSendReadableRegstMsg, AsyncSendRegstMsgToProducer, readableMsgs,
      resetIfBatchDone, tagAndCount, accBase, accCnt, stepTrace, hB]
  · simp [runMsgs, ProcessMsg, idleActor, busyActor, inRegstMsg, inRegst, outRegstReturnMsg, outRegstReturn,
      HandleNormal, HandleWaitUntilNoReadableRegst, AsyncSendEORDMsgForAllProducedRegstDesc,
      eordMsgs, producedRegstDescsFrom, total_reading_cnt,
      TryUpdtStateAsProducedRegst, ActUntilFail, ActUntilFailLoop, IsReadReady, IsWriteReady,
      curWriteableRegsts, curWriteableFrom, mapCurWriteableFrom, Act, expected_piece_id,
      ForEachCurWriteableRegst, AsyncLaunchKernel, Regst4RegstDescId, GetCurWriteableRegst,
      resolvedBlob, AsyncSendReadableRegstMsg, AsyncSendRegstMsgToProducer, readableMsgs,
      resetIfBatchDone, tagAndCount, accBase, accCnt, stepTrace, hB]

theorem TryUpdt_none (s : MdDiffAccActor) (regst : Nat)
    (h : s.produced_regsts_.find? (fun r => r.regst_id = regst) = none) :
    TryUpdtStateAsProducedRegst s regst = .ok (s, -1) := by
  simp [TryUpdtStateAsProducedRegst, h]

theorem TryUpdt_ok (s s1 : MdDiffAccActor) (regst : Nat) (ret : Int)
    (h : TryUpdtStateAsProducedRegst s regst = .ok (s1, ret)) :
    s1.msg_handle_ = s.msg_handle_ ∧ s1.waiting_in_regst_ = s.waiting_in_regst_ ∧
    s1.sent_msgs = s.sent_msgs ∧ slotView s1.produced_regsts_ = slotView s.produced_regsts_ ∧
    (ret = 0 ∨ ret = -1) ∧
    (ret = 0 ↔ (s.produced_regsts_.find? (fun r => r.regst_id = regst)).isSome) := by
  unfold TryUpdtStateAsProducedRegst at h
  cases hf : s.produced_regsts_.find? (fun r => r.regst_id = regst) with
  | none =>
    simp only [hf, Outcome.ok.injEq, Prod.mk.injEq] at h
    obtain ⟨rfl, rfl⟩ := h
    simp
  | some r =>
    simp only [hf] at h
    by_cases hc : r.reading_cnt = 0 ∨ s.total_reading_cnt_ = 0
    · simp [hc] at h
    · simp only [hc, if_false, Outcome.ok.injEq, Prod.mk.injEq] at h
      obtain ⟨rfl, rfl⟩ := h
      refine ⟨rfl, rfl, rfl, ?_, Or.inl rfl, by simp⟩
      simp only [slotView, List.map_map]
      apply List.map_congr_left
      intro q _
      by_cases hq : q.regst_id = regst <;> simp [hq]

theorem TryUpdt_fatal (s a : MdDiffAccActor) (regst : Nat)
    (h : TryUpdtStateAsProducedRegst s regst = .fatal a) : a = s := by
  unfold TryUpdtStateAsProducedRegst at h
  cases hf : s.produced_regsts_.find? (fun r => r.regst_id = regst) with
  | none => simp [hf] at h
  | some r =>
    simp only [hf] at h
    by_cases hc : r.reading_cnt = 0 ∨ s.total_reading_cnt_ = 0
    · simp only [hc, if_true, Outcome.fatal.injEq] at h
      exact h.symm
    · simp [hc] at h

theorem TryUpdt_not_undefined (s : MdDiffAccActor) (regst : Nat) :
    TryUpdtStateAsProducedRegst s regst ≠ .undefined := by
  unfold TryUpdtStateAsProducedRegst
  cases hf : s.produced_regsts_.find? (fun r => r.regst_id = regst) with
  | none => simp
  | some r =>
    by_cases hc : r.reading_cnt = 0 ∨ s.total_reading_cnt_ = 0 <;> simp [hc]

theorem HandleNormal_ok_inv (B : Nat) (s s2 : MdDiffAccActor) (msg : ActorMsg) (ret : Int)
    (h : HandleNormal B s msg = .ok (s2, ret)) :
    ret = 0 ∧ ∃ s1, ActUntilFail B s1 = .ok s2 ∧
      (s1.msg_handle_ = s.msg_handle_ ∨
        s1.msg_handle_ = MsgHandle.HandleWaitUntilNoReadableRegst) ∧
      s1.sent_msgs = s.sent_msgs ∧
      slotView s1.produced_regsts_ = slotView s.produced_regsts_ ∧
      (s.msg_handle_ = MsgHandle.HandleNormal →
        s1.waiting_in_regst_ = s.waiting_in_regst_ ++ enqueuedBy s msg) := by
  unfold HandleNormal at h
  cases msg with
  | kCmdMsg cmd =>
    by_cases hc : cmd = ActorCmd.kEORD
    · simp only [hc, ne_eq, not_true_eq_false, if_false] at h
      cases ha : ActUntilFail B { s with msg_handle_ := MsgHandle.HandleWaitUntilNoReadableRegst }
        with
      | ok s3 =>
        simp only [ha, Outcome.ok.injEq, Prod.mk.injEq] at h
        obtain ⟨rfl, rfl⟩ := h
        exact ⟨rfl, _, ha, Or.inr rfl, rfl, rfl, fun _ => by simp [enqueuedBy]⟩
      | fatal a => simp [ha] at h
      | undefined => simp [ha] at h
    · simp [hc] at h
  | kRegstMsg w =>
    cases ht : TryUpdtStateAsProducedRegst s w.regst_raw_ptr with
    | ok v =>
      obtain ⟨s1, r⟩ := v
      obtain ⟨h1, h2, h3, h4, h5, h6⟩ := TryUpdt_ok s s1 _ r ht
      simp only [ht] at h
      by_cases hr : r = 0
      · simp only [hr, ne_eq, not_true_eq_false, if_false] at h
        cases ha : ActUntilFail B s1 with
        | ok s3 =>
          simp only [ha, Outcome.ok.injEq, Prod.mk.injEq] at h
          obtain ⟨rfl, rfl⟩ := h
          refine ⟨rfl, s1, ha, Or.inl h1, h3, h4, fun _ => ?_⟩
          have := h6.mp hr
          simp [enqueuedBy, h2, Option.isNone_iff_eq_none, Option.isSome_iff_ne_none.mp this]
        | fatal a => simp [ha] at h
        | undefined => simp [ha] at h
      · simp only [hr, ne_eq, not_false_eq_true, if_true] at h
        cases ha : ActUntilFail B
            { s1 with waiting_in_regst_ := s1.waiting_in_regst_ ++ [w] } with
        | ok s3 =>
          simp only [ha, Outcome.ok.injEq, Prod.mk.injEq] at h
          obtain ⟨rfl, rfl⟩ := h
          refine ⟨rfl, _, ha, Or.inl h1, h3, h4, fun hn => ?_⟩
          have hnone : s.produced_regsts_.find? (fun r => r.regst_id = w.regst_raw_ptr) = none := by
            cases hf : s.produced_regsts_.find? (fun r => r.regst_id = w.regst_raw_ptr) with
            | none => rfl
            | some q => exact absurd (h6.mpr (by simp [hf])) hr
          simp [enqueuedBy, h2, hn, hnone]
        | fatal a => simp [ha] at h
        | undefined => simp [ha] at h
    | fatal a => simp [ht] at h
    | undefined => simp [ht] at h

theorem HandleWaitUntilNoReadableRegst_ok_inv (B : Nat) (s s3 : MdDiffAccActor) (msg : ActorMsg)
    (ret : Int) (h : HandleWaitUntilNoReadableRegst B s msg = .ok (s3, ret)) :
    ∃ w s1 s2, msg = .kRegstMsg w ∧
      TryUpdtStateAsProducedRegst s w.regst_raw_ptr = .ok (s1, 0) ∧
      ActUntilFail B s1 = .ok s2 ∧
      ((s2.waiting_in_regst_ = [] ∧ s2.total_reading_cnt_ = 0 ∧ ret = 1 ∧
          s3 = { s2 with sent_msgs := s2.sent_msgs ++ eordMsgs s2,
                         msg_handle_ := MsgHandle.nullptr }) ∨
       (s2.waiting_in_regst_ = [] ∧ s2.total_reading_cnt_ ≠ 0 ∧ ret = 0 ∧
          s3 = { s2 with sent_msgs := s2.sent_msgs ++ eordMsgs s2,
                         msg_handle_ := MsgHandle.HandleWaitUntilReadingCntEqualZero }) ∨
       (s2.waiting_in_regst_ ≠ [] ∧ ret = 0 ∧ s3 = s2)) := by
  unfold HandleWaitUntilNoReadableRegst at h
  cases msg with
  | kCmdMsg cmd => simp at h
  | kRegstMsg w =>
    cases ht : TryUpdtStateAsProducedRegst s w.regst_raw_ptr with
    | ok v =>
      obtain ⟨s1, r⟩ := v
      simp only [ht] at h
      by_cases hr : r = 0
      · subst hr
        simp only [ne_eq, not_true_eq_false, if_false] at h
        cases ha : ActUntilFail B s1 with
        | ok s2 =>
          simp only [ha] at h
          refine ⟨w, s1, s2, rfl, ht, ha, ?_⟩
          by_cases hq : s2.waiting_in_regst_ = []
          · have he : s2.waiting_in_regst_.isEmpty = true := by rw [hq]; rfl
            simp only [he, if_true, total_reading_cnt,
              AsyncSendEORDMsgForAllProducedRegstDesc] at h
            by_cases h0 : s2.total_reading_cnt_ = 0
            · rw [if_pos h0] at h
              simp only [Outcome.ok.injEq, Prod.mk.injEq] at h
              exact Or.inl ⟨hq, h0, h.2.symm, h.1.symm⟩
            · rw [if_neg h0] at h
              simp only [Outcome.ok.injEq, Prod.mk.injEq] at h
              exact Or.inr (Or.inl ⟨hq, h0, h.2.symm, h.1.symm⟩)
          · have he : s2.waiting_in_regst_.isEmpty = false := by
              cases hx : s2.waiting_in_regst_ with
              | nil => exact absurd hx hq
              | cons x xs => rfl
            simp only [he, Bool.false_eq_true, if_false, Outcome.ok.injEq, Prod.mk.injEq] at h
            exact Or.inr (Or.inr ⟨hq, h.2.symm, h.1.symm⟩)
        | fatal a => simp [ha] at h
        | undefined => simp [ha] at h
      · simp [hr] at h
    | fatal a => simp [ht] at h
    | undefined => simp [ht] at h

theorem HandleWaitUntilReadingCntEqualZero_ok_inv (s s2 : MdDiffAccActor) (msg : ActorMsg)
    (ret : Int) (h : HandleWaitUntilReadingCntEqualZero s msg = .ok (s2, ret)) :
    s2.sent_msgs = s.sent_msgs ∧ s2.waiting_in_regst_ = s.waiting_in_regst_ ∧
    slotView s2.produced_regsts_ = slotView s.produced_regsts_ ∧
    (s2.msg_handle_ = s.msg_handle_ ∨ s2.msg_handle_ = MsgHandle.nullptr) := by
  unfold HandleWaitUntilReadingCntEqualZero at h
  cases msg with
  | kCmdMsg cmd => simp at h
  | kRegstMsg w =>
    cases ht : TryUpdtStateAsProducedRegst s w.regst_raw_ptr with
    | ok v =>
      obtain ⟨s1, r⟩ := v
      obtain ⟨h1, h2, h3, h4, -, -⟩ := TryUpdt_ok s s1 _ r ht
      simp only [ht] at h
      by_cases hr : r = 0
      · simp only [hr, ne_eq, not_true_eq_false, if_false] at h
        by_cases h0 : total_reading_cnt s1 = 0
        · simp only [h0, if_true, Outcome.ok.injEq, Prod.mk.injEq] at h
          obtain ⟨rfl, -⟩ := h
          exact ⟨h3, h2, h4, Or.inr rfl⟩
        · simp only [h0, if_false, Outcome.ok.injEq, Prod.mk.injEq] at h
          obtain ⟨rfl, -⟩ := h
          exact ⟨h3, h2, h4, Or.inl h1⟩
      · simp [hr] at h
    | fatal a => simp [ht] at h
    | undefined => simp [ht] at h

theorem returnedRegsts_eordMsgs (s : MdDiffAccActor) : returnedRegsts (eordMsgs s) = [] := by
  unfold eordMsgs
  induction producedRegstDescsFrom [] s.produced_regsts_ with
  | nil => rfl
  | cons r rs ih =>
    rw [List.flatMap_cons, returnedRegsts_append, ih, List.append_nil]
    induction r.subscribers with
    | nil => rfl
    | cons c cs ihc => simpa [returnedRegsts] using ihc

theorem forwardedRegsts_eordMsgs (s : MdDiffAccActor) : forwardedRegsts (eordMsgs s) = [] := by
  unfold eordMsgs
  induction producedRegstDescsFrom [] s.produced_regsts_ with
  | nil => rfl
  | cons r rs ih =>
    rw [List.flatMap_cons, forwardedRegsts_append, ih, List.append_nil]
    induction r.subscribers with
    | nil => rfl
    | cons c cs ihc => simpa [forwardedRegsts] using ihc

theorem producedRegstDescsFrom_congr (g : Regst → List OutMsg)
    (hg : ∀ r q : Regst, r.regst_desc_id = q.regst_desc_id → r.subscribers = q.subscribers →
      g r = g q) :
    ∀ (rs qs : List Regst) (seen : List Nat), slotView rs = slotView qs →
      (producedRegstDescsFrom seen rs).flatMap g = (producedRegstDescsFrom seen qs).flatMap g := by
  intro rs
  induction rs with
  | nil =>
    intro qs seen h
    cases qs with
    | nil => rfl
    | cons q qs => simp [slotView] at h
  | cons r rs ih =>
    intro qs seen h
    cases qs with
    | nil => simp [slotView] at h
    | cons q qs =>
      simp only [slotView, List.map_cons, List.cons.injEq, Prod.mk.injEq] at h
      obtain ⟨⟨hd, hsub⟩, hrest⟩ := h
      by_cases hc : r.regst_desc_id ∉ seen
      · have hc2 : q.regst_desc_id ∉ seen := hd ▸ hc
        simp only [producedRegstDescsFrom, if_pos hc, if_pos hc2, List.flatMap_cons,
          hg r q hd hsub]
        rw [hd, ih qs _ hrest]
      · have hc2 : ¬ q.regst_desc_id ∉ seen := hd ▸ hc
        simp only [producedRegstDescsFrom, if_neg hc, if_neg hc2]
        exact ih qs _ hrest

theorem eordMsgs_congr (s s1 : MdDiffAccActor)
    (h : slotView s1.produced_regsts_ = slotView s.produced_regsts_) :
    eordMsgs s1 = eordMsgs s := by
  unfold eordMsgs
  apply producedRegstDescsFrom_congr _ _ _ _ _ h
  intro r q hd hsub
  rw [hd, hsub]

theorem isWriteReady_congr (s s1 : MdDiffAccActor)
    (h : s1.produced_regsts_ = s.produced_regsts_) : IsWriteReady s1 = IsWriteReady s := by
  simp [IsWriteReady, curWriteableRegsts, h]

theorem mem_readableMsgs_flatMap (rs : List Regst) (m : OutMsg)
    (hm : m ∈ rs.flatMap readableMsgs) : ∃ consumer regst, m = OutMsg.readable consumer regst := by
  simp only [List.mem_flatMap, readableMsgs, List.mem_map] at hm
  obtain ⟨r, -, c, -, rfl⟩ := hm
  exact ⟨c, r, rfl⟩

theorem ProcessMsg_after (B : Nat) (s s1 : MdDiffAccActor) (msg : ActorMsg) (ret : Int)
    (ha : AfterEORD s) (h : ProcessMsg B s msg = .ok (s1, ret)) :
    s1.sent_msgs = s.sent_msgs ∧ AfterEORD s1 ∧
    s1.waiting_in_regst_ = s.waiting_in_regst_ := by
  unfold ProcessMsg at h
  rcases ha with ha | ha
  · simp only [ha] at h
    obtain ⟨h1, h2, -, h4⟩ := HandleWaitUntilReadingCntEqualZero_ok_inv s s1 msg ret h
    refine ⟨h1, ?_, h2⟩
    rcases h4 with h4 | h4
    · exact Or.inl (h4.trans ha)
    · exact Or.inr h4
  · simp [ha] at h

theorem ProcessMsg_before (B : Nat) (s s1 : MdDiffAccActor) (msg : ActorMsg) (ret : Int)
    (hb : BeforeEORD s) (h : ProcessMsg B s msg = .ok (s1, ret)) :
    slotView s1.produced_regsts_ = slotView s.produced_regsts_ ∧
    ∃ consumed sent,
      s.waiting_in_regst_ ++ enqueuedBy s msg = consumed ++ s1.waiting_in_regst_ ∧
      returnedRegsts sent = consumed ∧ eordPart sent = [] ∧
      ((BeforeEORD s1 ∧ s1.sent_msgs = s.sent_msgs ++ sent) ∨
       (AfterEORD s1 ∧ s1.sent_msgs = s.sent_msgs ++ sent ++ eordMsgs s ∧
          s.msg_handle_ = MsgHandle.HandleWaitUntilNoReadableRegst ∧
          s1.waiting_in_regst_ = [])) := by
  unfold ProcessMsg at h
  rcases hb with hb | hb
  · simp only [hb] at h
    obtain ⟨-, s0, hact, hh, hsent, hslot, hq⟩ := HandleNormal_ok_inv B s s1 msg ret h
    obtain ⟨r1, r2, consumed, sent, r3, r4, r5, r6⟩ := ActUntilFail_rel B s0 s1 hact
    refine ⟨r2.trans hslot, consumed, sent, ?_, r5, r6, Or.inl ⟨?_, ?_⟩⟩
    · rw [← hq hb, r3]
    · rcases hh with hh | hh
      · exact Or.inl (r1.trans (hh.trans hb))
      · exact Or.inr (r1.trans hh)
    · rw [r4, hsent]
  · simp only [hb] at h
    obtain ⟨w, s0, s2, rfl, ht, hact, hcases⟩ :=
      HandleWaitUntilNoReadableRegst_ok_inv B s s1 msg ret h
    obtain ⟨t1, t2, t3, t4, -, -⟩ := TryUpdt_ok s s0 _ 0 ht
    obtain ⟨r1, r2, consumed, sent, r3, r4, r5, r6⟩ := ActUntilFail_rel B s0 s2 hact
    have henq : enqueuedBy s (.kRegstMsg w) = [] := by simp [enqueuedBy, hb]
    have heord : eordMsgs s2 = eordMsgs s := eordMsgs_congr s s2 (r2.trans t4)
    rcases hcases with ⟨hq, -, -, rfl⟩ | ⟨hq, -, -, rfl⟩ | ⟨-, -, rfl⟩
    · refine ⟨r2.trans t4, consumed, sent, ?_, r5, r6, Or.inr ⟨Or.inr rfl, ?_, hb, hq⟩⟩
      · rw [henq, List.append_nil, ← t2, r3]
      · simp only [r4, t3, heord]
    · refine ⟨r2.trans t4, consumed, sent, ?_, r5, r6, Or.inr ⟨Or.inl rfl, ?_, hb, hq⟩⟩
      · rw [henq, List.append_nil, ← t2, r3]
      · simp only [r4, t3, heord]
    · refine ⟨r2.trans t4, consumed, sent, ?_, r5, r6, Or.inl ⟨Or.inr ?_, ?_⟩⟩
      · rw [henq, List.append_nil, ← t2, r3]
      · exact r1.trans (t1.trans hb)
      · rw [r4, t3]

theorem runMsgs_after (B : Nat) :
    ∀ (msgs : List ActorMsg) (s s2 : MdDiffAccActor), AfterEORD s →
      runMsgs B s msgs = .ok s2 → s2.sent_msgs = s.sent_msgs ∧ AfterEORD s2 := by
  intro msgs
  induction msgs with
  | nil =>
    intro s s2 ha h
    simp only [runMsgs, Outcome.ok.injEq] at h
    rw [← h]; exact ⟨rfl, ha⟩
  | cons m ms ih =>
    intro s s2 ha h
    simp only [runMsgs] at h
    cases hp : ProcessMsg B s m with
    | ok v =>
      obtain ⟨s1, r⟩ := v
      rw [hp] at h
      obtain ⟨h1, h2, -⟩ := ProcessMsg_after B s s1 m r ha hp
      obtain ⟨h3, h4⟩ := ih s1 s2 h2 h
      exact ⟨h3.trans h1, h4⟩
    | fatal a => rw [hp] at h; cases h
    | undefined => rw [hp] at h; cases h

theorem runMsgs_before (B : Nat) :
    ∀ (msgs : List ActorMsg) (s s2 : MdDiffAccActor), BeforeEORD s →
      runMsgs B s msgs = .ok s2 →
      ∃ sent, eordPart sent = [] ∧
        ((BeforeEORD s2 ∧ slotView s2.produced_regsts_ = slotView s.produced_regsts_ ∧
            s2.sent_msgs = s.sent_msgs ++ sent) ∨
         (AfterEORD s2 ∧ s2.sent_msgs = s.sent_msgs ++ sent ++ eordMsgs s)) := by
  intro msgs
  induction msgs with
  | nil =>
    intro s s2 hb h
    simp only [runMsgs, Outcome.ok.injEq] at h
    rw [← h]
    exact ⟨[], rfl, Or.inl ⟨hb, rfl, (List.append_nil _).symm⟩⟩
  | cons m ms ih =>
    intro s s2 hb h
    simp only [runMsgs] at h
    cases hp : ProcessMsg B s m with
    | ok v =>
      obtain ⟨s1, r⟩ := v
      rw [hp] at h
      obtain ⟨hslot, consumed, sent, -, -, he, hcases⟩ := ProcessMsg_before B s s1 m r hb hp
      rcases hcases with ⟨hb1, hs1⟩ | ⟨ha1, hs1, -, -⟩
      · obtain ⟨sent2, he2, hc2⟩ := ih s1 s2 hb1 h
        refine ⟨sent ++ sent2, by rw [eordPart_append, he, he2]; rfl, ?_⟩
        rcases hc2 with ⟨hb2, hslot2, hs2⟩ | ⟨ha2, hs2⟩
        · exact Or.inl ⟨hb2, hslot2.trans hslot, by rw [hs2, hs1, List.append_assoc]⟩
        · refine Or.inr ⟨ha2, ?_⟩
          rw [hs2, hs1, eordMsgs_congr s s1 hslot]
          simp only [List.append_assoc]
      · obtain ⟨h3, h4⟩ := runMsgs_after B ms s1 s2 ha1 h
        exact ⟨sent, he, Or.inr ⟨h4, h3.trans hs1⟩⟩
    | fatal a => rw [hp] at h; cases h
    | undefined => rw [hp] at h; cases h

theorem mem_producedRegstDescsFrom :
    ∀ (rs : List Regst) (seen : List Nat) (r : Regst), r ∈ rs → r.regst_desc_id ∉ seen →
      ∃ q ∈ producedRegstDescsFrom seen rs, q ∈ rs ∧ q.regst_desc_id = r.regst_desc_id := by
  intro rs
  induction rs with
  | nil => intro seen r hr; cases hr
  | cons x xs ih =>
    intro seen r hr hns
    by_cases hx : x.regst_desc_id ∉ seen
    · simp only [producedRegstDescsFrom, if_pos hx]
      by_cases hd : r.regst_desc_id = x.regst_desc_id
      · exact ⟨x, List.mem_cons_self _ _, List.mem_cons_self _ _, hd.symm⟩
      · have hrx : r ∈ xs := by
          rcases List.mem_cons.mp hr with h | h
          · exact absurd (congrArg Regst.regst_desc_id h) hd
          · exact h
        have hns2 : r.regst_desc_id ∉ x.regst_desc_id :: seen := by
          intro hm
          rcases List.mem_cons.mp hm with h | h
          · exact hd h
          · exact hns h
        obtain ⟨q, hq1, hq2, hq3⟩ := ih _ r hrx hns2
        exact ⟨q, List.mem_cons_of_mem _ hq1, List.mem_cons_of_mem _ hq2, hq3⟩
    · simp only [producedRegstDescsFrom, if_neg hx]
      have hrx : r ∈ xs := by
        rcases List.mem_cons.mp hr with h | h
        · exact absurd (h ▸ hns) hx
        · exact h
      obtain ⟨q, hq1, hq2, hq3⟩ := ih _ r hrx hns
      exact ⟨q, hq1, List.mem_cons_of_mem _ hq2, hq3⟩

theorem eordMsgs_covers (s : MdDiffAccActor) (r : Regst) (hr : r ∈ s.produced_regsts_) :
    ∃ q ∈ s.produced_regsts_, q.regst_desc_id = r.regst_desc_id ∧
      ∀ c ∈ q.subscribers, OutMsg.eord c r.regst_desc_id ∈ eordMsgs s := by
  obtain ⟨q, hq1, hq2, hq3⟩ :=
    mem_producedRegstDescsFrom s.produced_regsts_ [] r hr (List.not_mem_nil _)
  refine ⟨q, hq2, hq3, fun c hc => ?_⟩
  unfold eordMsgs
  rw [List.mem_flatMap]
  exact ⟨q, hq1, List.mem_map.mpr ⟨c, hc, by rw [hq3]⟩⟩

theorem ActUntilFail_at_rest (B : Nat) (s : MdDiffAccActor)
    (h : (IsReadReady s && IsWriteReady s) = false) : ActUntilFail B s = .ok s := by
  unfold ActUntilFail
  cases s.waiting_in_regst_.length with
  | zero => rfl
  | succ n => simp [ActUntilFailLoop, h]

theorem HandleNormal_eord (B : Nat) (s : MdDiffAccActor) :
    HandleNormal B s (.kCmdMsg .kEORD)
      = returning 0 (ActUntilFail B
          { s with msg_handle_ := MsgHandle.HandleWaitUntilNoReadableRegst }) := by
  cases hx : ActUntilFail B { s with msg_handle_ := MsgHandle.HandleWaitUntilNoReadableRegst }
    <;> simp [HandleNormal, returning, hx]

theorem ProcessMsg_fifo (B : Nat) (s s1 : MdDiffAccActor) (msg : ActorMsg) (ret : Int)
    (h : ProcessMsg B s msg = .ok (s1, ret)) :
    ∃ consumed, s.waiting_in_regst_ ++ enqueuedBy s msg = consumed ++ s1.waiting_in_regst_ ∧
      returnedRegsts s1.sent_msgs = returnedRegsts s.sent_msgs ++ consumed := by
  by_cases hb : BeforeEORD s
  · obtain ⟨-, consumed, sent, h1, h2, -, h4⟩ := ProcessMsg_before B s s1 msg ret hb h
    refine ⟨consumed, h1, ?_⟩
    rcases h4 with ⟨-, h4⟩ | ⟨-, h4, -, -⟩
    · rw [h4, returnedRegsts_append, h2]
    · rw [h4, returnedRegsts_append, returnedRegsts_append, h2, returnedRegsts_eordMsgs,
        List.append_nil]
  · have ha : AfterEORD s := by
      unfold BeforeEORD at hb
      unfold AfterEORD
      cases hh : s.msg_handle_ <;> simp [hh] at hb ⊢
    obtain ⟨h1, -, h3⟩ := ProcessMsg_after B s s1 msg ret ha h
    have henq : enqueuedBy s msg = [] := by
      cases msg with
      | kCmdMsg c => rfl
      | kRegstMsg w =>
        rcases ha with ha | ha <;> simp [enqueuedBy, ha]
    exact ⟨[], by rw [henq, h3]; simp, by rw [h1]; simp⟩

theorem runMsgs_fifo (B : Nat) :
    ∀ (msgs : List ActorMsg) (s s2 : MdDiffAccActor), runMsgs B s msgs = .ok s2 →
      ∃ consumed,
        s.waiting_in_regst_ ++ enqueuedAlong B s msgs = consumed ++ s2.waiting_in_regst_ ∧
        returnedRegsts s2.sent_msgs = returnedRegsts s.sent_msgs ++ consumed := by
  intro msgs
  induction msgs with
  | nil =>
    intro s s2 h
    simp only [runMsgs, Outcome.ok.injEq] at h
    rw [← h]
    exact ⟨[], by simp [enqueuedAlong], by simp⟩
  | cons m ms ih =>
    intro s s2 h
    simp only [runMsgs] at h
    cases hp : ProcessMsg B s m with
    | ok v =>
      obtain ⟨s1, r⟩ := v
      rw [hp] at h
      obtain ⟨c1, h1, h2⟩ := ProcessMsg_fifo B s s1 m r hp
      obtain ⟨c2, h3, h4⟩ := ih s1 s2 h
      refine ⟨c1 ++ c2, ?_, ?_⟩
      · simp only [enqueuedAlong, hp]
        rw [← List.append_assoc, h1, List.append_assoc, h3, List.append_assoc]
      · rw [h4, h2, List.append_assoc]
    | fatal a => rw [hp] at h; cases h
    | undefined => rw [hp] at h; cases h

theorem mapCurWriteableFrom_forall₂ (f : Regst → Regst) (P : Regst → Regst → Prop)
    (hsame : ∀ r, P r r) (hf : ∀ r, r.reading_cnt = 0 → P r (f r)) :
    ∀ (rs : List Regst) (seen : List Nat),
      List.Forall₂ P rs (mapCurWriteableFrom f seen rs) := by
  intro rs
  induction rs with
  | nil => intro seen; exact List.Forall₂.nil
  | cons r rs ih =>
    intro seen
    by_cases hc : r.reading_cnt = 0 ∧ r.regst_desc_id ∉ seen
    · simp only [mapCurWriteableFrom, if_pos hc]
      exact List.Forall₂.cons (hf r hc.1) (ih _)
    · simp only [mapCurWriteableFrom, if_neg hc]
      exact List.Forall₂.cons (hsame r) (ih _)

theorem curWriteableFrom_reading_cnt :
    ∀ (rs : List Regst) (seen : List Nat), ∀ r ∈ curWriteableFrom seen rs,
      r.reading_cnt = 0 ∧ r ∈ rs := by
  intro rs
  induction rs with
  | nil => intro seen r hr; cases hr
  | cons x xs ih =>
    intro seen r hr
    by_cases hc : x.reading_cnt = 0 ∧ x.regst_desc_id ∉ seen
    · simp only [curWriteableFrom, if_pos hc, List.mem_cons] at hr
      rcases hr with rfl | hr
      · exact ⟨hc.1, List.mem_cons_self _ _⟩
      · exact ⟨(ih _ r hr).1, List.mem_cons_of_mem _ (ih _ r hr).2⟩
    · simp only [curWriteableFrom, if_neg hc] at hr
      exact ⟨(ih _ r hr).1, List.mem_cons_of_mem _ (ih _ r hr).2⟩

theorem map_forall₂ {α : Type} (P : α → α → Prop) (g : α → α) (hg : ∀ a, P a (g a)) :
    ∀ l : List α, List.Forall₂ P l (l.map g) := by
  intro l
  induction l with
  | nil => exact List.Forall₂.nil
  | cons a l ih => exact List.Forall₂.cons (hg a) ih

theorem addInto_replicate_zero :
    ∀ (v : List Int), addInto (List.replicate v.length 0) v = v := by
  intro v
  induction v with
  | nil => rfl
  | cons x xs ih => simp [List.replicate_succ, addInto, ih]

theorem runningBlobs_batch_one :
    ∀ (vs : List (List Int)) (blob : List Int), (∀ v ∈ vs, v.length = blob.length) →
      runningBlobs 1 1 blob vs = vs := by
  intro vs
  induction vs with
  | nil => intro blob _; rfl
  | cons v vs ih =>
    intro blob h
    have hv : v.length = blob.length := h v (List.mem_cons_self _ _)
    have e : runningBlobs 1 1 blob (v :: vs)
        = addInto (accBase 1 1 blob) v ::
          runningBlobs 1 (accCnt 1 1) (addInto (accBase 1 1 blob) v) vs := rfl
    have hb : addInto (accBase 1 1 blob) v = v := by
      simp only [accBase, if_true, ← hv]
      exact addInto_replicate_zero v
    have hc : accCnt 1 1 = 1 := rfl
    rw [e, hb, hc, ih v (fun x hx => (h x (List.mem_cons_of_mem _ hx)).trans hv.symm)]

theorem eraseRegst_idem (r : Regst) : eraseRegst (eraseRegst r) = eraseRegst r := by
  cases r with
  | mk a b c d e f g => cases g <;> rfl

theorem eraseMsg_idem (m : OutMsg) : eraseMsg (eraseMsg m) = eraseMsg m := by
  cases m with
  | readable c r => simp [eraseMsg, eraseRegst_idem]
  | toProducer w => rfl
  | eord c d => rfl

theorem eraseActor_idem (s : MdDiffAccActor) : eraseActor (eraseActor s) = eraseActor s := by
  simp [eraseActor, List.map_map, Function.comp_def, eraseRegst_idem, eraseMsg_idem]

theorem curWriteableFrom_map_erase (e : Regst → Regst) (hk : KeepsSlot e) :
    ∀ (rs : List Regst) (seen : List Nat),
      curWriteableFrom seen (rs.map e) = (curWriteableFrom seen rs).map e := by
  intro rs
  induction rs with
  | nil => intro seen; rfl
  | cons r rs ih =>
    intro seen
    by_cases h : r.reading_cnt = 0 ∧ r.regst_desc_id ∉ seen
    · simp only [List.map_cons, curWriteableFrom, (hk r).1, (hk r).2, if_pos h, ih]
    · simp only [List.map_cons, curWriteableFrom, (hk r).1, (hk r).2, if_neg h, ih]

theorem map_erase_mapCurWriteableFrom (e f g : Regst → Regst) (hk : KeepsSlot e)
    (hid : ∀ r, e (e r) = e r) (hf : ∀ r, e (f r) = e (g (e r))) :
    ∀ (rs : List Regst) (seen : List Nat),
      (mapCurWriteableFrom f seen rs).map e
        = (mapCurWriteableFrom g seen (rs.map e)).map e := by
  intro rs
  induction rs with
  | nil => intro seen; rfl
  | cons r rs ih =>
    intro seen
    by_cases h : r.reading_cnt = 0 ∧ r.regst_desc_id ∉ seen
    · simp only [List.map_cons, mapCurWriteableFrom, (hk r).1, (hk r).2, if_pos h, ih, hf r]
    · simp only [List.map_cons, mapCurWriteableFrom, (hk r).1, (hk r).2, if_neg h, ih, hid r]

theorem keepsSlot_eraseRegst : KeepsSlot eraseRegst := fun _ => ⟨rfl, rfl⟩

theorem eraseRegst_actRegst (B : Nat) (w : RegstWrapper) (src src1 : List Int) (r : Regst) :
    eraseRegst (actRegst B w src r) = eraseRegst (actRegst B w src1 (eraseRegst r)) := by
  cases r with
  | mk a b c d e f g =>
    cases g with
    | none => simp [eraseRegst, actRegst, tagAndCount, resetIfBatchDone]
    | some cnt =>
      by_cases h1 : cnt = B <;> by_cases h2 : 0 = B <;>
        simp [eraseRegst, actRegst, tagAndCount, resetIfBatchDone, h1, h2]

theorem eraseMsg_readableMsgs_flatMap (g : Regst → Regst) :
    ∀ rs : List Regst, ((rs.map g).flatMap readableMsgs).map eraseMsg
      = rs.flatMap (fun r => (g r).subscribers.map
          (fun consumer => OutMsg.readable consumer (eraseRegst (g r)))) := by
  intro rs
  induction rs with
  | nil => rfl
  | cons r rs ih =>
    simp only [List.map_cons, List.flatMap_cons, List.map_append, ih]
    congr 1
    simp [readableMsgs, List.map_map, Function.comp_def, eraseMsg]

theorem curWriteableRegsts_eraseActor (s : MdDiffAccActor) :
    curWriteableRegsts (eraseActor s) = (curWriteableRegsts s).map eraseRegst :=
  curWriteableFrom_map_erase eraseRegst keepsSlot_eraseRegst _ _

theorem any_isNone_eraseActor (s : MdDiffAccActor) :
    (curWriteableRegsts (eraseActor s)).any (fun regst => regst.model_diff_acc_cnt.isNone)
      = (curWriteableRegsts s).any (fun regst => regst.model_diff_acc_cnt.isNone) := by
  rw [curWriteableRegsts_eraseActor, List.any_map]
  congr 1
  funext r
  cases h : r.model_diff_acc_cnt <;> simp [eraseRegst, h]

theorem MdDiffAccActor_eq (a b : MdDiffAccActor) (h1 : a.msg_handle_ = b.msg_handle_)
    (h2 : a.waiting_in_regst_ = b.waiting_in_regst_)
    (h3 : a.expected_piece_id_ = b.expected_piece_id_)
    (h4 : a.produced_regsts_ = b.produced_regsts_)
    (h5 : a.total_reading_cnt_ = b.total_reading_cnt_)
    (h6 : a.sent_msgs = b.sent_msgs) : a = b := by
  cases a
  cases b
  simp only at h1 h2 h3 h4 h5 h6
  subst h1 h2 h3 h4 h5 h6
  rfl

theorem eraseRegst_actRegst_held (B : Nat) (w : RegstWrapper) (src src1 : List Int)
    (r : Regst) :
    eraseRegst { actRegst B w src r with
        reading_cnt := (actRegst B w src r).subscribers.length }
      = eraseRegst { actRegst B w src1 (eraseRegst r) with
          reading_cnt := (actRegst B w src1 (eraseRegst r)).subscribers.length } := by
  cases r with
  | mk a b c d e f g =>
    cases g with
    | none => simp [eraseRegst, actRegst, tagAndCount, resetIfBatchDone]
    | some cnt =>
      by_cases h1 : cnt = B <;> by_cases h2 : 0 = B <;>
        simp [eraseRegst, actRegst, tagAndCount, resetIfBatchDone, h1, h2]

theorem eraseActor_actResult (B : Nat) (s : MdDiffAccActor) (w : RegstWrapper)
    (rest : List RegstWrapper) :
    eraseActor (actResult B s w rest) = eraseActor (actResult B (eraseActor s) w rest) := by
  have hsub : ∀ (src : List Int) (r : Regst),
      (actRegst B w src r).subscribers = r.subscribers :=
    fun src r => (actRegst_slot B w src r).2.1
  apply MdDiffAccActor_eq
  · rfl
  · rfl
  · rfl
  · show (mapCurWriteableFrom _ [] s.produced_regsts_).map eraseRegst
      = (mapCurWriteableFrom _ [] (s.produced_regsts_.map eraseRegst)).map eraseRegst
    apply map_erase_mapCurWriteableFrom eraseRegst _ _ keepsSlot_eraseRegst eraseRegst_idem
    intro r
    exact eraseRegst_actRegst_held B w _ _ r
  · show s.total_reading_cnt_ + _ = s.total_reading_cnt_ + _
    rw [curWriteableRegsts_eraseActor]
    simp only [List.map_map, Function.comp_def, hsub]
    rfl
  · show (s.sent_msgs ++ _ ++ [OutMsg.toProducer w]).map eraseMsg
      = (s.sent_msgs.map eraseMsg ++ _ ++ [OutMsg.toProducer w]).map eraseMsg
    rw [List.map_append, List.map_append, List.map_append, List.map_append,
      curWriteableRegsts_eraseActor, eraseMsg_readableMsgs_flatMap,
      eraseMsg_readableMsgs_flatMap, List.flatMap_map]
    have e2 : (s.sent_msgs.map eraseMsg).map eraseMsg = s.sent_msgs.map eraseMsg := by
      simp [List.map_map, Function.comp_def, eraseMsg_idem]
    rw [e2]
    congr 2
    congr 1
    funext r
    rw [hsub, hsub, ← eraseRegst_actRegst B w (actSrc B s w) (actSrc B (eraseActor s) w) r]
    rfl

theorem Act_no_counter (B : Nat) (s : MdDiffAccActor) (w : RegstWrapper)
    (rest : List RegstWrapper) (hw : s.waiting_in_regst_ = w :: rest)
    (hp : w.piece_id = s.expected_piece_id_)
    (hc : (curWriteableRegsts s).any (fun regst => regst.model_diff_acc_cnt.isNone) = true) :
    Act B s = .undefined := by
  unfold Act
  rw [hw]
  simp only [expected_piece_id, hp, ne_eq, not_true_eq_false, if_false, hc, if_true]

theorem Act_erase (B : Nat) (s : MdDiffAccActor) :
    eraseOutcome (Act B s) = eraseOutcome (Act B (eraseActor s)) := by
  cases hw : s.waiting_in_regst_ with
  | nil =>
    have hw2 : (eraseActor s).waiting_in_regst_ = [] := hw
    simp [Act, hw, hw2]
  | cons w rest =>
    have hw2 : (eraseActor s).waiting_in_regst_ = w :: rest := hw
    by_cases hp : w.piece_id = s.expected_piece_id_
    · have hp2 : w.piece_id = (eraseActor s).expected_piece_id_ := hp
      cases hc : (curWriteableRegsts s).any (fun regst => regst.model_diff_acc_cnt.isNone) with
      | true =>
        have hc2 := (any_isNone_eraseActor s).trans hc
        rw [Act_no_counter B s w rest hw hp hc, Act_no_counter B _ w rest hw2 hp2 hc2]
      | false =>
        have hc2 := (any_isNone_eraseActor s).trans hc
        rw [Act_eq B s w rest hw hp hc, Act_eq B (eraseActor s) w rest hw2 hp2 hc2]
        simp only [eraseOutcome]
        rw [eraseActor_actResult]
    · have hp2 : w.piece_id ≠ (eraseActor s).expected_piece_id_ := hp
      rw [Act_mismatch B s w rest hw hp, Act_mismatch B (eraseActor s) w rest hw2 hp2]
      simp only [eraseOutcome, eraseActor_idem]

theorem Act_erase_congr (B : Nat) (s t : MdDiffAccActor) (h : eraseActor s = eraseActor t) :
    eraseOutcome (Act B s) = eraseOutcome (Act B t) := by
  rw [Act_erase B s, Act_erase B t, h]

theorem ready_erase_congr (s t : MdDiffAccActor) (h : eraseActor s = eraseActor t) :
    (IsReadReady s && IsWriteReady s) = (IsReadReady t && IsWriteReady t) := by
  have hw : s.waiting_in_regst_ = t.waiting_in_regst_ := by
    have hw0 : (eraseActor s).waiting_in_regst_ = (eraseActor t).waiting_in_regst_ := by rw [h]
    exact hw0
  have hc : (curWriteableRegsts s).map eraseRegst = (curWriteableRegsts t).map eraseRegst := by
    rw [← curWriteableRegsts_eraseActor, ← curWriteableRegsts_eraseActor, h]
  have he : (curWriteableRegsts s).isEmpty = (curWriteableRegsts t).isEmpty := by
    have hl := congrArg List.length hc
    rw [List.length_map, List.length_map] at hl
    cases hs : curWriteableRegsts s with
    | nil =>
      rw [hs] at hl
      cases ht : curWriteableRegsts t with
      | nil => rfl
      | cons b bs => rw [ht] at hl; simp at hl
    | cons a as =>
      rw [hs] at hl
      cases ht : curWriteableRegsts t with
      | nil => rw [ht] at hl; simp at hl
      | cons b bs => rfl
  simp only [IsReadReady, IsWriteReady, hw, he]

theorem ActUntilFailLoop_erase_congr (B : Nat) :
    ∀ (fuel : Nat) (s t : MdDiffAccActor), eraseActor s = eraseActor t →
      eraseOutcome (ActUntilFailLoop B fuel s) = eraseOutcome (ActUntilFailLoop B fuel t) := by
  intro fuel
  induction fuel with
  | zero =>
    intro s t h
    simp only [ActUntilFailLoop, eraseOutcome, h]
  | succ n ih =>
    intro s t h
    have hr := ready_erase_congr s t h
    have ha := Act_erase_congr B s t h
    by_cases hc : (IsReadReady s && IsWriteReady s) = true
    · have hc2 : (IsReadReady t && IsWriteReady t) = true := hr ▸ hc
      simp only [ActUntilFailLoop, hc, hc2, if_true]
      cases hs : Act B s with
      | ok s1 =>
        cases ht : Act B t with
        | ok t1 =>
          rw [hs, ht] at ha
          simp only [eraseOutcome, Outcome.ok.injEq] at ha
          exact ih s1 t1 ha
        | fatal b => rw [hs, ht] at ha; simp [eraseOutcome] at ha
        | undefined => rw [hs, ht] at ha; simp [eraseOutcome] at ha
      | fatal a =>
        cases ht : Act B t with
        | ok t1 => rw [hs, ht] at ha; simp [eraseOutcome] at ha
        | fatal b =>
          rw [hs, ht] at ha
          exact ha
        | undefined => rw [hs, ht] at ha; simp [eraseOutcome] at ha
      | undefined =>
        cases ht : Act B t with
        | ok t1 => rw [hs, ht] at ha; simp [eraseOutcome] at ha
        | fatal b => rw [hs, ht] at ha; simp [eraseOutcome] at ha
        | undefined => rfl
    · have hc2 : ¬ (IsReadReady t && IsWriteReady t) = true := hr ▸ hc
      have hc3 : (IsReadReady s && IsWriteReady s) = false := by
        cases hb : (IsReadReady s && IsWriteReady s) with
        | false => rfl
        | true => exact absurd hb hc
      have hc4 : (IsReadReady t && IsWriteReady t) = false := by rw [← hr]; exact hc3
      have es : ActUntilFailLoop B (n + 1) s = .ok s := by
        simp only [ActUntilFailLoop, hc3, Bool.false_eq_true, if_false]
      have et : ActUntilFailLoop B (n + 1) t = .ok t := by
        simp only [ActUntilFailLoop, hc4, Bool.false_eq_true, if_false]
      rw [es, et]
      simp only [eraseOutcome, h]

theorem ActUntilFail_erase_congr (B : Nat) (s t : MdDiffAccActor)
    (h : eraseActor s = eraseActor t) :
    eraseOutcome (ActUntilFail B s) = eraseOutcome (ActUntilFail B t) := by
  have hw : s.waiting_in_regst_ = t.waiting_in_regst_ := by
    have hw0 : (eraseActor s).waiting_in_regst_ = (eraseActor t).waiting_in_regst_ := by rw [h]
    exact hw0
  unfold ActUntilFail
  rw [hw]
  exact ActUntilFailLoop_erase_congr B _ s t h

theorem TryUpdt_erase (s : MdDiffAccActor) (regst : Nat) :
    eraseStep (TryUpdtStateAsProducedRegst s regst)
      = eraseStep (TryUpdtStateAsProducedRegst (eraseActor s) regst) := by
  have hfind : (eraseActor s).produced_regsts_.find? (fun r => r.regst_id = regst)
      = (s.produced_regsts_.find? (fun r => r.regst_id = regst)).map eraseRegst := by
    show (s.produced_regsts_.map eraseRegst).find? _ = _
    rw [List.find?_map]
    rfl
  unfold TryUpdtStateAsProducedRegst
  rw [hfind]
  cases hf : s.produced_regsts_.find? (fun r => r.regst_id = regst) with
  | none => simp [eraseStep, eraseActor_idem]
  | some q =>
    have hq : (eraseRegst q).reading_cnt = q.reading_cnt := rfl
    have ht : (eraseActor s).total_reading_cnt_ = s.total_reading_cnt_ := rfl
    simp only [Option.map_some', hq, ht]
    by_cases hc : q.reading_cnt = 0 ∨ s.total_reading_cnt_ = 0
    · simp only [hc, if_true, eraseStep, eraseActor_idem]
    · simp only [hc, if_false, eraseStep, Outcome.ok.injEq, Prod.mk.injEq, and_true]
      apply MdDiffAccActor_eq
      · rfl
      · rfl
      · rfl
      · show (s.produced_regsts_.map _).map eraseRegst
          = ((s.produced_regsts_.map eraseRegst).map _).map eraseRegst
        simp only [List.map_map]
        apply List.map_congr_left
        intro r _
        have hid : (eraseRegst r).regst_id = r.regst_id := rfl
        by_cases hr : r.regst_id = regst
        · simp only [Function.comp, hid, hr, if_true]
          cases r with
          | mk a b c d e f g => cases g <;> rfl
        · simp only [Function.comp, hid, hr, if_false, eraseRegst_idem]
      · rfl
      · show s.sent_msgs.map eraseMsg = (s.sent_msgs.map eraseMsg).map eraseMsg
        simp [List.map_map, Function.comp_def, eraseMsg_idem]

theorem TryUpdt_erase_congr (s t : MdDiffAccActor) (regst : Nat)
    (h : eraseActor s = eraseActor t) :
    eraseStep (TryUpdtStateAsProducedRegst s regst)
      = eraseStep (TryUpdtStateAsProducedRegst t regst) := by
  rw [TryUpdt_erase s, TryUpdt_erase t, h]

theorem eordMsgs_erase (s : MdDiffAccActor) : eordMsgs (eraseActor s) = eordMsgs s := by
  apply eordMsgs_congr
  show slotView (s.produced_regsts_.map eraseRegst) = slotView s.produced_regsts_
  unfold slotView
  rw [List.map_map]
  rfl

theorem eordMsgs_map_eraseMsg (s : MdDiffAccActor) : (eordMsgs s).map eraseMsg = eordMsgs s := by
  have hm : ∀ m ∈ eordMsgs s, eraseMsg m = id m := by
    intro m hm
    unfold eordMsgs at hm
    simp only [List.mem_flatMap, List.mem_map] at hm
    obtain ⟨r, -, c, -, rfl⟩ := hm
    rfl
  rw [List.map_congr_left hm, List.map_id]

theorem AsyncSendEORD_erase (s : MdDiffAccActor) :
    eraseActor (AsyncSendEORDMsgForAllProducedRegstDesc s)
      = AsyncSendEORDMsgForAllProducedRegstDesc (eraseActor s) := by
  apply MdDiffAccActor_eq
  · rfl
  · rfl
  · rfl
  · rfl
  · rfl
  · show (s.sent_msgs ++ eordMsgs s).map eraseMsg
      = s.sent_msgs.map eraseMsg ++ eordMsgs (eraseActor s)
    rw [List.map_append, eordMsgs_map_eraseMsg, eordMsgs_erase]

theorem HandleWaitUntilNoReadableRegst_erase_congr (B : Nat) (s t : MdDiffAccActor)
    (msg : ActorMsg) (h : eraseActor s = eraseActor t) :
    eraseStep (HandleWaitUntilNoReadableRegst B s msg)
      = eraseStep (HandleWaitUntilNoReadableRegst B t msg) := by
  cases msg with
  | kCmdMsg c => simp only [HandleWaitUntilNoReadableRegst, eraseStep, h]
  | kRegstMsg w =>
    have hT := TryUpdt_erase_congr s t w.regst_raw_ptr h
    cases hs : TryUpdtStateAsProducedRegst s w.regst_raw_ptr with
    | ok p =>
      obtain ⟨s1, r1⟩ := p
      cases ht : TryUpdtStateAsProducedRegst t w.regst_raw_ptr with
      | ok q =>
        obtain ⟨t1, r2⟩ := q
        rw [hs, ht] at hT
        simp only [eraseStep, Outcome.ok.injEq, Prod.mk.injEq] at hT
        obtain ⟨h1, rfl⟩ := hT
        by_cases hr : r1 = 0
        · subst hr
          have hA := ActUntilFail_erase_congr B s1 t1 h1
          cases hs2 : ActUntilFail B s1 with
          | ok s2 =>
            cases ht2 : ActUntilFail B t1 with
            | ok t2 =>
              rw [hs2, ht2] at hA
              simp only [eraseOutcome, Outcome.ok.injEq] at hA
              have hw : s2.waiting_in_regst_ = t2.waiting_in_regst_ := by
                have hw0 : (eraseActor s2).waiting_in_regst_
                    = (eraseActor t2).waiting_in_regst_ := by rw [hA]
                exact hw0
              have htot : s2.total_reading_cnt_ = t2.total_reading_cnt_ := by
                have ht0 : (eraseActor s2).total_reading_cnt_
                    = (eraseActor t2).total_reading_cnt_ := by rw [hA]
                exact ht0
              have hE : eraseActor (AsyncSendEORDMsgForAllProducedRegstDesc s2)
                  = eraseActor (AsyncSendEORDMsgForAllProducedRegstDesc t2) := by
                rw [AsyncSendEORD_erase, AsyncSendEORD_erase, hA]
              have hn : ∀ (x : MsgHandle) (a b : MdDiffAccActor), eraseActor a = eraseActor b →
                  eraseActor { a with msg_handle_ := x }
                    = eraseActor { b with msg_handle_ := x } := by
                intro x a b hab
                have e1 : ∀ c : MdDiffAccActor, eraseActor { c with msg_handle_ := x }
                    = { eraseActor c with msg_handle_ := x } := fun _ => rfl
                rw [e1, e1, hab]
              have htot2 : total_reading_cnt (AsyncSendEORDMsgForAllProducedRegstDesc s2)
                  = total_reading_cnt (AsyncSendEORDMsgForAllProducedRegstDesc t2) := htot
              simp only [HandleWaitUntilNoReadableRegst, hs, ht, hs2, ht2, ne_eq,
                not_true_eq_false, if_false, hw, htot2]
              by_cases he : t2.waiting_in_regst_.isEmpty = true
              · simp only [he, if_true]
                by_cases hz : total_reading_cnt (AsyncSendEORDMsgForAllProducedRegstDesc t2) = 0
                · simp only [hz, if_true, eraseStep, Outcome.ok.injEq, Prod.mk.injEq, and_true]
                  exact hn _ _ _ hE
                · simp only [hz, if_false, eraseStep, Outcome.ok.injEq, Prod.mk.injEq, and_true]
                  exact hn _ _ _ hE
              · simp only [he, Bool.false_eq_true, if_false, eraseStep, hA]
            | fatal b => rw [hs2, ht2] at hA; simp [eraseOutcome] at hA
            | undefined => rw [hs2, ht2] at hA; simp [eraseOutcome] at hA
          | fatal a =>
            cases ht2 : ActUntilFail B t1 with
            | ok t2 => rw [hs2, ht2] at hA; simp [eraseOutcome] at hA
            | fatal b =>
              rw [hs2, ht2] at hA
              simp only [eraseOutcome, Outcome.fatal.injEq] at hA
              simp only [HandleWaitUntilNoReadableRegst, hs, ht, hs2, ht2, ne_eq,
                not_true_eq_false, if_false, eraseStep, hA]
            | undefined => rw [hs2, ht2] at hA; simp [eraseOutcome] at hA
          | undefined =>
            cases ht2 : ActUntilFail B t1 with
            | ok t2 => rw [hs2, ht2] at hA; simp [eraseOutcome] at hA
            | fatal b => rw [hs2, ht2] at hA; simp [eraseOutcome] at hA
            | undefined =>
              simp only [HandleWaitUntilNoReadableRegst, hs, ht, hs2, ht2, ne_eq,
                not_true_eq_false, if_false, eraseStep]
        · simp only [HandleWaitUntilNoReadableRegst, hs, ht, ne_eq, hr, not_false_eq_true,
            if_true, eraseStep, h1]
      | fatal b => rw [hs, ht] at hT; simp [eraseStep] at hT
      | undefined => rw [hs, ht] at hT; simp [eraseStep] at hT
    | fatal a =>
      cases ht : TryUpdtStateAsProducedRegst t w.regst_raw_ptr with
      | ok q => rw [hs, ht] at hT; simp [eraseStep] at hT
      | fatal b =>
        rw [hs, ht] at hT
        simp only [eraseStep, Outcome.fatal.injEq] at hT
        simp only [HandleWaitUntilNoReadableRegst, hs, ht, eraseStep, hT]
      | undefined => rw [hs, ht] at hT; simp [eraseStep] at hT
    | undefined =>
      cases ht : TryUpdtStateAsProducedRegst t w.regst_raw_ptr with
      | ok q => rw [hs, ht] at hT; simp [eraseStep] at hT
      | fatal b => rw [hs, ht] at hT; simp [eraseStep] at hT
      | undefined => simp only [HandleWaitUntilNoReadableRegst, hs, ht, eraseStep]

theorem eraseActor_eraseCounterValues (s : MdDiffAccActor) :
    eraseActor (eraseCounterValues s) = eraseActor s := by
  apply MdDiffAccActor_eq
  · rfl
  · rfl
  · rfl
  · show (s.produced_regsts_.map _).map eraseRegst = s.produced_regsts_.map eraseRegst
    rw [List.map_map]
    apply List.map_congr_left
    intro r _
    cases r with
    | mk a b c d e f g => cases g <;> rfl
  · rfl
  · rfl

theorem eordPart_map_eraseMsg (l : List OutMsg) : eordPart (l.map eraseMsg) = eordPart l := by
  induction l with
  | nil => rfl
  | cons m ms ih =>
    cases m with
    | readable c r => simpa [eordPart, eraseMsg] using ih
    | toProducer w => simpa [eordPart, eraseMsg] using ih
    | eord c d => simpa [eordPart, eraseMsg] using ih

theorem TryUpdt_counters (s s1 : MdDiffAccActor) (regst : Nat) (ret : Int)
    (h : TryUpdtStateAsProducedRegst s regst = .ok (s1, ret)) :
    countersOf (.ok s1) = countersOf (.ok s) := by
  unfold TryUpdtStateAsProducedRegst at h
  cases hf : s.produced_regsts_.find? (fun r => r.regst_id = regst) with
  | none =>
    simp only [hf, Outcome.ok.injEq, Prod.mk.injEq] at h
    obtain ⟨rfl, rfl⟩ := h
    rfl
  | some r =>
    simp only [hf] at h
    by_cases hc : r.reading_cnt = 0 ∨ s.total_reading_cnt_ = 0
    · simp [hc] at h
    · simp only [hc, if_false, Outcome.ok.injEq, Prod.mk.injEq] at h
      obtain ⟨rfl, rfl⟩ := h
      simp only [countersOf, List.map_map]
      apply List.map_congr_left
      intro q _
      by_cases hq : q.regst_id = regst <;> simp [hq]

theorem eraseStep_ok_inv (x : Outcome (MdDiffAccActor × Int)) (e : MdDiffAccActor) (ret : Int)
    (h : eraseStep x = .ok (e, ret)) : ∃ t1, x = .ok (t1, ret) ∧ eraseActor t1 = e := by
  cases x with
  | ok p =>
    obtain ⟨t1, r⟩ := p
    simp only [eraseStep, Outcome.ok.injEq, Prod.mk.injEq] at h
    exact ⟨t1, by rw [h.2], h.1⟩
  | fatal a => simp [eraseStep] at h
  | undefined => simp [eraseStep] at h

theorem eraseStep_fatal_inv (x : Outcome (MdDiffAccActor × Int)) (e : MdDiffAccActor)
    (h : eraseStep x = .fatal e) : ∃ b, x = .fatal b ∧ eraseActor b = e := by
  cases x with
  | ok p => simp [eraseStep] at h
  | fatal a =>
    simp only [eraseStep, Outcome.fatal.injEq] at h
    exact ⟨a, rfl, h⟩
  | undefined => simp [eraseStep] at h

theorem eordPart_of_erase_eq (a b : MdDiffAccActor) (h : eraseActor a = eraseActor b) :
    eordPart a.sent_msgs = eordPart b.sent_msgs := by
  have h0 : (eraseActor a).sent_msgs = (eraseActor b).sent_msgs := by rw [h]
  have h1 : a.sent_msgs.map eraseMsg = b.sent_msgs.map eraseMsg := h0
  rw [← eordPart_map_eraseMsg a.sent_msgs, h1, eordPart_map_eraseMsg]

theorem erase_eq_fields (a b : MdDiffAccActor) (h : eraseActor a = eraseActor b) :
    a.msg_handle_ = b.msg_handle_ ∧ a.waiting_in_regst_ = b.waiting_in_regst_ ∧
    a.expected_piece_id_ = b.expected_piece_id_ ∧
    a.total_reading_cnt_ = b.total_reading_cnt_ := by
  have h1 : (eraseActor a).msg_handle_ = (eraseActor b).msg_handle_ := by rw [h]
  have h2 : (eraseActor a).waiting_in_regst_ = (eraseActor b).waiting_in_regst_ := by rw [h]
  have h3 : (eraseActor a).expected_piece_id_ = (eraseActor b).expected_piece_id_ := by rw [h]
  have h4 : (eraseActor a).total_reading_cnt_ = (eraseActor b).total_reading_cnt_ := by rw [h]
  exact ⟨h1, h2, h3, h4⟩

theorem accCnt_iterate (B : Nat) (hB : 1 ≤ B) : ∀ k, (accCnt B)^[k + 1] 0 = k % B + 1 := by
  intro k
  induction k with
  | zero =>
    have h0 : (0 : Nat) ≠ B := by omega
    simp [accCnt, h0]
  | succ k ih =>
    rw [Function.iterate_succ_apply', ih]
    have hlt : k % B < B := Nat.mod_lt k (by omega)
    have hmod : (k + 1) % B = (k % B + 1) % B := (Nat.mod_add_mod k B 1).symm
    unfold accCnt
    by_cases h : k % B + 1 = B
    · rw [if_pos h, hmod, h, Nat.mod_self]
    · rw [if_neg h, hmod, Nat.mod_eq_of_lt (show k % B + 1 < B by omega)]

theorem accCnt_iterate_zero : ∀ k, (accCnt 0)^[k] 0 = k := by
  intro k
  induction k with
  | zero => rfl
  | succ k ih =>
    rw [Function.iterate_succ_apply', ih]
    unfold accCnt
    by_cases h : k = 0
    · simp [h]
    · simp [h]

theorem accCnt_reset_iff (B : Nat) (hB : 1 ≤ B) (k : Nat) :
    (accCnt B)^[k] 0 = B ↔ 1 ≤ k ∧ k % B = 0 := by
  cases k with
  | zero =>
    simp only [Function.iterate_zero, id_eq]
    constructor
    · intro h; omega
    · intro h; omega
  | succ j =>
    rw [accCnt_iterate B hB j]
    have hlt : j % B < B := Nat.mod_lt j (by omega)
    have hmod : (j + 1) % B = (j % B + 1) % B := (Nat.mod_add_mod j B 1).symm
    constructor
    · intro h
      refine ⟨by omega, ?_⟩
      rw [hmod, h, Nat.mod_self]
    · intro h
      by_cases hc : j % B + 1 = B
      · exact hc
      · rw [hmod, Nat.mod_eq_of_lt (show j % B + 1 < B by omega)] at h
        omega

theorem run_inOrder_counters (B consumer : Nat) :
    ∀ (vs : List (List Int)) (expected piece_id cnt : Nat) (blob : List Int) (sent : List OutMsg),
      ∃ piece_id1 blob1 sent1,
        runMsgs B (idleActor .HandleNormal expected piece_id blob consumer cnt sent)
            (inOrderMsgs expected vs)
          = .ok (idleActor .HandleNormal (expected + vs.length) piece_id1 blob1 consumer
              ((accCnt B)^[vs.length] cnt) (sent ++ sent1)) ∧
        (forwardedRegsts sent1).map (fun r => r.model_diff_acc_cnt)
          = (List.range vs.length).map (fun i => some ((accCnt B)^[i + 1] cnt)) := by
  intro vs
  induction vs with
  | nil =>
    intro expected piece_id cnt blob sent
    exact ⟨piece_id, blob, [], by simp [inOrderMsgs, runMsgs], rfl⟩
  | cons v vs ih =>
    intro expected piece_id cnt blob sent
    obtain ⟨p1, b1, t1, hrun, hfwd⟩ :=
      ih (expected + 1) expected (accCnt B cnt) (addInto (accBase B cnt blob) v)
        (sent ++ stepTrace B expected consumer cnt blob v)
    refine ⟨p1, b1, stepTrace B expected consumer cnt blob v ++ t1, ?_, ?_⟩
    · have hstep := idle_step B expected piece_id consumer cnt blob v sent
      have happ := runMsgs_append B [inRegstMsg expected v, outRegstReturnMsg]
        (inOrderMsgs (expected + 1) vs) _ _ hstep
      have e : inOrderMsgs expected (v :: vs)
          = [inRegstMsg expected v, outRegstReturnMsg] ++ inOrderMsgs (expected + 1) vs := rfl
      rw [e, happ, hrun]
      have hl : expected + 1 + vs.length = expected + (v :: vs).length := by
        simp only [List.length_cons]; omega
      rw [hl, List.append_assoc]
      rfl
    · rw [forwardedRegsts_append, List.map_append, hfwd, List.length_cons,
        List.range_succ_eq_map, List.map_cons, List.map_map]
      rfl

theorem wrap32_eq (x : Int) (h : IsInt32 x) : wrap32 x = x := by
  unfold IsInt32 at h
  unfold wrap32
  omega

theorem wrap64_eq (x : Int) (h : IsInt64 x) : wrap64 x = x := by
  unfold IsInt64 at h
  unfold wrap64
  omega

theorem wrap64_idem (x : Int) : wrap64 (wrap64 x) = wrap64 x := by
  unfold wrap64
  omega

theorem wrap64_mul_left (a b : Int) : wrap64 (wrap64 a * b) = wrap64 (a * b) := by
  have ha : wrap64 a = a + 2 ^ 64 * (-((a + 2 ^ 63) / 2 ^ 64)) := by
    unfold wrap64
    have := Int.emod_add_ediv (a + 2 ^ 63) (2 ^ 64)
    linarith
  have hm : (wrap64 a * b + 2 ^ 63) % 2 ^ 64 = (a * b + 2 ^ 63) % 2 ^ 64 := by
    rw [ha]
    have e : (a + 2 ^ 64 * -((a + 2 ^ 63) / 2 ^ 64)) * b + 2 ^ 63
        = (a * b + 2 ^ 63) + 2 ^ 64 * (-((a + 2 ^ 63) / 2 ^ 64) * b) := by ring
    rw [e, Int.add_mul_emod_self_left]
  unfold wrap64 at hm ⊢
  rw [hm]

theorem wrapProd_eq : ∀ (dims : List Int) (cnt : Int), wrap64 cnt = cnt →
    wrapProd cnt dims = wrap64 (cnt * dims.prod) := by
  intro dims
  induction dims with
  | nil =>
    intro cnt h
    simp [wrapProd, h]
  | cons d ds ih =>
    intro cnt _
    have e : wrapProd cnt (d :: ds) = wrapProd (wrap64 (cnt * d)) ds := rfl
    rw [e, ih _ (wrap64_idem _), wrap64_mul_left, List.prod_cons, mul_assoc]

theorem Shape_At_natCast (shape : Shape) (i : Nat) :
    shape.At (i : Int) = shape.dim_vec[i]? := by
  unfold Shape.At
  rw [if_pos (Int.ofNat_nonneg i), Int.toNat_ofNat]

theorem take_succ_drop (dims : List Int) (i n : Nat) (h : i < dims.length) :
    (dims.drop i).take (n + 1) = dims[i] :: (dims.drop (i + 1)).take n := by
  rw [List.drop_eq_getElem_cons h, List.take_succ_cons]

theorem forLoop_append_At (shape : Shape) :
    ∀ (count i : Nat) (dim_vec : List Int), i + count ≤ shape.dim_vec.length →
      forLoop
          (fun i (dim_vec : List Int) =>
            match shape.At i with
            | some dim => (MaybeVoid.Ok, dim_vec ++ [dim])
            | none => (MaybeVoid.Abort, dim_vec))
          count (i : Int) dim_vec
        = (MaybeVoid.Ok, dim_vec ++ (shape.dim_vec.drop i).take count) := by
  intro count
  induction count with
  | zero =>
    intro i dim_vec _
    simp [forLoop]
  | succ n ih =>
    intro i dim_vec h
    have hi : i < shape.dim_vec.length := by omega
    have hcast : ((i : Int) + 1) = ((i + 1 : Nat) : Int) := by push_cast; rfl
    unfold forLoop
    simp only [Shape_At_natCast, List.getElem?_eq_getElem hi]
    rw [hcast, ih (i + 1) _ (by omega), take_succ_drop _ _ _ hi]
    simp

theorem forLoop_prod_At (shape : Shape) :
    ∀ (count i : Nat) (flatten_dim : Int), i + count ≤ shape.dim_vec.length →
      forLoop
          (fun i (flatten_dim : Int) =>
            match shape.At i with
            | some dim => (MaybeVoid.Ok, wrap64 (flatten_dim * dim))
            | none => (MaybeVoid.Abort, flatten_dim))
          count (i : Int) flatten_dim
        = (MaybeVoid.Ok, wrapProd flatten_dim ((shape.dim_vec.drop i).take count)) := by
  intro count
  induction count with
  | zero =>
    intro i flatten_dim _
    simp [forLoop, wrapProd]
  | succ n ih =>
    intro i flatten_dim h
    have hi : i < shape.dim_vec.length := by omega
    have hcast : ((i : Int) + 1) = ((i + 1 : Nat) : Int) := by push_cast; rfl
    unfold forLoop
    simp only [Shape_At_natCast, List.getElem?_eq_getElem hi]
    rw [hcast, ih (i + 1) _ (by omega), take_succ_drop _ _ _ hi]
    rfl

theorem forRange_prefix_At (shape : Shape) (a : Nat) (h : a ≤ shape.dim_vec.length) :
    forRange 0 (a : Int)
        (fun i (dim_vec : List Int) =>
          match shape.At i with
          | some dim => (MaybeVoid.Ok, dim_vec ++ [dim])
          | none => (MaybeVoid.Abort, dim_vec))
        []
      = (MaybeVoid.Ok, shape.dim_vec.take a) := by
  unfold forRange
  have hc : ((a : Int) - 0).toNat = a := by omega
  have h0 : (0 : Int) = ((0 : Nat) : Int) := rfl
  rw [hc, h0, forLoop_append_At shape a 0 [] (by omega)]
  simp

theorem forRange_middle_At (shape : Shape) (a en : Nat) (ha : a ≤ en)
    (h : en < shape.dim_vec.length) :
    forRange (a : Int) ((en : Int) + 1)
        (fun i (flatten_dim : Int) =>
          match shape.At i with
          | some dim => (MaybeVoid.Ok, wrap64 (flatten_dim * dim))
          | none => (MaybeVoid.Abort, flatten_dim))
        1
      = (MaybeVoid.Ok, wrap64 ((shape.dim_vec.drop a).take (en - a + 1)).prod) := by
  unfold forRange
  have hc : ((en : Int) + 1 - (a : Int)).toNat = en - a + 1 := by omega
  rw [hc, forLoop_prod_At shape (en - a + 1) a 1 (by omega),
    wrapProd_eq _ 1 (wrap64_eq 1 ⟨by norm_num, by norm_num⟩), one_mul]

theorem forRange_suffix_At (shape : Shape) (en : Nat) (dim_vec : List Int)
    (h : en < shape.dim_vec.length) :
    forRange ((en : Int) + 1) shape.NumAxes
        (fun i (dim_vec : List Int) =>
          match shape.At i with
          | some dim => (MaybeVoid.Ok, dim_vec ++ [dim])
          | none => (MaybeVoid.Abort, dim_vec))
        dim_vec
      = (MaybeVoid.Ok, dim_vec ++ shape.dim_vec.drop (en + 1)) := by
  unfold forRange Shape.NumAxes
  have hc : ((shape.dim_vec.length : Int) - ((en : Int) + 1)).toNat
      = shape.dim_vec.length - (en + 1) := by omega
  have hcast : ((en : Int) + 1) = ((en + 1 : Nat) : Int) := by push_cast; rfl
  rw [hc, hcast, forLoop_append_At shape _ (en + 1) dim_vec (by omega)]
  rw [List.take_of_length_le (by simp)]

theorem flattenedDims_length (dims : List Int) (a en : Nat) (ha : a ≤ en)
    (h : en < dims.length) :
    (flattenedDims dims a en).length = dims.length - (en - a) := by
  unfold flattenedDims
  simp only [List.length_append, List.length_take, List.length_drop, List.length_singleton]
  omega

theorem flattenedDims_prod (dims : List Int) (a en : Nat) (ha : a ≤ en) :
    wrapProd 1 (flattenedDims dims a en) = wrapProd 1 dims := by
  have h1 : wrap64 1 = 1 := wrap64_eq 1 ⟨by norm_num, by norm_num⟩
  have hsplit : dims = dims.take a ++ ((dims.drop a).take (en - a + 1) ++ dims.drop (en + 1)) := by
    have e1 : (dims.drop a).drop (en - a + 1) = dims.drop (en + 1) := by
      rw [List.drop_drop]
      congr 1
      omega
    rw [← e1, List.take_append_drop, List.take_append_drop]
  rw [wrapProd_eq _ 1 h1, wrapProd_eq _ 1 h1, one_mul, one_mul]
  conv_rhs => rw [hsplit]
  unfold flattenedDims
  simp only [List.prod_append, List.prod_singleton]
  have e2 : (dims.take a).prod * wrap64 ((dims.drop a).take (en - a + 1)).prod
        * (dims.drop (en + 1)).prod
      = wrap64 ((dims.drop a).take (en - a + 1)).prod
        * ((dims.take a).prod * (dims.drop (en + 1)).prod) := by ring
  have e3 : (dims.take a).prod
        * (((dims.drop a).take (en - a + 1)).prod * (dims.drop (en + 1)).prod)
      = ((dims.drop a).take (en - a + 1)).prod
        * ((dims.take a).prod * (dims.drop (en + 1)).prod) := by ring
  rw [e2, e3, wrap64_mul_left]

theorem FlattenOp_infer_valid (start_dim end_dim : Int) (in_tensor_desc out_tensor_desc : TensorDesc)
    (hn : (ExpandDimIf0D in_tensor_desc.shape).NumAxes < 2 ^ 31)
    (h0 : 0 ≤ start_dim)
    (h1 : start_dim ≤ trueEndDim end_dim (ExpandDimIf0D in_tensor_desc.shape).NumAxes)
    (h2 : trueEndDim end_dim (ExpandDimIf0D in_tensor_desc.shape).NumAxes
      < (ExpandDimIf0D in_tensor_desc.shape).NumAxes) :
    FlattenOp.InferLogicalTensorDesc start_dim end_dim in_tensor_desc out_tensor_desc
      = (MaybeVoid.Ok,
         { shape :=
             { dim_vec := flattenedDims (ExpandDimIf0D in_tensor_desc.shape).dim_vec
                 start_dim.toNat
                 (trueEndDim end_dim (ExpandDimIf0D in_tensor_desc.shape).NumAxes).toNat }
           is_dynamic := in_tensor_desc.is_dynamic }) := by
  obtain ⟨a, rfl⟩ := Int.eq_ofNat_of_zero_le h0
  obtain ⟨en, hen⟩ := Int.eq_ofNat_of_zero_le (h0.trans h1)
  rw [hen] at h1 h2
  have hlen : (ExpandDimIf0D in_tensor_desc.shape).NumAxes
      = ((ExpandDimIf0D in_tensor_desc.shape).dim_vec.length : Int) := rfl
  have ha : a ≤ en := by exact_mod_cast h1
  have hlt : en < (ExpandDimIf0D in_tensor_desc.shape).dim_vec.length := by
    rw [hlen] at h2
    exact_mod_cast h2
  have hw : wrap32 (if end_dim < 0 then end_dim + (ExpandDimIf0D in_tensor_desc.shape).NumAxes
      else end_dim) = (en : Int) := by
    have e : (if end_dim < 0 then end_dim + (ExpandDimIf0D in_tensor_desc.shape).NumAxes
        else end_dim) = (en : Int) := hen
    rw [e]
    exact wrap32_eq _ ⟨by omega, by omega⟩
  have hcnt : wrapProd 1 (flattenedDims (ExpandDimIf0D in_tensor_desc.shape).dim_vec a en)
      = wrapProd 1 (ExpandDimIf0D in_tensor_desc.shape).dim_vec :=
    flattenedDims_prod _ a en ha
  have hge : (a : Int) ≥ 0 := by omega
  have hlt0 : (a : Int) < (ExpandDimIf0D in_tensor_desc.shape).NumAxes := by omega
  have hge2 : (en : Int) ≥ 0 := by omega
  have hle : (a : Int) ≤ (en : Int) := by omega
  have l1 := forRange_prefix_At (ExpandDimIf0D in_tensor_desc.shape) a (by omega)
  have l2 := forRange_middle_At (ExpandDimIf0D in_tensor_desc.shape) a en ha hlt
  have l3 := fun dim_vec =>
    forRange_suffix_At (ExpandDimIf0D in_tensor_desc.shape) en dim_vec hlt
  unfold FlattenOp.InferLogicalTensorDesc
  simp only [hw, hge, hlt0, hge2, h2, hle, not_true_eq_false, if_false, l1, l2, l3]
  rw [hen]
  simp only [Int.toNat_ofNat]
  have hcnt2 : Shape.elem_cnt
      { dim_vec := List.take a (ExpandDimIf0D in_tensor_desc.shape).dim_vec ++
          [wrap64 (List.take (en - a + 1)
            (List.drop a (ExpandDimIf0D in_tensor_desc.shape).dim_vec)).prod] ++
          List.drop (en + 1) (ExpandDimIf0D in_tensor_desc.shape).dim_vec }
      = Shape.elem_cnt (ExpandDimIf0D in_tensor_desc.shape) := hcnt
  simp only [hcnt2, ne_eq, not_true_eq_false, if_false]
  rfl

theorem FlattenOp_infer_invalid (start_dim end_dim : Int)
    (in_tensor_desc out_tensor_desc : TensorDesc) (he : IsInt32 end_dim)
    (hn : (ExpandDimIf0D in_tensor_desc.shape).NumAxes < 2 ^ 31)
    (hv : ¬ (0 ≤ start_dim ∧ start_dim < (ExpandDimIf0D in_tensor_desc.shape).NumAxes ∧
      0 ≤ trueEndDim end_dim (ExpandDimIf0D in_tensor_desc.shape).NumAxes ∧
      trueEndDim end_dim (ExpandDimIf0D in_tensor_desc.shape).NumAxes
        < (ExpandDimIf0D in_tensor_desc.shape).NumAxes ∧
      start_dim ≤ trueEndDim end_dim (ExpandDimIf0D in_tensor_desc.shape).NumAxes)) :
    FlattenOp.InferLogicalTensorDesc start_dim end_dim in_tensor_desc out_tensor_desc
      = (MaybeVoid.Error, out_tensor_desc) := by
  have hlen : 0 ≤ (ExpandDimIf0D in_tensor_desc.shape).NumAxes := by
    unfold Shape.NumAxes
    omega
  have hw : wrap32 (if end_dim < 0 then end_dim + (ExpandDimIf0D in_tensor_desc.shape).NumAxes
      else end_dim) = trueEndDim end_dim (ExpandDimIf0D in_tensor_desc.shape).NumAxes := by
    unfold IsInt32 at he
    apply wrap32_eq
    unfold IsInt32
    split_ifs <;> omega
  unfold FlattenOp.InferLogicalTensorDesc
  simp only [hw]
  by_cases c1 : start_dim ≥ 0
  · by_cases c2 : start_dim < (ExpandDimIf0D in_tensor_desc.shape).NumAxes
    · by_cases c3 : trueEndDim end_dim (ExpandDimIf0D in_tensor_desc.shape).NumAxes ≥ 0
      · by_cases c4 : trueEndDim end_dim (ExpandDimIf0D in_tensor_desc.shape).NumAxes
            < (ExpandDimIf0D in_tensor_desc.shape).NumAxes
        · by_cases c5 : start_dim
              ≤ trueEndDim end_dim (ExpandDimIf0D in_tensor_desc.shape).NumAxes
          · exact absurd ⟨c1, c2, c3, c4, c5⟩ hv
          · simp only [c1, c2, c3, c4, c5, not_true_eq_false, not_false_eq_true, if_true,
              if_false]
        · simp only [c1, c2, c3, c4, not_true_eq_false, not_false_eq_true, if_true, if_false]
      · simp only [c1, c2, c3, not_true_eq_false, not_false_eq_true, if_true, if_false]
    · simp only [c1, c2, not_true_eq_false, not_false_eq_true, if_true, if_false]
  · simp only [c1, not_false_eq_true, if_true]

theorem forLoop_append {α : Type} (f : Int → α) :
    ∀ (count : Nat) (i : Int) (l : List α),
      forLoop (fun i (l : List α) => (MaybeVoid.Ok, l ++ [f i])) count i l
        = (MaybeVoid.Ok, l ++ (List.range count).map (fun (k : Nat) => f (i + (k : Int)))) := by
  intro count
  induction count with
  | zero => intro i l; simp [forLoop]
  | succ n ih =>
    intro i l
    unfold forLoop
    simp only []
    rw [ih (i + 1) (l ++ [f i]), List.range_succ_eq_map, List.map_cons, List.map_map,
      List.append_assoc]
    simp only [List.singleton_append, Nat.cast_zero, add_zero, Function.comp_def]
    congr 3
    apply List.map_congr_left
    intro k _
    congr 1
    push_cast
    ring

theorem FlattenOp_GetSbp_valid (a en : Nat) (end_dim : Int) (in_shape : Shape)
    (sbp_sig_list : List SbpSignature) (hn : in_shape.NumAxes < 2 ^ 31) (ha : a ≤ en)
    (hen : en < in_shape.dim_vec.length)
    (he : trueEndDim end_dim in_shape.NumAxes = (en : Int)) :
    FlattenOp.GetSbp (a : Int) end_dim in_shape sbp_sig_list
      = (MaybeVoid.Ok,
         sbp_sig_list ++
           [[(OpArgs.inputs, SbpParallel.PartialSum), (OpArgs.outputs, SbpParallel.PartialSum)]]
           ++ (flattenSplitAxes in_shape.dim_vec.length a en).map splitInOut) := by
  have hlen : in_shape.NumAxes = (in_shape.dim_vec.length : Int) := rfl
  have hw : wrap32 (if end_dim < 0 then end_dim + in_shape.NumAxes else end_dim)
      = (en : Int) := by
    have e : (if end_dim < 0 then end_dim + in_shape.NumAxes else end_dim) = (en : Int) := he
    rw [e]
    exact wrap32_eq _ ⟨by omega, by omega⟩
  have hd : wrap32 ((en : Int) - (a : Int)) = (en : Int) - (a : Int) :=
    wrap32_eq _ ⟨by omega, by omega⟩
  have c0 : ¬ in_shape.NumAxes = 0 := by omega
  have c1 : (a : Int) ≥ 0 := by omega
  have c2 : (a : Int) < in_shape.NumAxes := by omega
  have c3 : (en : Int) ≥ 0 := by omega
  have c4 : (en : Int) < in_shape.NumAxes := by omega
  have c5 : (a : Int) ≤ (en : Int) := by omega
  have n1 : ((a : Int) + 1 - 0).toNat = a + 1 := by omega
  have n2 : (in_shape.NumAxes - ((en : Int) + 1)).toNat
      = in_shape.dim_vec.length - (en + 1) := by omega
  have l1 := fun l => forLoop_append
    (fun i => ([(OpArgs.OpArg "in" 0, SbpParallel.Split i),
      (OpArgs.OpArg "out" 0, SbpParallel.Split i)] : SbpSignature)) (a + 1) 0 l
  have l2 := fun l => forLoop_append
    (fun i => ([(OpArgs.OpArg "in" 0, SbpParallel.Split i),
      (OpArgs.OpArg "out" 0, SbpParallel.Split (i - ((en : Int) - (a : Int))))] : SbpSignature))
    (in_shape.dim_vec.length - (en + 1)) ((en : Int) + 1) l
  unfold FlattenOp.GetSbp
  simp only [hw, hd, c0, c1, c2, c3, c4, c5, not_true_eq_false, if_false, forRange, n1, n2, l1,
    l2]
  simp only [flattenSplitAxes, splitInOut, List.map_append, List.map_map, Function.comp_def,
    List.append_assoc, zero_add, Prod.mk.injEq, true_and]
  congr 3

theorem flattenSplitAxes_length (n a en : Nat) (ha : a ≤ en) (hen : en < n) :
    (flattenSplitAxes n a en).length = n - (en - a) := by
  unfold flattenSplitAxes
  simp only [List.length_append, List.length_map, List.length_range]
  omega

theorem flattenSplitAxes_out (n a en : Nat) (ha : a ≤ en) (hen : en < n) :
    (flattenSplitAxes n a en).map (fun axes => axes.2)
      = (List.range (n - (en - a))).map (fun (j : Nat) => (j : Int)) := by
  have hsum : n - (en - a) = (a + 1) + (n - (en + 1)) := by omega
  rw [hsum, List.range_add]
  unfold flattenSplitAxes
  simp only [List.map_append, List.map_map, Function.comp_def]
  congr 1
  apply List.map_congr_left
  intro k _
  push_cast
  omega

theorem flattenSplitAxes_mem (n a en : Nat) (i j : Int) :
    (i, j) ∈ flattenSplitAxes n a en ↔
      (0 ≤ i ∧ i ≤ (a : Int) ∧ j = i) ∨
      ((en : Int) < i ∧ i < (n : Int) ∧ j = i - ((en : Int) - (a : Int))) := by
  unfold flattenSplitAxes
  simp only [List.mem_append, List.mem_map, List.mem_range, Prod.mk.injEq]
  constructor
  · rintro (⟨k, hk, rfl, rfl⟩ | ⟨k, hk, rfl, rfl⟩)
    · exact Or.inl ⟨by omega, by omega, rfl⟩
    · exact Or.inr ⟨by push_cast; omega, by push_cast; omega, rfl⟩
  · rintro (⟨h0, h1, hj⟩ | ⟨h0, h1, hj⟩)
    · exact Or.inl ⟨i.toNat, by omega, by omega, by omega⟩
    · refine Or.inr ⟨(i - ((en : Int) + 1)).toNat, by omega, ?_, ?_⟩
      · push_cast
        omega
      · push_cast
        omega

theorem GeneratePartialSbp_append (binary_func : BinaryFunc) (axis : Int)
    (l : List SbpSignature) :
    GeneratePartialSbp binary_func axis l = l ++ GeneratePartialSbp binary_func axis [] := by
  cases binary_func <;> simp [GeneratePartialSbp]

theorem reducedBelow_succ (R : Int → Bool) (i : Nat) :
    reducedBelow R (i + 1) = reducedBelow R i + (if R (i : Int) then 1 else 0) := by
  unfold reducedBelow
  rw [List.range_succ, List.filter_append, List.length_append]
  by_cases h : R (i : Int) = true
  · simp [h]
  · simp [h]

theorem reducedBelow_le (R : Int → Bool) (i : Nat) : reducedBelow R i ≤ i := by
  unfold reducedBelow
  have := List.length_filter_le (fun (a : Nat) => R (a : Int)) (List.range i)
  simpa using this

theorem GetSbpFn_loop (binary_func : BinaryFunc) (R : Int → Bool) (keep_dims : Bool) :
    ∀ (count i : Nat) (l : List SbpSignature), i + count < 2 ^ 31 →
      forLoop
          (fun i (st : List SbpSignature × Int) =>
            if R i then
              (MaybeVoid.Ok, (GeneratePartialSbp binary_func i st.1, wrap32 (st.2 + 1)))
            else
              (MaybeVoid.Ok,
                (st.1 ++
                  [[(OpArgs.inputs, SbpParallel.Split i),
                    (OpArgs.outputs, SbpParallel.Split (if keep_dims then i else i - st.2))]],
                 st.2)))
          count (i : Int) (l, (reducedBelow R i : Int))
        = (MaybeVoid.Ok,
            (l ++ (List.range count).flatMap
                (fun k => reduceAxisSignatures binary_func R keep_dims (i + k)),
             (reducedBelow R (i + count) : Int))) := by
  intro count
  induction count with
  | zero => intro i l _; simp [forLoop]
  | succ n ih =>
    intro i l h
    have hcast : ((i : Int) + 1) = ((i + 1 : Nat) : Int) := by push_cast; rfl
    have hle := reducedBelow_le R i
    have hsucc := reducedBelow_succ R i
    have hidx : i + (n + 1) = i + 1 + n := by omega
    have hflat : (List.range (n + 1)).flatMap
          (fun k => reduceAxisSignatures binary_func R keep_dims (i + k))
        = reduceAxisSignatures binary_func R keep_dims i
          ++ (List.range n).flatMap
            (fun k => reduceAxisSignatures binary_func R keep_dims (i + 1 + k)) := by
      rw [List.range_succ_eq_map, List.flatMap_cons, List.flatMap_map]
      simp only [Nat.add_zero, Nat.succ_eq_add_one]
      congr 1
      apply List.flatMap_congr
      intro k _
      congr 1
      omega
    unfold forLoop
    by_cases hr : R (i : Int) = true
    · have hw : wrap32 ((reducedBelow R i : Int) + 1) = ((reducedBelow R (i + 1) : Nat) : Int) := by
        rw [hsucc, if_pos hr]
        push_cast
        exact wrap32_eq _ ⟨by omega, by omega⟩
      simp only [hr, if_true, hw]
      rw [hcast, ih (i + 1) _ (by omega), hflat, hidx]
      have e : reduceAxisSignatures binary_func R keep_dims i
          = GeneratePartialSbp binary_func (i : Int) [] := by
        unfold reduceAxisSignatures
        rw [if_pos hr]
      rw [e, GeneratePartialSbp_append binary_func (i : Int) l, List.append_assoc]
    · have hc : reducedBelow R (i + 1) = reducedBelow R i := by
        rw [hsucc, if_neg hr]
        rfl
      simp only [hr, Bool.false_eq_true, if_false]
      rw [← hc, hcast, ih (i + 1) _ (by omega), hflat, hidx]
      have e : reduceAxisSignatures binary_func R keep_dims i
          = [[(OpArgs.inputs, SbpParallel.Split (i : Int)),
              (OpArgs.outputs, SbpParallel.Split
                (if keep_dims then (i : Int)
                  else (i : Int) - (reducedBelow R (i + 1) : Int)))]] := by
        unfold reduceAxisSignatures
        rw [if_neg hr, hc]
      rw [e, List.append_assoc]

theorem GetSbpFn_eq (binary_func : BinaryFunc) (R : Int → Bool) (keep_dims : Bool) (n : Nat)
    (l : List SbpSignature) (hn : n < 2 ^ 31) :
    GetSbpFn binary_func R (n : Int) keep_dims l
      = (MaybeVoid.Ok,
         l ++ (List.range n).flatMap (reduceAxisSignatures binary_func R keep_dims)
           ++ (if n = 0 then
                [[(OpArgs.inputs, SbpParallel.PartialSum),
                  (OpArgs.outputs, SbpParallel.PartialSum)]]
               else [])) := by
  have hloop := GetSbpFn_loop binary_func R keep_dims n 0 l (by omega)
  have h0 : ((reducedBelow R 0 : Nat) : Int) = 0 := rfl
  have hc : ((n : Int) - 0).toNat = n := by omega
  rw [h0] at hloop
  simp only [Nat.cast_zero, Nat.zero_add] at hloop
  unfold GetSbpFn forRange
  rw [hc, hloop]
  by_cases hz : n = 0
  · subst hz
    simp
  · have hz2 : ¬ ((n : Int) = 0) := by omega
    simp only [hz, hz2, if_false, List.append_nil]

theorem splitPairOf_reduceAxisSignatures (binary_func : BinaryFunc) (R : Int → Bool)
    (keep_dims : Bool) (i : Nat) :
    (reduceAxisSignatures binary_func R keep_dims i).filterMap splitPairOf
      = if R (i : Int) then []
        else [((i : Int),
          if keep_dims then (i : Int) else (i : Int) - (reducedBelow R i : Int))] := by
  unfold reduceAxisSignatures
  by_cases hr : R (i : Int) = true
  · rw [if_pos hr, if_pos hr]
    cases binary_func <;> simp [GeneratePartialSbp, splitPairOf]
  · rw [if_neg hr, if_neg hr]
    simp [splitPairOf]

theorem splitPairs_reduce (binary_func : BinaryFunc) (R : Int → Bool) (keep_dims : Bool) :
    ∀ n : Nat,
      ((List.range n).flatMap (reduceAxisSignatures binary_func R keep_dims)).filterMap
          splitPairOf
        = ((List.range n).filter (fun (i : Nat) => ! R (i : Int))).map
            (fun (i : Nat) => ((i : Int),
              if keep_dims then (i : Int) else (i : Int) - (reducedBelow R i : Int))) := by
  intro n
  induction n with
  | zero => rfl
  | succ n ih =>
    rw [List.range_succ, List.flatMap_append, List.filterMap_append, ih, List.filter_append,
      List.map_append]
    congr 1
    simp only [List.flatMap_cons, List.flatMap_nil, List.append_nil]
    rw [splitPairOf_reduceAxisSignatures]
    by_cases hr : R (n : Int) = true
    · simp [hr]
    · simp [hr]

theorem reduceOutAxes_eq (R : Int → Bool) :
    ∀ n : Nat, reduceOutAxes R n
      = (List.range (n - reducedBelow R n)).map (fun (j : Nat) => (j : Int)) := by
  intro n
  induction n with
  | zero => rfl
  | succ n ih =>
    have hle := reducedBelow_le R n
    have hsucc := reducedBelow_succ R n
    unfold reduceOutAxes at ih ⊢
    rw [List.range_succ, List.filter_append, List.map_append, ih]
    by_cases hr : R (n : Int) = true
    · have e : n + 1 - reducedBelow R (n + 1) = n - reducedBelow R n := by
        rw [hsucc, if_pos hr]
        omega
      rw [e]
      simp [hr]
    · have e : n + 1 - reducedBelow R (n + 1) = (n - reducedBelow R n) + 1 := by
        rw [hsucc, if_neg hr]
        omega
      rw [e, List.range_succ, List.map_append]
      simp only [hr, List.filter_cons, List.filter_nil, Bool.not_false, if_true, List.map_cons,
        List.map_nil, Bool.not_eq_true]
      congr 2
      omega

theorem notReduced_length (R : Int → Bool) (n : Nat) :
    ((List.range n).filter (fun (i : Nat) => ! R (i : Int))).length = n - reducedBelow R n := by
  have h := congrArg List.length (reduceOutAxes_eq R n)
  unfold reduceOutAxes at h
  simpa using h

theorem InferTensorDescFn_rank (input_shape : Shape) (reduce_axes : List Int)
    (output_shape : Shape)
    (hvalid : ∀ axis ∈ reduce_axes, 0 ≤ ShiftNegativeAxis axis input_shape.NumAxes ∧
      ShiftNegativeAxis axis input_shape.NumAxes < input_shape.NumAxes) :
    ∃ out, InferTensorDescFn input_shape reduce_axes false output_shape = (MaybeVoid.Ok, out) ∧
      out.dim_vec.length = input_shape.dim_vec.length
        - reducedBelow
            (ReduceSbpUtil.MakePredicatorIsReducedAxis
              (ReduceSbpUtil.GetRegularAxes input_shape.NumAxes reduce_axes)
              input_shape.NumAxes)
            input_shape.dim_vec.length := by
  unfold InferTensorDescFn
  cases hre : reduce_axes with
  | nil =>
    refine ⟨input_shape, by simp, ?_⟩
    have hz : reducedBelow
        (ReduceSbpUtil.MakePredicatorIsReducedAxis
          (ReduceSbpUtil.GetRegularAxes input_shape.NumAxes []) input_shape.NumAxes)
        input_shape.dim_vec.length = 0 := by
      simp [reducedBelow, ReduceSbpUtil.MakePredicatorIsReducedAxis,
        ReduceSbpUtil.GetRegularAxes]
    rw [hz]
    rfl
  | cons x xs =>
    rw [← hre]
    have hne : reduce_axes.isEmpty = false := by rw [hre]; rfl
    have hall : reduce_axes.all (fun axis =>
        decide (0 ≤ ShiftNegativeAxis axis input_shape.NumAxes ∧
          ShiftNegativeAxis axis input_shape.NumAxes < input_shape.NumAxes)) = true := by
      rw [List.all_eq_true]
      intro axis ha
      exact decide_eq_true (hvalid axis ha)
    simp only [hne, Bool.false_eq_true, if_false, CreateReducedShape, hall, if_true]
    refine ⟨_, rfl, ?_⟩
    have hlen : (Shape.mk ((List.range input_shape.dim_vec.length).map (fun (i : Nat) =>
        if (i : Int) ∈ reduce_axes.map (fun axis => ShiftNegativeAxis axis input_shape.NumAxes)
        then 1 else input_shape.dim_vec.getD i 1))).NumAxes = input_shape.NumAxes := by
      simp [Shape.NumAxes]
    unfold Shape.RemoveOnes
    rw [hlen, ← notReduced_length]
    simp only [List.length_map, List.length_range]
    congr 1
    apply List.filter_congr
    intro i _
    unfold ReduceSbpUtil.MakePredicatorIsReducedAxis ReduceSbpUtil.GetRegularAxes
    simp only [decide_not]

theorem segment_loop (segment_ids data : Shape) :
    ∀ (count i : Nat), i + count ≤ segment_ids.dim_vec.length →
      i + count ≤ data.dim_vec.length →
      ((∀ j, i ≤ j → j < i + count → segment_ids.dim_vec[j]? = data.dim_vec[j]?) →
        forLoop
            (fun i (st : Unit) =>
              match segment_ids.At i, data.At i with
              | some segment_dim, some data_dim =>
                if ¬ (segment_dim = data_dim) then (MaybeVoid.Error, st)
                else (MaybeVoid.Ok, st)
              | _, _ => (MaybeVoid.Abort, st))
            count (i : Int) ()
          = (MaybeVoid.Ok, ())) ∧
      (¬ (∀ j, i ≤ j → j < i + count → segment_ids.dim_vec[j]? = data.dim_vec[j]?) →
        forLoop
            (fun i (st : Unit) =>
              match segment_ids.At i, data.At i with
              | some segment_dim, some data_dim =>
                if ¬ (segment_dim = data_dim) then (MaybeVoid.Error, st)
                else (MaybeVoid.Ok, st)
              | _, _ => (MaybeVoid.Abort, st))
            count (i : Int) ()
          = (MaybeVoid.Error, ())) := by
  intro count
  induction count with
  | zero =>
    intro i _ _
    refine ⟨fun _ => rfl, fun h => ?_⟩
    exact absurd (fun j h1 h2 => absurd h2 (by omega)) h
  | succ n ih =>
    intro i hs hd
    have his : i < segment_ids.dim_vec.length := by omega
    have hid : i < data.dim_vec.length := by omega
    have hcast : ((i : Int) + 1) = ((i + 1 : Nat) : Int) := by push_cast; rfl
    obtain ⟨ih1, ih2⟩ := ih (i + 1) (by omega) (by omega)
    unfold forLoop
    simp only [Shape_At_natCast, List.getElem?_eq_getElem his, List.getElem?_eq_getElem hid]
    by_cases heq : segment_ids.dim_vec[i] = data.dim_vec[i]
    · simp only [heq, not_true_eq_false, if_false]
      rw [hcast]
      constructor
      · intro hall
        exact ih1 (fun j h1 h2 => hall j (by omega) (by omega))
      · intro hnot
        apply ih2
        intro hall
        apply hnot
        intro j h1 h2
        by_cases hj : j = i
        · subst hj
          rw [List.getElem?_eq_getElem his, List.getElem?_eq_getElem hid, heq]
        · exact hall j (by omega) (by omega)
    · simp only [heq, not_false_eq_true, if_true]
      constructor
      · intro hall
        have := hall i (le_refl _) (by omega)
        rw [List.getElem?_eq_getElem his, List.getElem?_eq_getElem hid] at this
        exact absurd (Option.some.inj this) heq
      · intro _
        trivial

theorem segment_infer_ok (num_segments : Int) (data segment_ids out : TensorDesc)
    (h : segmentSumChecks num_segments data segment_ids) :
    UnsortedBatchSegmentSumOp.InferLogicalTensorDesc num_segments data segment_ids out
      = (MaybeVoid.Ok,
          TensorDesc.mk
            (Shape.mk (data.shape.dim_vec.set (segment_ids.shape.dim_vec.length - 1)
              num_segments))
            out.is_dynamic) := by
  obtain ⟨h1, h2, h3, h4, hall⟩ := h
  have hk : segment_ids.shape.NumAxes = (segment_ids.shape.dim_vec.length : Int) := rfl
  have hd : data.shape.NumAxes = (data.shape.dim_vec.length : Int) := rfl
  have c1 : segment_ids.shape.NumAxes ≥ 1 := by omega
  have c2 : data.shape.NumAxes ≥ segment_ids.shape.NumAxes := by omega
  have c4 : num_segments ≥ 1 := by omega
  have hcount : (segment_ids.shape.NumAxes - 1 - 0).toNat
      = segment_ids.shape.dim_vec.length - 1 := by omega
  have h0 : (0 : Int) = ((0 : Nat) : Int) := rfl
  have l1 := (segment_loop segment_ids.shape data.shape
    (segment_ids.shape.dim_vec.length - 1) 0 (by omega) (by omega)).1
    (fun j _ hj => hall j (by omega))
  have hat : DimVector.at_assign data.shape.dim_vec (segment_ids.shape.NumAxes - 1)
      num_segments
      = some (data.shape.dim_vec.set (segment_ids.shape.dim_vec.length - 1)
          num_segments) := by
    unfold DimVector.at_assign
    have hi : (segment_ids.shape.NumAxes - 1).toNat
        = segment_ids.shape.dim_vec.length - 1 := by omega
    rw [if_pos ⟨by omega, by omega⟩, hi]
  unfold UnsortedBatchSegmentSumOp.InferLogicalTensorDesc
  rw [if_neg (not_not.mpr c1), if_neg (not_not.mpr c2), if_neg (not_not.mpr h3),
    if_neg (not_not.mpr c4)]
  unfold forRange
  rw [hcount, h0, l1]
  simp only [hat]

theorem segment_infer_err (num_segments : Int) (data segment_ids out : TensorDesc)
    (h : ¬ segmentSumChecks num_segments data segment_ids) :
    UnsortedBatchSegmentSumOp.InferLogicalTensorDesc num_segments data segment_ids out
      = (MaybeVoid.Error, out) := by
  have hk : segment_ids.shape.NumAxes = (segment_ids.shape.dim_vec.length : Int) := rfl
  have hd : data.shape.NumAxes = (data.shape.dim_vec.length : Int) := rfl
  unfold UnsortedBatchSegmentSumOp.InferLogicalTensorDesc
  by_cases c1 : segment_ids.shape.NumAxes ≥ 1
  · by_cases c2 : data.shape.NumAxes ≥ segment_ids.shape.NumAxes
    · by_cases c3 : segment_ids.is_dynamic = data.is_dynamic
      · by_cases c4 : num_segments ≥ 1
        · have hcount : (segment_ids.shape.NumAxes - 1 - 0).toNat
              = segment_ids.shape.dim_vec.length - 1 := by omega
          have h0 : (0 : Int) = ((0 : Nat) : Int) := rfl
          have hnot : ¬ ∀ j, 0 ≤ j → j < 0 + (segment_ids.shape.dim_vec.length - 1) →
              segment_ids.shape.dim_vec[j]? = data.shape.dim_vec[j]? := by
            intro hall
            exact h ⟨by omega, by omega, c3, by omega,
              fun i hi => hall i (Nat.zero_le _) (by omega)⟩
          have l2 := (segment_loop segment_ids.shape data.shape
            (segment_ids.shape.dim_vec.length - 1) 0 (by omega) (by omega)).2 hnot
          rw [if_neg (not_not.mpr c1), if_neg (not_not.mpr c2), if_neg (not_not.mpr c3),
            if_neg (not_not.mpr c4)]
          unfold forRange
          rw [hcount, h0, l2]
        · rw [if_neg (not_not.mpr c1), if_neg (not_not.mpr c2), if_neg (not_not.mpr c3),
            if_pos c4]
      · rw [if_neg (not_not.mpr c1), if_neg (not_not.mpr c2), if_pos c3]
    · rw [if_neg (not_not.mpr c1), if_pos c2]
  · rw [if_pos c1]

theorem assignInOut_spec (m : String → Option SbpParallel) (v : SbpParallel) :
    assignInOut m v (GenRepeatedBn "in" 0) = some v ∧
    assignInOut m v (GenRepeatedBn "out" 0) = some v ∧
    ∀ name, name ≠ GenRepeatedBn "in" 0 → name ≠ GenRepeatedBn "out" 0 →
      assignInOut m v name = m name := by
  refine ⟨?_, ?_, ?_⟩
  · unfold assignInOut bn2sbpAssign
    by_cases h : GenRepeatedBn "in" 0 = GenRepeatedBn "out" 0
    · rw [if_pos h]
    · rw [if_neg h, if_pos rfl]
  · unfold assignInOut bn2sbpAssign
    rw [if_pos rfl]
  · intro name h1 h2
    unfold assignInOut bn2sbpAssign
    rw [if_neg h2, if_neg h1]

theorem ParallelCast_empty (parse : String → Option SbpParallel)
    (hint : SbpParallel) (in_shape : Shape) (m : String → Option SbpParallel) :
    ParallelCastOp.InferSbpSignature parse "" hint in_shape m
      = (MaybeVoid.Ok, assignInOut m hint) := by
  unfold ParallelCastOp.InferSbpSignature
  simp only [if_true]
  rfl

theorem ParallelCast_parsed (parse : String → Option SbpParallel) (str : String)
    (hint : SbpParallel) (in_shape : Shape) (m : String → Option SbpParallel)
    (hne : str ≠ "") :
    (parse str = none →
      ParallelCastOp.InferSbpSignature parse str hint in_shape m = (MaybeVoid.Error, m)) ∧
    (∀ v, parse str = some v → splitOutOfRange v in_shape.NumAxes →
      ParallelCastOp.InferSbpSignature parse str hint in_shape m = (MaybeVoid.Error, m)) ∧
    (∀ v, parse str = some v → ¬ splitOutOfRange v in_shape.NumAxes →
      ParallelCastOp.InferSbpSignature parse str hint in_shape m
        = (MaybeVoid.Ok, assignInOut m v)) := by
  unfold ParallelCastOp.InferSbpSignature
  rw [if_neg hne]
  refine ⟨?_, ?_, ?_⟩
  · intro hp
    rw [hp]
  · intro v hp hout
    rw [hp]
    obtain ⟨axis, rfl, hr⟩ := hout
    by_cases c1 : axis ≥ 0
    · have c2 : ¬ axis < in_shape.NumAxes := fun h => hr ⟨c1, h⟩
      simp only [c1, c2, not_true_eq_false, not_false_eq_true, if_true, if_false]
    · simp only [c1, not_false_eq_true, if_true]
  · intro v hp hin
    rw [hp]
    cases v with
    | Split axis =>
      have c1 : axis ≥ 0 := by
        by_contra h
        exact hin ⟨axis, rfl, fun hh => h hh.1⟩
      have c2 : axis < in_shape.NumAxes := by
        by_contra h
        exact hin ⟨axis, rfl, fun hh => h hh.2⟩
      simp only [c1, c2, not_true_eq_false, if_false]
      rfl
    | Broadcast => rfl
    | PartialSum => rfl

/-! ## The claims -/

/-- Claim C1, refuted as stated: with batch size 4, payloads 2, 3, 5, 7 and piece
ids 0 to 3, a freshly initialised accumulator whose buffer holds 0 forwards its
output register four times, with the running sums 2, 5, 10 and 17, and not
once (4 / 4) with 17. -/
theorem C1_counterexample :
    forwardedBlobsOf
        (runMsgs 4 (Init [soleOutRegst [0] 9]) (inOrderMsgs 0 [[2], [3], [5], [7]]))
      = [[2], [5], [10], [17]] ∧
    (forwardedBlobsOf
        (runMsgs 4 (Init [soleOutRegst [0] 9]) (inOrderMsgs 0 [[2], [3], [5], [7]]))).length
      ≠ 4 / 4 := by
  decide

/-- Claim C1, amended: for every batch size `B ≥ 1` and every `k ≥ 1`, a freshly
initialised accumulator with one output register, returned by its consumer after
every forward, that consumes `N = k * B` inputs in order (a first batch and
`k - 1` further batches of `B` payloads each) runs to completion and forwards
`N` registers, one per input.  The forwards of the first batch hold the running
sums on top of the initial contents `blob` of the buffer, those of every later
batch the running sums on top of zero; the last forward of a batch holds the sum
over its `B` inputs. -/
theorem C1_forwards_every_act (B : Nat) (hB : 1 ≤ B) (blob : List Int) (consumer : Nat)
    (batch : List (List Int)) (batches : List (List (List Int)))
    (h0 : batch.length = B) (hs : ∀ b ∈ batches, b.length = B) :
    ∃ s, runMsgs B (Init [soleOutRegst blob consumer])
          (inOrderMsgs 0 (batch ++ batches.flatten)) = .ok s ∧
      (forwardedRegsts s.sent_msgs).length = (batches.length + 1) * B ∧
      (forwardedRegsts s.sent_msgs).map (fun r => r.packed_blob)
        = (List.scanl addInto blob batch).tail
          ++ batches.flatMap
              (fun b => (List.scanl addInto (List.replicate blob.length 0) b).tail) := by
  obtain ⟨p1, c1, b1, t1, hrun, hfwd, -, -⟩ :=
    run_inOrder B consumer (batch ++ batches.flatten) 0 0 0 blob []
  rw [← Init_soleOutRegst] at hrun
  have hblobs : (forwardedRegsts t1).map (fun r => r.packed_blob)
      = (List.scanl addInto blob batch).tail
        ++ batches.flatMap
            (fun b => (List.scanl addInto (List.replicate blob.length 0) b).tail) := by
    rw [hfwd, runningBlobs_within B batches.flatten batch 0 blob (by omega)]
    rw [Nat.zero_add, h0, runningBlobs_batches B hB batches _ hs, foldl_addInto_length]
  refine ⟨_, hrun, ?_, ?_⟩
  · have hl := congrArg List.length hfwd
    simp only [List.length_map] at hl
    simp only [idleActor, List.nil_append, hl, runningBlobs_length, List.length_append, h0,
      flatten_length_const B batches hs]
    ring
  · simpa [idleActor] using hblobs

/-- Claim C1, amended, at batch size 4 with the payloads 2, 3, 5, 7 on a zero
buffer, followed by a second batch 1, 1, 1, 1. -/
theorem C1_forwards_every_act_witness :
    ∃ s, runMsgs 4 (Init [soleOutRegst [0] 9])
          (inOrderMsgs 0 ([[2], [3], [5], [7]] ++ [[[1], [1], [1], [1]]].flatten)) = .ok s ∧
      (forwardedRegsts s.sent_msgs).length = ([[[1], [1], [1], [1]]].length + 1) * 4 ∧
      (forwardedRegsts s.sent_msgs).map (fun r => r.packed_blob)
        = (List.scanl addInto [0] [[2], [3], [5], [7]]).tail
          ++ [[[1], [1], [1], [1]]].flatMap
              (fun b => (List.scanl addInto (List.replicate [(0 : Int)].length 0) b).tail) :=
  C1_forwards_every_act 4 (by decide) [0] 9 [[2], [3], [5], [7]] [[[1], [1], [1], [1]]]
    (by decide) (by decide)

/-- Claim C2, refuted as stated: with batch size 4 the first `Act` after `Init`
leaves the accumulation counter at 1, below the batch size, and still sends a
forward message, which carries the partial accumulation 2. -/
theorem C2_counterexample :
    countersOf (Act 4 (firstActState [0] [2])) = [some 1] ∧
    forwardedBlobsOf (Act 4 (firstActState [0] [2])) = [[2]] ∧
    forwardTargets (sentOf (Act 4 (firstActState [0] [2]))) = [(9, 0)] := by
  decide

/-- Claim C2, amended: every `Act` that completes sends a forward message to
every consumer of every current writable register, whatever the accumulation
counters and the batch size are. -/
theorem C2_act_always_forwards (B : Nat) (s s1 : MdDiffAccActor) (h : Act B s = .ok s1) :
    forwardTargets s1.sent_msgs
      = forwardTargets s.sent_msgs
        ++ (curWriteableRegsts s).flatMap
            (fun r => r.subscribers.map (fun c => (c, r.regst_id))) := by
  obtain ⟨w, rest, -, -, -, rfl⟩ := Act_ok_inv B s s1 h
  simp only [actResult, forwardTargets_append, forwardTargets, List.append_nil]
  rw [forwardTargets_act _
    (fun r => ⟨(actRegst_slot B w (actSrc B s w) r).2.1, (actRegst_slot B w (actSrc B s w) r).2.2⟩)]

/-- Claim C2, amended, at the first `Act` of an accumulator with batch size 4. -/
theorem C2_act_always_forwards_witness :
    Act 4 (firstActState [0] [2]) = .ok (actResult 4 (firstActState [0] [2]) (inRegst 0 [2]) []) ∧
    forwardTargets (actResult 4 (firstActState [0] [2]) (inRegst 0 [2]) []).sent_msgs
      = forwardTargets (firstActState [0] [2]).sent_msgs
        ++ (curWriteableRegsts (firstActState [0] [2])).flatMap
            (fun r => r.subscribers.map (fun c => (c, r.regst_id))) :=
  ⟨by decide, C2_act_always_forwards 4 (firstActState [0] [2]) _ (by decide)⟩

/-- Claim C3, refuted as stated: the first `Act` after `Init` finds the counter at
0 and does not zero-fill: on a buffer that holds 9, the input 2 gives 11. -/
theorem C3_counterexample :
    countersOf (.ok (firstActState [9] [2])) = [some 0] ∧
    forwardedBlobsOf (Act 4 (firstActState [9] [2])) = [[11]] := by
  decide

/-- Claim C3, amended: an `Act` that completes zero-fills the packed blob of a
current writable register before the input is accumulated into it exactly when
the accumulation counter of the register equals the batch size; with any other
counter, 0 included, the input is added to what the blob holds.  Registers that
are not current writable registers keep their blob.  (The input descriptor is
not one of the actor's own writable descriptors.) -/
theorem C3_zero_fill_when_batch_done (B : Nat) (s s1 : MdDiffAccActor) (w : RegstWrapper)
    (rest : List RegstWrapper) (hw : s.waiting_in_regst_ = w :: rest)
    (hd : GetCurWriteableRegst s w.regst_desc_id = none) (h : Act B s = .ok s1) :
    s1.produced_regsts_.map (fun r => r.packed_blob)
      = (mapCurWriteableFrom
          (fun r =>
            { r with
              packed_blob :=
                addInto
                  (if r.model_diff_acc_cnt = some B then List.replicate r.packed_blob.length 0
                    else r.packed_blob)
                  w.packed_blob })
          [] s.produced_regsts_).map (fun r => r.packed_blob) := by
  obtain ⟨w1, rest1, hw1, -, -, rfl⟩ := Act_ok_inv B s s1 h
  rw [hw] at hw1
  obtain ⟨rfl, rfl⟩ := List.cons.inj hw1
  simp only [actResult]
  apply map_mapCurWriteableFrom_congr
  intro r
  simp only [actRegst_blob, actSrc_input B s w hd]

/-- Claim C3, amended, at the first `Act` after `Init` on a buffer that holds 9. -/
theorem C3_zero_fill_when_batch_done_witness :
    (firstActState [9] [2]).waiting_in_regst_ = inRegst 0 [2] :: [] ∧
    GetCurWriteableRegst (firstActState [9] [2]) (inRegst 0 [2]).regst_desc_id = none ∧
    (actResult 4 (firstActState [9] [2]) (inRegst 0 [2]) []).produced_regsts_.map
        (fun r => r.packed_blob)
      = (mapCurWriteableFrom
          (fun r =>
            { r with
              packed_blob :=
                addInto
                  (if r.model_diff_acc_cnt = some 4 then List.replicate r.packed_blob.length 0
                    else r.packed_blob)
                  (inRegst 0 [2]).packed_blob })
          [] (firstActState [9] [2]).produced_regsts_).map (fun r => r.packed_blob) :=
  ⟨by decide, by decide,
    C3_zero_fill_when_batch_done 4 (firstActState [9] [2]) _ (inRegst 0 [2]) [] (by decide)
      (by decide) (by decide)⟩

/-- Claim C4, refuted as stated: with batch size 4, after the fourth input with
piece ids 0 to 3 the counter of the output register is 4, not 0; the fifth
`Act` resets it and leaves 1. -/
theorem C4_counterexample :
    countersOf (runMsgs 4 (Init [soleOutRegst [0] 9]) (inOrderMsgs 0 [[2], [3], [5], [7]]))
      = [some 4] ∧
    countersOf (runMsgs 4 (Init [soleOutRegst [0] 9])
        (inOrderMsgs 0 [[2], [3], [5], [7], [11]]))
      = [some 1] := by
  decide

/-- Claim C4, amended: an `Act` that completes leaves the counter of every
current writable register at `(if cnt = B then 0 else cnt) + 1`, where `cnt` is
the counter it found, and leaves all other counters alone.  So the `Act` that
brings a counter to `B` leaves `B`; the reset to 0 is made by the next `Act` on
that register, which leaves 1. -/
theorem C4_counter_after_act (B : Nat) (s s1 : MdDiffAccActor) (h : Act B s = .ok s1) :
    s1.produced_regsts_.map (fun r => r.model_diff_acc_cnt)
      = (mapCurWriteableFrom
          (fun r =>
            { r with
              model_diff_acc_cnt :=
                r.model_diff_acc_cnt.map (fun cnt => (if cnt = B then 0 else cnt) + 1) })
          [] s.produced_regsts_).map (fun r => r.model_diff_acc_cnt) := by
  obtain ⟨w, rest, -, -, -, rfl⟩ := Act_ok_inv B s s1 h
  simp only [actResult]
  apply map_mapCurWriteableFrom_congr
  intro r
  simp only [actRegst_cnt]

/-- Claim C4, amended, at an `Act` with batch size 1, which completes a batch. -/
theorem C4_counter_after_act_witness :
    Act 1 (firstActState [0] [2]) = .ok (actResult 1 (firstActState [0] [2]) (inRegst 0 [2]) []) ∧
    (actResult 1 (firstActState [0] [2]) (inRegst 0 [2]) []).produced_regsts_.map
        (fun r => r.model_diff_acc_cnt)
      = (mapCurWriteableFrom
          (fun r =>
            { r with
              model_diff_acc_cnt :=
                r.model_diff_acc_cnt.map (fun cnt => (if cnt = 1 then 0 else cnt) + 1) })
          [] (firstActState [0] [2]).produced_regsts_).map (fun r => r.model_diff_acc_cnt) :=
  ⟨by decide, C4_counter_after_act 1 (firstActState [0] [2]) _ (by decide)⟩

/-- Claim C5, refuted as stated: with batch size 4 and two inputs followed by
`EORD`, two registers are forwarded, not one (the ceiling of 2 / 4), both by an
`Act`; the drain that ends the run sends the `EORD` command and no register. -/
theorem C5_counterexample :
    forwardedBlobsOf (runMsgs 4 (Init [soleOutRegst [0] 9])
        [inRegstMsg 0 [2], outRegstReturnMsg, inRegstMsg 1 [3], .kCmdMsg .kEORD])
      = [[2], [5]] ∧
    forwardedBlobsOf (runMsgs 4 (Init [soleOutRegst [0] 9])
        [inRegstMsg 0 [2], outRegstReturnMsg, inRegstMsg 1 [3], .kCmdMsg .kEORD,
          outRegstReturnMsg])
      = [[2], [5]] ∧
    ([[2], [5]] : List (List Int)).length ≠ (2 + 4 - 1) / 4 ∧
    eordPart (sentOf (runMsgs 4 (Init [soleOutRegst [0] 9])
        [inRegstMsg 0 [2], outRegstReturnMsg, inRegstMsg 1 [3], .kCmdMsg .kEORD,
          outRegstReturnMsg]))
      = [OutMsg.eord 9 1] := by
  decide

/-- Claim C5, amended: for every batch size and every `N ≥ 1`, when `N` inputs
are delivered in order to a freshly initialised accumulator (one output
register, returned by its consumer after each forward) followed by `EORD`, the
accumulator forwards exactly `N` registers, one per input, all before `EORD` is
handled, and none by the drain.  When `EORD` arrives before the return of the
last forward, the drain step, run when that return arrives, terminates the
actor and adds the `EORD` command for the consumer and nothing else.  When
`EORD` arrives after that return, the step of `HandleNormal` only switches the
handler: no `EORD` command and no register is sent, and every later message
aborts in that state. -/
theorem C5_drain_sends_only_eord (B consumer : Nat) (blob : List Int)
    (pre : List (List Int)) (v : List Int) :
    (∃ s1 s2,
      runMsgs B (Init [soleOutRegst blob consumer])
          (inOrderMsgs 0 pre ++ [inRegstMsg pre.length v, .kCmdMsg .kEORD]) = .ok s1 ∧
      ProcessMsg B s1 outRegstReturnMsg = .ok (s2, 1) ∧
      (forwardedRegsts s1.sent_msgs).length = pre.length + 1 ∧
      eordPart s1.sent_msgs = [] ∧
      s2.sent_msgs = s1.sent_msgs ++ [OutMsg.eord consumer 1] ∧
      s2.msg_handle_ = MsgHandle.nullptr) ∧
    (∃ s0 s3,
      runMsgs B (Init [soleOutRegst blob consumer]) (inOrderMsgs 0 (pre ++ [v])) = .ok s0 ∧
      ProcessMsg B s0 (.kCmdMsg .kEORD) = .ok (s3, 0) ∧
      runMsgs B (Init [soleOutRegst blob consumer])
          (inOrderMsgs 0 (pre ++ [v]) ++ [.kCmdMsg .kEORD]) = .ok s3 ∧
      s3 = { s0 with msg_handle_ := MsgHandle.HandleWaitUntilNoReadableRegst } ∧
      (forwardedRegsts s3.sent_msgs).length = pre.length + 1 ∧
      eordPart s3.sent_msgs = [] ∧
      ∀ msg, ProcessMsg B s3 msg = .fatal s3) := by
  constructor
  · obtain ⟨p1, c1, b1, t1, hrun, hfwd, -, heord⟩ := run_inOrder B consumer pre 0 0 0 blob []
    rw [← Init_soleOutRegst] at hrun
    have hd := drain_step B (0 + pre.length) p1 consumer c1 b1 v ([] ++ t1)
    rw [Nat.zero_add] at hd hrun
    refine ⟨_, _, ?_, hd.2, ?_, ?_, ?_, ?_⟩
    · rw [runMsgs_append B _ _ _ _ hrun]
      exact hd.1
    · have hl := congrArg List.length hfwd
      simp only [List.length_map, runningBlobs_length] at hl
      simp [busyActor, forwardedRegsts_append, hl, stepTrace, forwardedRegsts]
    · simp [busyActor, eordPart_append, heord, stepTrace, eordPart]
    · simp [busyActor, idleActor]
    · rfl
  · obtain ⟨p1, c1, b1, t1, hrun, hfwd, -, heord⟩ :=
      run_inOrder B consumer (pre ++ [v]) 0 0 0 blob []
    rw [← Init_soleOutRegst] at hrun
    have hstep : ProcessMsg B
        (idleActor .HandleNormal (0 + (pre ++ [v]).length) p1 b1 consumer c1 ([] ++ t1))
        (.kCmdMsg .kEORD)
        = .ok (idleActor .HandleWaitUntilNoReadableRegst (0 + (pre ++ [v]).length) p1 b1
            consumer c1 ([] ++ t1), 0) := rfl
    refine ⟨_, _, hrun, hstep, ?_, rfl, ?_, ?_, ?_⟩
    · rw [runMsgs_append B _ _ _ _ hrun]
      simp only [runMsgs, hstep]
    · have hl := congrArg List.length hfwd
      simp only [List.length_map, runningBlobs_length, List.length_append,
        List.length_singleton] at hl
      simp [idleActor, hl]
    · simp [idleActor, heord]
    · intro msg
      cases msg with
      | kCmdMsg cmd => rfl
      | kRegstMsg w =>
        by_cases hw : w.regst_raw_ptr = 0
        · simp [ProcessMsg, HandleWaitUntilNoReadableRegst, TryUpdtStateAsProducedRegst,
            idleActor, hw]
        · have hw2 : ¬ (0 = w.regst_raw_ptr) := fun h => hw h.symm
          simp [ProcessMsg, HandleWaitUntilNoReadableRegst, TryUpdtStateAsProducedRegst,
            idleActor, hw, hw2]

/-- Claim C5, amended, at batch size 4 and two inputs whose forwards are both
returned before `EORD` arrives: two registers are forwarded, the `EORD` step
only switches the handler, no `EORD` command is sent, and every later message
aborts. -/
theorem C5_drain_sends_only_eord_witness :
    forwardedBlobsOf (runMsgs 4 (Init [soleOutRegst [0] 9])
        [inRegstMsg 0 [2], outRegstReturnMsg, inRegstMsg 1 [3], outRegstReturnMsg,
          .kCmdMsg .kEORD])
      = [[2], [5]] ∧
    eordPart (sentOf (runMsgs 4 (Init [soleOutRegst [0] 9])
        [inRegstMsg 0 [2], outRegstReturnMsg, inRegstMsg 1 [3], outRegstReturnMsg,
          .kCmdMsg .kEORD]))
      = [] ∧
    (∃ s0 s3,
      runMsgs 4 (Init [soleOutRegst [0] 9]) (inOrderMsgs 0 ([[2]] ++ [[3]])) = .ok s0 ∧
      ProcessMsg 4 s0 (.kCmdMsg .kEORD) = .ok (s3, 0) ∧
      runMsgs 4 (Init [soleOutRegst [0] 9])
          (inOrderMsgs 0 ([[2]] ++ [[3]]) ++ [.kCmdMsg .kEORD]) = .ok s3 ∧
      s3 = { s0 with msg_handle_ := MsgHandle.HandleWaitUntilNoReadableRegst } ∧
      (forwardedRegsts s3.sent_msgs).length = [[2]].length + 1 ∧
      eordPart s3.sent_msgs = [] ∧
      ∀ msg, ProcessMsg 4 s3 msg = .fatal s3) :=
  ⟨by decide, by decide, (C5_drain_sends_only_eord 4 9 [0] [[2]] [3]).2⟩

/-- Claim C6: every `Act` that completes removes exactly the head of
`waiting_in_regst_` and sends exactly one return message, for that head, as the
last message of the step, after the forward messages of the same step.  Hence
over a run of `Act`s, and over any message step, the registers returned are
exactly the registers consumed, in queue order. -/
theorem C6_one_return_per_act (B : Nat) (s : MdDiffAccActor) :
    (∀ s1, Act B s = .ok s1 →
      ∃ regst_wp fwd, s.waiting_in_regst_ = regst_wp :: s1.waiting_in_regst_ ∧
        s1.sent_msgs = s.sent_msgs ++ fwd ++ [OutMsg.toProducer regst_wp] ∧
        ∀ m ∈ fwd, ∃ consumer regst, m = OutMsg.readable consumer regst) ∧
    (∀ s1, ActUntilFail B s = .ok s1 →
      ∃ consumed, s.waiting_in_regst_ = consumed ++ s1.waiting_in_regst_ ∧
        returnedRegsts s1.sent_msgs = returnedRegsts s.sent_msgs ++ consumed) ∧
    (∀ msg s1 ret, ProcessMsg B s msg = .ok (s1, ret) →
      ∃ consumed, s.waiting_in_regst_ ++ enqueuedBy s msg = consumed ++ s1.waiting_in_regst_ ∧
        returnedRegsts s1.sent_msgs = returnedRegsts s.sent_msgs ++ consumed) := by
  refine ⟨?_, ?_, ?_⟩
  · intro s1 h
    obtain ⟨w, rest, hw, -, -, rfl⟩ := Act_ok_inv B s s1 h
    exact ⟨w, _, hw, rfl, fun m hm => mem_readableMsgs_flatMap _ m hm⟩
  · intro s1 h
    obtain ⟨-, -, consumed, sent, r3, r4, r5, -⟩ := ActUntilFail_rel B s s1 h
    exact ⟨consumed, r3, by rw [r4, returnedRegsts_append, r5]⟩
  · intro msg s1 ret h
    by_cases hb : BeforeEORD s
    · obtain ⟨-, consumed, sent, h1, h2, -, h4⟩ := ProcessMsg_before B s s1 msg ret hb h
      refine ⟨consumed, h1, ?_⟩
      rcases h4 with ⟨-, h4⟩ | ⟨-, h4, -, -⟩
      · rw [h4, returnedRegsts_append, h2]
      · rw [h4, returnedRegsts_append, returnedRegsts_append, h2, returnedRegsts_eordMsgs,
          List.append_nil]
    · have ha : AfterEORD s := by
        unfold BeforeEORD at hb
        unfold AfterEORD
        cases hh : s.msg_handle_ <;> simp [hh] at hb ⊢
      obtain ⟨h1, -, h3⟩ := ProcessMsg_after B s s1 msg ret ha h
      have henq : enqueuedBy s msg = [] := by
        cases msg with
        | kCmdMsg c => rfl
        | kRegstMsg w =>
          rcases ha with ha | ha <;> simp [enqueuedBy, ha]
      exact ⟨[], by rw [henq, h3]; simp, by rw [h1]; simp⟩

/-- Claim C6 at the first `Act` of an accumulator with batch size 4, and at the
message step that delivers its first input. -/
theorem C6_one_return_per_act_witness :
    (∃ regst_wp fwd,
      (firstActState [0] [2]).waiting_in_regst_
        = regst_wp :: (actResult 4 (firstActState [0] [2]) (inRegst 0 [2]) []).waiting_in_regst_ ∧
      (actResult 4 (firstActState [0] [2]) (inRegst 0 [2]) []).sent_msgs
        = (firstActState [0] [2]).sent_msgs ++ fwd ++ [OutMsg.toProducer regst_wp] ∧
      ∀ m ∈ fwd, ∃ consumer regst, m = OutMsg.readable consumer regst) ∧
    (∃ consumed,
      (Init [soleOutRegst [0] 9]).waiting_in_regst_
          ++ enqueuedBy (Init [soleOutRegst [0] 9]) (inRegstMsg 0 [2])
        = consumed ++ (busyActor .HandleNormal 1 0 [2] 9 1 (stepTrace 4 0 9 0 [0] [2])).waiting_in_regst_ ∧
      returnedRegsts (busyActor .HandleNormal 1 0 [2] 9 1 (stepTrace 4 0 9 0 [0] [2])).sent_msgs
        = returnedRegsts (Init [soleOutRegst [0] 9]).sent_msgs ++ consumed) :=
  ⟨(C6_one_return_per_act 4 (firstActState [0] [2])).1 _ (by decide),
   (C6_one_return_per_act 4 (Init [soleOutRegst [0] 9])).2.2 (inRegstMsg 0 [2]) _ 0 (by decide)⟩

/-- Claim C7, refuted as stated: an accumulator with batch size 4 that has
consumed pieces 0, 1, 2 expects piece 3 and has an empty queue; when the
register of piece 5 arrives the step aborts, and at the abort
`waiting_in_regst_` holds that register: it is not as before the arrival. -/
theorem C7_counterexample :
    (stateOf (runMsgs 4 (Init [soleOutRegst [0] 9]) (inOrderMsgs 0 [[2], [3], [5]]))).map
        (fun s => (expected_piece_id s, s.waiting_in_regst_))
      = some (3, []) ∧
    (abortStateOf (processAfter 4
        (runMsgs 4 (Init [soleOutRegst [0] 9]) (inOrderMsgs 0 [[2], [3], [5]]))
        (inRegstMsg 5 [7]))).map (fun a => a.waiting_in_regst_)
      = some [inRegst 5 [7]] := by
  decide

/-- Claim C7, amended: `Act` on a head register whose piece id differs from
`expected_piece_id` is fatal and mutates nothing.  When such a register arrives
in `HandleNormal` at an actor with an empty queue and a free output register,
the step is fatal, and at the abort the state is the state before the arrival
except for `waiting_in_regst_`, which holds the arrived register. -/
theorem C7_mismatch_fatal_after_enqueue (B : Nat) (s : MdDiffAccActor) (regst_wp : RegstWrapper)
    (hp : regst_wp.piece_id ≠ expected_piece_id s) :
    (∀ rest, s.waiting_in_regst_ = regst_wp :: rest → Act B s = .fatal s) ∧
    (s.waiting_in_regst_ = [] →
      s.produced_regsts_.find? (fun r => r.regst_id = regst_wp.regst_raw_ptr) = none →
      IsWriteReady s = true →
      HandleNormal B s (.kRegstMsg regst_wp)
        = .fatal { s with waiting_in_regst_ := [regst_wp] }) := by
  refine ⟨fun rest hw => Act_mismatch B s regst_wp rest hw hp, ?_⟩
  intro hq hnone hwr
  have hact : Act B { s with waiting_in_regst_ := [regst_wp] }
      = .fatal { s with waiting_in_regst_ := [regst_wp] } :=
    Act_mismatch B _ regst_wp [] rfl hp
  have hwr2 : IsWriteReady { s with waiting_in_regst_ := [regst_wp] } = true := by
    exact (isWriteReady_congr s _ rfl).trans hwr
  simp [HandleNormal, TryUpdt_none s _ hnone, hq, ActUntilFail, ActUntilFailLoop, IsReadReady,
    hwr2, hact]

/-- Claim C7, amended, at piece id 5 arriving while piece 3 is expected. -/
theorem C7_mismatch_fatal_after_enqueue_witness :
    (inRegst 5 [7]).piece_id ≠ expected_piece_id (idleActor .HandleNormal 3 2 [10] 9 3 []) ∧
    HandleNormal 4 (idleActor .HandleNormal 3 2 [10] 9 3 []) (.kRegstMsg (inRegst 5 [7]))
      = .fatal { idleActor .HandleNormal 3 2 [10] 9 3 [] with
          waiting_in_regst_ := [inRegst 5 [7]] } :=
  ⟨by decide,
   (C7_mismatch_fatal_after_enqueue 4 (idleActor .HandleNormal 3 2 [10] 9 3 []) (inRegst 5 [7])
      (by decide)).2 (by decide) (by decide) (by decide)⟩

/-- Claim C8, refuted as stated: `HandleNormal` on `EORD`, at a freshly
initialised actor, ends with `waiting_in_regst_` empty and a reading count of 0,
and the actor is not terminated: the step returns 0 and the handler is
`HandleWaitUntilNoReadableRegst`. -/
theorem C8_counterexample :
    stepSummary (HandleNormal 4 (Init [soleOutRegst [0] 9]) (.kCmdMsg .kEORD))
      = some (0, MsgHandle.HandleWaitUntilNoReadableRegst, 0, 0) := by
  decide

/-- Claim C8, amended: a step of `HandleWaitUntilNoReadableRegst` ends in
Terminated (return value 1, handler cleared) exactly when, at the end of the
step, `waiting_in_regst_` is empty and `total_reading_cnt()` is 0; a step of
`HandleNormal` never ends in Terminated: it returns 0 and leaves a handler
installed, whatever the queue and the reading count are. -/
theorem C8_terminated_iff_in_drain (B : Nat) (s s1 : MdDiffAccActor) (msg : ActorMsg) (ret : Int) :
    (HandleWaitUntilNoReadableRegst B s msg = .ok (s1, ret) →
      ((ret = 1 ∧ s1.msg_handle_ = MsgHandle.nullptr) ↔
        (s1.waiting_in_regst_ = [] ∧ total_reading_cnt s1 = 0)) ∧
      (ret = 1 ↔ (s1.waiting_in_regst_ = [] ∧ total_reading_cnt s1 = 0))) ∧
    (s.msg_handle_ = MsgHandle.HandleNormal → HandleNormal B s msg = .ok (s1, ret) →
      ret = 0 ∧ s1.msg_handle_ ≠ MsgHandle.nullptr) := by
  constructor
  · intro h
    obtain ⟨w, s0, s2, -, -, -, hcases⟩ := HandleWaitUntilNoReadableRegst_ok_inv B s s1 msg ret h
    rcases hcases with ⟨hq, h0, rfl, rfl⟩ | ⟨hq, h0, rfl, rfl⟩ | ⟨hq, rfl, rfl⟩
    · simp [hq, h0, total_reading_cnt]
    · simp [hq, h0, total_reading_cnt]
    · simp [hq]
  · intro hn h
    obtain ⟨hret, s0, hact, hh, -, -, -⟩ := HandleNormal_ok_inv B s s1 msg ret h
    obtain ⟨r1, -⟩ := ActUntilFail_rel B s0 s1 hact
    refine ⟨hret, ?_⟩
    rcases hh with hh | hh
    · rw [r1, hh, hn]; decide
    · rw [r1, hh]; decide

/-- Claim C8, amended, at the drain step that ends a run with one input, and at
`HandleNormal` on `EORD`. -/
theorem C8_terminated_iff_in_drain_witness :
    (((1 : Int) = 1 ∧
        (idleActor .nullptr 1 0 [2] 9 1
          (stepTrace 4 0 9 0 [0] [2] ++ [OutMsg.eord 9 1])).msg_handle_ = MsgHandle.nullptr) ↔
      ((idleActor .nullptr 1 0 [2] 9 1
          (stepTrace 4 0 9 0 [0] [2] ++ [OutMsg.eord 9 1])).waiting_in_regst_ = [] ∧
        total_reading_cnt (idleActor .nullptr 1 0 [2] 9 1
          (stepTrace 4 0 9 0 [0] [2] ++ [OutMsg.eord 9 1])) = 0)) ∧
    ((0 : Int) = 0 ∧
      (idleActor .HandleWaitUntilNoReadableRegst 0 0 [0] 9 0 []).msg_handle_
        ≠ MsgHandle.nullptr) :=
  ⟨((C8_terminated_iff_in_drain 4
      (busyActor .HandleWaitUntilNoReadableRegst 1 0 [2] 9 1 (stepTrace 4 0 9 0 [0] [2]))
      (idleActor .nullptr 1 0 [2] 9 1 (stepTrace 4 0 9 0 [0] [2] ++ [OutMsg.eord 9 1]))
      outRegstReturnMsg 1).1 (by decide)).1,
   (C8_terminated_iff_in_drain 4 (idleActor .HandleNormal 0 0 [0] 9 0 [])
      (idleActor .HandleWaitUntilNoReadableRegst 0 0 [0] 9 0 []) (.kCmdMsg .kEORD) 0).2
      (by decide) (by decide)⟩

/-- Claim C9: in `HandleWaitUntilNoReadableRegst`, for an accepted message (the
return of a produced register) after which `ActUntilFail` leaves the state `s2`:
if `waiting_in_regst_` is empty, the `EORD` messages for all produced register
descriptors are sent and the actor is terminated (handler cleared, result 1)
when `total_reading_cnt()` is 0, and waits in
`HandleWaitUntilReadingCntEqualZero` (result 0) otherwise; if
`waiting_in_regst_` is not empty the step changes nothing after `ActUntilFail`:
the handler is the one the step started with, no `EORD` has been sent, and the
result is 0.  The `EORD` messages sent cover every produced register
descriptor: each goes to the consumers of a register of that descriptor. -/
theorem C9_drain_step (B : Nat) (s s1 s2 : MdDiffAccActor) (regst_wrapper : RegstWrapper)
    (ht : TryUpdtStateAsProducedRegst s regst_wrapper.regst_raw_ptr = .ok (s1, 0))
    (ha : ActUntilFail B s1 = .ok s2) :
    (s2.waiting_in_regst_ = [] → total_reading_cnt s2 = 0 →
      HandleWaitUntilNoReadableRegst B s (.kRegstMsg regst_wrapper)
        = .ok ({ s2 with sent_msgs := s2.sent_msgs ++ eordMsgs s2,
                         msg_handle_ := MsgHandle.nullptr }, 1)) ∧
    (s2.waiting_in_regst_ = [] → total_reading_cnt s2 ≠ 0 →
      HandleWaitUntilNoReadableRegst B s (.kRegstMsg regst_wrapper)
        = .ok ({ s2 with sent_msgs := s2.sent_msgs ++ eordMsgs s2,
                         msg_handle_ := MsgHandle.HandleWaitUntilReadingCntEqualZero }, 0)) ∧
    (s2.waiting_in_regst_ ≠ [] →
      HandleWaitUntilNoReadableRegst B s (.kRegstMsg regst_wrapper) = .ok (s2, 0) ∧
      s2.msg_handle_ = s.msg_handle_ ∧
      eordPart s2.sent_msgs = eordPart s.sent_msgs) ∧
    (∀ r ∈ s2.produced_regsts_, ∃ q ∈ s2.produced_regsts_,
      q.regst_desc_id = r.regst_desc_id ∧
      ∀ c ∈ q.subscribers, OutMsg.eord c r.regst_desc_id ∈ eordMsgs s2) := by
  obtain ⟨t1, -, t3, -, -, -⟩ := TryUpdt_ok s s1 _ 0 ht
  obtain ⟨r1, -, consumed, sent, -, r4, -, r6⟩ := ActUntilFail_rel B s1 s2 ha
  refine ⟨?_, ?_, ?_, fun r hr => eordMsgs_covers s2 r hr⟩
  · intro hq h0
    have he : s2.waiting_in_regst_.isEmpty = true := by rw [hq]; rfl
    unfold total_reading_cnt at h0
    simp [HandleWaitUntilNoReadableRegst, ht, ha, he, total_reading_cnt,
      AsyncSendEORDMsgForAllProducedRegstDesc, h0]
  · intro hq h0
    have he : s2.waiting_in_regst_.isEmpty = true := by rw [hq]; rfl
    unfold total_reading_cnt at h0
    simp [HandleWaitUntilNoReadableRegst, ht, ha, he, total_reading_cnt,
      AsyncSendEORDMsgForAllProducedRegstDesc, h0]
  · intro hq
    have he : s2.waiting_in_regst_.isEmpty = false := by
      cases hx : s2.waiting_in_regst_ with
      | nil => exact absurd hx hq
      | cons x xs => rfl
    refine ⟨?_, r1.trans t1, ?_⟩
    · simp [HandleWaitUntilNoReadableRegst, ht, ha, he]
    · rw [r4, t3, eordPart_append, r6, List.append_nil]

/-- Claim C9 at three drain steps: the last reader returns the register and
nothing is pending; one of two readers returns it and nothing is pending; one
of two readers returns it while an input is pending and no register is free. -/
theorem C9_drain_step_witness :
    HandleWaitUntilNoReadableRegst 4 (twoReaderActor .HandleWaitUntilNoReadableRegst 1 [])
        (.kRegstMsg outRegstReturn)
      = .ok ({ twoReaderActor .HandleWaitUntilNoReadableRegst 0 [] with
                sent_msgs := (twoReaderActor .HandleWaitUntilNoReadableRegst 0 []).sent_msgs
                  ++ eordMsgs (twoReaderActor .HandleWaitUntilNoReadableRegst 0 []),
                msg_handle_ := MsgHandle.nullptr }, 1) ∧
    HandleWaitUntilNoReadableRegst 4 (twoReaderActor .HandleWaitUntilNoReadableRegst 2 [])
        (.kRegstMsg outRegstReturn)
      = .ok ({ twoReaderActor .HandleWaitUntilNoReadableRegst 1 [] with
                sent_msgs := (twoReaderActor .HandleWaitUntilNoReadableRegst 1 []).sent_msgs
                  ++ eordMsgs (twoReaderActor .HandleWaitUntilNoReadableRegst 1 []),
                msg_handle_ := MsgHandle.HandleWaitUntilReadingCntEqualZero }, 0) ∧
    (HandleWaitUntilNoReadableRegst 4
        (twoReaderActor .HandleWaitUntilNoReadableRegst 2 [inRegst 1 [3]])
        (.kRegstMsg outRegstReturn)
      = .ok (twoReaderActor .HandleWaitUntilNoReadableRegst 1 [inRegst 1 [3]], 0) ∧
      (twoReaderActor .HandleWaitUntilNoReadableRegst 1 [inRegst 1 [3]]).msg_handle_
        = (twoReaderActor .HandleWaitUntilNoReadableRegst 2 [inRegst 1 [3]]).msg_handle_ ∧
      eordPart (twoReaderActor .HandleWaitUntilNoReadableRegst 1 [inRegst 1 [3]]).sent_msgs
        = eordPart (twoReaderActor .HandleWaitUntilNoReadableRegst 2 [inRegst 1 [3]]).sent_msgs) :=
  ⟨(C9_drain_step 4 (twoReaderActor .HandleWaitUntilNoReadableRegst 1 [])
      (twoReaderActor .HandleWaitUntilNoReadableRegst 0 [])
      (twoReaderActor .HandleWaitUntilNoReadableRegst 0 []) outRegstReturn
      (by decide) (by decide)).1 (by decide) (by decide),
   (C9_drain_step 4 (twoReaderActor .HandleWaitUntilNoReadableRegst 2 [])
      (twoReaderActor .HandleWaitUntilNoReadableRegst 1 [])
      (twoReaderActor .HandleWaitUntilNoReadableRegst 1 []) outRegstReturn
      (by decide) (by decide)).2.1 (by decide) (by decide),
   (C9_drain_step 4 (twoReaderActor .HandleWaitUntilNoReadableRegst 2 [inRegst 1 [3]])
      (twoReaderActor .HandleWaitUntilNoReadableRegst 1 [inRegst 1 [3]])
      (twoReaderActor .HandleWaitUntilNoReadableRegst 1 [inRegst 1 [3]]) outRegstReturn
      (by decide) (by decide)).2.2.1 (by decide)⟩

/-- Claim C10: in every run of the handler state machine, once `EORD` has been
sent (the handler is then `HandleWaitUntilReadingCntEqualZero` or cleared) the
actor sends no further message and its handler is never again `HandleNormal` or
`HandleWaitUntilNoReadableRegst`, so `Act` does not run again.  A run that starts
under `HandleNormal` or `HandleWaitUntilNoReadableRegst` either sends no `EORD`
at all, or sends the `EORD` messages of the produced register descriptors once,
as the last messages it ever sends. -/
theorem C10_nothing_sent_after_eord (B : Nat) (s s2 : MdDiffAccActor) (msgs : List ActorMsg)
    (hrun : runMsgs B s msgs = .ok s2) :
    (AfterEORD s → s2.sent_msgs = s.sent_msgs ∧ AfterEORD s2) ∧
    (BeforeEORD s →
      ∃ sent, eordPart sent = [] ∧
        ((BeforeEORD s2 ∧ s2.sent_msgs = s.sent_msgs ++ sent) ∨
         (AfterEORD s2 ∧ s2.sent_msgs = s.sent_msgs ++ sent ++ eordMsgs s))) := by
  refine ⟨fun ha => runMsgs_after B msgs s s2 ha hrun, fun hb => ?_⟩
  obtain ⟨sent, he, hc⟩ := runMsgs_before B msgs s s2 hb hrun
  refine ⟨sent, he, ?_⟩
  rcases hc with ⟨h1, -, h3⟩ | h
  · exact Or.inl ⟨h1, h3⟩
  · exact Or.inr h

/-- Claim C10 at two runs: one input, `EORD` and the return of the output register
by its consumer, from `Init`; and the two returns that end an actor which has
sent `EORD` while both consumers held its register. -/
theorem C10_nothing_sent_after_eord_witness :
    (∃ sent, eordPart sent = [] ∧
      ((BeforeEORD (idleActor .nullptr 1 0 [2] 9 1
            (stepTrace 4 0 9 0 [0] [2] ++ [OutMsg.eord 9 1])) ∧
          (idleActor .nullptr 1 0 [2] 9 1
            (stepTrace 4 0 9 0 [0] [2] ++ [OutMsg.eord 9 1])).sent_msgs
            = (Init [soleOutRegst [0] 9]).sent_msgs ++ sent) ∨
       (AfterEORD (idleActor .nullptr 1 0 [2] 9 1
            (stepTrace 4 0 9 0 [0] [2] ++ [OutMsg.eord 9 1])) ∧
          (idleActor .nullptr 1 0 [2] 9 1
            (stepTrace 4 0 9 0 [0] [2] ++ [OutMsg.eord 9 1])).sent_msgs
            = (Init [soleOutRegst [0] 9]).sent_msgs ++ sent
              ++ eordMsgs (Init [soleOutRegst [0] 9])))) ∧
    ((twoReaderActor .nullptr 0 []).sent_msgs
        = (twoReaderActor .HandleWaitUntilReadingCntEqualZero 2 []).sent_msgs ∧
      AfterEORD (twoReaderActor .nullptr 0 [])) :=
  ⟨(C10_nothing_sent_after_eord 4 (Init [soleOutRegst [0] 9])
      (idleActor .nullptr 1 0 [2] 9 1 (stepTrace 4 0 9 0 [0] [2] ++ [OutMsg.eord 9 1]))
      [inRegstMsg 0 [2], .kCmdMsg .kEORD, outRegstReturnMsg] (by decide)).2 (Or.inl rfl),
   (C10_nothing_sent_after_eord 4 (twoReaderActor .HandleWaitUntilReadingCntEqualZero 2 [])
      (twoReaderActor .nullptr 0 [])
      [outRegstReturnMsg, outRegstReturnMsg] (by decide)).1 (Or.inl rfl)⟩

/-- Claim C11: `HandleNormal` on the command `EORD` installs
`HandleWaitUntilNoReadableRegst` and then runs `ActUntilFail`.  At an actor at
rest (no input waiting, or no output register free, as every message step
leaves it) the step completes at once: the handler is switched, nothing else
changes and the result is 0.  Whenever the step completes, the result is 0, the
handler is `HandleWaitUntilNoReadableRegst` and the queue is a tail of the queue
before: nothing has been enqueued.  A command that is not `EORD` is fatal and
changes nothing.  The actor is at rest after `Init` and after every completed
step of `HandleNormal`. -/
theorem C11_eord_in_normal (B : Nat) (s : MdDiffAccActor) :
    ((IsReadReady s && IsWriteReady s) = false →
      HandleNormal B s (.kCmdMsg .kEORD)
        = .ok ({ s with msg_handle_ := MsgHandle.HandleWaitUntilNoReadableRegst }, 0)) ∧
    (∀ s1 ret, HandleNormal B s (.kCmdMsg .kEORD) = .ok (s1, ret) →
      ret = 0 ∧ s1.msg_handle_ = MsgHandle.HandleWaitUntilNoReadableRegst ∧
      ∃ consumed, s.waiting_in_regst_ = consumed ++ s1.waiting_in_regst_) ∧
    (∀ code, HandleNormal B s (.kCmdMsg (.kOtherCmd code)) = .fatal s) ∧
    (∀ task_regsts,
      (IsReadReady (Init task_regsts) && IsWriteReady (Init task_regsts)) = false) ∧
    (∀ msg s1 ret, HandleNormal B s msg = .ok (s1, ret) →
      (IsReadReady s1 && IsWriteReady s1) = false) := by
  refine ⟨?_, ?_, ?_, ?_, ?_⟩
  rotate_left 3
  · intro task_regsts
    have hq : (Init task_regsts).waiting_in_regst_ = [] := rfl
    simp [IsReadReady, hq]
  · intro msg s1 ret h
    obtain ⟨-, s0, ha, -⟩ := HandleNormal_ok_inv B s s1 msg ret h
    exact ActUntilFail_exit B s0 s1 ha
  · intro hrest
    have hrest2 : (IsReadReady { s with msg_handle_ := MsgHandle.HandleWaitUntilNoReadableRegst }
        && IsWriteReady { s with msg_handle_ := MsgHandle.HandleWaitUntilNoReadableRegst })
        = false := hrest
    rw [HandleNormal_eord, ActUntilFail_at_rest B _ hrest2]
    rfl
  · intro s1 ret h
    rw [HandleNormal_eord] at h
    cases ha : ActUntilFail B { s with msg_handle_ := MsgHandle.HandleWaitUntilNoReadableRegst }
      with
    | ok s2 =>
      rw [ha] at h
      simp only [returning, Outcome.ok.injEq, Prod.mk.injEq] at h
      obtain ⟨rfl, rfl⟩ := h
      obtain ⟨r1, -, consumed, sent, r3, -, -, -⟩ := ActUntilFail_rel B _ s2 ha
      exact ⟨rfl, r1, consumed, r3⟩
    | fatal a => rw [ha] at h; simp [returning] at h
    | undefined => rw [ha] at h; simp [returning] at h
  · intro code
    simp [HandleNormal]

/-- Claim C11 at a freshly initialised accumulator. -/
theorem C11_eord_in_normal_witness :
    HandleNormal 4 (Init [soleOutRegst [0] 9]) (.kCmdMsg .kEORD)
      = .ok ({ Init [soleOutRegst [0] 9] with
                msg_handle_ := MsgHandle.HandleWaitUntilNoReadableRegst }, 0) ∧
    ((0 : Int) = 0 ∧
      (idleActor .HandleWaitUntilNoReadableRegst 0 0 [0] 9 0 []).msg_handle_
        = MsgHandle.HandleWaitUntilNoReadableRegst ∧
      ∃ consumed, (Init [soleOutRegst [0] 9]).waiting_in_regst_
        = consumed ++ (idleActor .HandleWaitUntilNoReadableRegst 0 0 [0] 9 0 []).waiting_in_regst_) :=
  ⟨(C11_eord_in_normal 4 (Init [soleOutRegst [0] 9])).1 (by decide),
   (C11_eord_in_normal 4 (Init [soleOutRegst [0] 9])).2.1
      (idleActor .HandleWaitUntilNoReadableRegst 0 0 [0] 9 0 []) 0 (by decide)⟩

/-- Claim C12: under `HandleNormal` a register message is enqueued exactly when
`TryUpdtStateAsProducedRegst` returns non-zero; the register is then appended at
the tail of `waiting_in_regst_`, the earlier entries unchanged, before
`ActUntilFail` runs.  An `Act` that completes removes the front entry and
returns exactly that register.  So along every run of message steps the
registers consumed, in the order of their return messages, followed by the
registers still waiting, are the registers that waited at the start followed by
the registers enqueued, in arrival order. -/
theorem C12_pending_inputs_fifo (B : Nat) (s : MdDiffAccActor) :
    (∀ regst_wrapper s0 ret,
      TryUpdtStateAsProducedRegst s regst_wrapper.regst_raw_ptr = .ok (s0, ret) →
      (ret ≠ 0 →
        s0 = s ∧ enqueuedBy { s with msg_handle_ := MsgHandle.HandleNormal }
            (.kRegstMsg regst_wrapper) = [regst_wrapper] ∧
        HandleNormal B s (.kRegstMsg regst_wrapper)
          = returning 0 (ActUntilFail B
              { s with waiting_in_regst_ := s.waiting_in_regst_ ++ [regst_wrapper] })) ∧
      (ret = 0 →
        s0.waiting_in_regst_ = s.waiting_in_regst_ ∧
        enqueuedBy { s with msg_handle_ := MsgHandle.HandleNormal }
            (.kRegstMsg regst_wrapper) = [] ∧
        HandleNormal B s (.kRegstMsg regst_wrapper) = returning 0 (ActUntilFail B s0))) ∧
    (∀ s1, Act B s = .ok s1 →
      ∃ front, s.waiting_in_regst_ = front :: s1.waiting_in_regst_ ∧
        returnedRegsts s1.sent_msgs = returnedRegsts s.sent_msgs ++ [front]) ∧
    (∀ msgs s2, runMsgs B s msgs = .ok s2 →
      ∃ consumed,
        s.waiting_in_regst_ ++ enqueuedAlong B s msgs = consumed ++ s2.waiting_in_regst_ ∧
        returnedRegsts s2.sent_msgs = returnedRegsts s.sent_msgs ++ consumed) := by
  refine ⟨?_, ?_, fun msgs s2 h => runMsgs_fifo B msgs s s2 h⟩
  · intro w s0 ret ht
    obtain ⟨-, h2, -, -, -, h6⟩ := TryUpdt_ok s s0 _ ret ht
    constructor
    · intro hr
      have hnone : s.produced_regsts_.find? (fun r => r.regst_id = w.regst_raw_ptr) = none := by
        cases hf : s.produced_regsts_.find? (fun r => r.regst_id = w.regst_raw_ptr) with
        | none => rfl
        | some q => exact absurd (h6.mpr (by simp [hf])) hr
      have ht2 := TryUpdt_none s _ hnone
      rw [ht2] at ht
      simp only [Outcome.ok.injEq, Prod.mk.injEq] at ht
      refine ⟨ht.1.symm, by simp [enqueuedBy, hnone], ?_⟩
      cases hx : ActUntilFail B { s with waiting_in_regst_ := s.waiting_in_regst_ ++ [w] }
        <;> simp [HandleNormal, ht2, returning, hx]
    · intro hr
      subst hr
      have hsome := h6.mp rfl
      refine ⟨h2, ?_, ?_⟩
      · simp [enqueuedBy, Option.isSome_iff_ne_none.mp hsome]
      · cases hx : ActUntilFail B s0 <;> simp [HandleNormal, ht, returning, hx]
  · intro s1 h
    obtain ⟨w, rest, hw, -, -, rfl⟩ := Act_ok_inv B s s1 h
    refine ⟨w, hw, ?_⟩
    simp [actResult, returnedRegsts_append, returnedRegsts_readableMsgs, returnedRegsts]

/-- Claim C12 at a run that delivers the pieces 0 and 1 while the consumer still
holds the output register, and then gets the register back: piece 0 is consumed
on arrival, piece 1 waits and is consumed when the register returns. -/
theorem C12_pending_inputs_fifo_witness :
    (HandleNormal 4 (busyActor .HandleNormal 1 0 [2] 9 1 []) (.kRegstMsg (inRegst 1 [3]))
      = returning 0 (ActUntilFail 4
          { busyActor .HandleNormal 1 0 [2] 9 1 [] with
            waiting_in_regst_ :=
              (busyActor .HandleNormal 1 0 [2] 9 1 []).waiting_in_regst_ ++ [inRegst 1 [3]] })) ∧
    ∃ consumed,
      (Init [soleOutRegst [0] 9]).waiting_in_regst_
          ++ enqueuedAlong 4 (Init [soleOutRegst [0] 9])
              [inRegstMsg 0 [2], inRegstMsg 1 [3], outRegstReturnMsg]
        = consumed ++ (busyActor .HandleNormal 2 1 [5] 9 2
            (stepTrace 4 0 9 0 [0] [2] ++ stepTrace 4 1 9 1 [2] [3])).waiting_in_regst_ ∧
      returnedRegsts (busyActor .HandleNormal 2 1 [5] 9 2
            (stepTrace 4 0 9 0 [0] [2] ++ stepTrace 4 1 9 1 [2] [3])).sent_msgs
        = returnedRegsts (Init [soleOutRegst [0] 9]).sent_msgs ++ consumed :=
  ⟨(((C12_pending_inputs_fifo 4 (busyActor .HandleNormal 1 0 [2] 9 1 [])).1 (inRegst 1 [3])
      (busyActor .HandleNormal 1 0 [2] 9 1 []) (-1) (by decide)).1 (by decide)).2.2,
   (C12_pending_inputs_fifo 4 (Init [soleOutRegst [0] 9])).2.2
    [inRegstMsg 0 [2], inRegstMsg 1 [3], outRegstReturnMsg] _ (by decide)⟩

/-- Claim C16: an `Act` that completes tags every register it forwards, and
every register that was a current writable register, with the piece id of the
register that was at the head of `waiting_in_regst_` when the `Act` started
(which is the expected piece id); the piece ids of the other registers are
not touched. -/
theorem C16_forward_tagged_with_input_piece (B : Nat) (s s1 : MdDiffAccActor)
    (h : Act B s = .ok s1) :
    ∃ front sent, s.waiting_in_regst_ = front :: s1.waiting_in_regst_ ∧
      front.piece_id = expected_piece_id s ∧
      s1.sent_msgs = s.sent_msgs ++ sent ∧
      (∀ regst ∈ forwardedRegsts sent, regst.piece_id = front.piece_id) ∧
      s1.produced_regsts_.map (fun r => r.piece_id)
        = (mapCurWriteableFrom (fun r => { r with piece_id := front.piece_id })
            [] s.produced_regsts_).map (fun r => r.piece_id) := by
  obtain ⟨w, rest, hw, hp, -, rfl⟩ := Act_ok_inv B s s1 h
  refine ⟨w, ((curWriteableRegsts s).map (actRegst B w (actSrc B s w))).flatMap readableMsgs
    ++ [OutMsg.toProducer w], hw, hp, by simp only [actResult, List.append_assoc], ?_, ?_⟩
  · intro regst hr
    rw [forwardedRegsts_append] at hr
    simp only [forwardedRegsts, List.append_nil] at hr
    have key : ∀ rs : List Regst, ∀ x ∈ forwardedRegsts
        ((rs.map (actRegst B w (actSrc B s w))).flatMap readableMsgs),
        x.piece_id = w.piece_id := by
      intro rs
      induction rs with
      | nil => intro x hx; simp [forwardedRegsts] at hx
      | cons r rs ih =>
        intro x hx
        rw [List.map_cons, List.flatMap_cons, forwardedRegsts_append] at hx
        rcases List.mem_append.mp hx with hx | hx
        · have hone : ∀ cs : List Nat, ∀ y ∈ forwardedRegsts
              (cs.map (fun consumer => OutMsg.readable consumer (actRegst B w (actSrc B s w) r))),
              y.piece_id = w.piece_id := by
            intro cs
            induction cs with
            | nil => intro y hy; simp [forwardedRegsts] at hy
            | cons c cs ihc =>
              intro y hy
              simp only [List.map_cons, forwardedRegsts, List.mem_cons] at hy
              rcases hy with rfl | hy
              · simp [actRegst, tagAndCount]
              · exact ihc y hy
          exact hone _ x hx
        · exact ih x hx
    exact key _ regst hr
  · simp only [actResult]
    apply map_mapCurWriteableFrom_congr
    intro r
    simp [actRegst, tagAndCount]

/-- Claim C16 at the second `Act` of an accumulator: the register, tagged 0 by
the first `Act`, is tagged with the piece id 1 of the input. -/
theorem C16_forward_tagged_with_input_piece_witness :
    ∃ front sent,
      ({ idleActor .HandleNormal 1 0 [2] 9 1 [] with
          waiting_in_regst_ := [inRegst 1 [3]] } : MdDiffAccActor).waiting_in_regst_
        = front :: (busyActor .HandleNormal 2 1 [5] 9 2 (stepTrace 4 1 9 1 [2] [3])).waiting_in_regst_ ∧
      front.piece_id = expected_piece_id
        { idleActor .HandleNormal 1 0 [2] 9 1 [] with waiting_in_regst_ := [inRegst 1 [3]] } ∧
      (busyActor .HandleNormal 2 1 [5] 9 2 (stepTrace 4 1 9 1 [2] [3])).sent_msgs
        = ({ idleActor .HandleNormal 1 0 [2] 9 1 [] with
              waiting_in_regst_ := [inRegst 1 [3]] } : MdDiffAccActor).sent_msgs ++ sent ∧
      (∀ regst ∈ forwardedRegsts sent, regst.piece_id = front.piece_id) ∧
      (busyActor .HandleNormal 2 1 [5] 9 2 (stepTrace 4 1 9 1 [2] [3])).produced_regsts_.map
          (fun r => r.piece_id)
        = (mapCurWriteableFrom (fun r => { r with piece_id := front.piece_id })
            [] ({ idleActor .HandleNormal 1 0 [2] 9 1 [] with
                  waiting_in_regst_ := [inRegst 1 [3]] } : MdDiffAccActor).produced_regsts_).map
            (fun r => r.piece_id) :=
  C16_forward_tagged_with_input_piece 4
    { idleActor .HandleNormal 1 0 [2] 9 1 [] with waiting_in_regst_ := [inRegst 1 [3]] }
    (busyActor .HandleNormal 2 1 [5] 9 2 (stepTrace 4 1 9 1 [2] [3])) (by decide)

/-- Claim C17: in `HandleWaitUntilNoReadableRegst`, a register message on which
`TryUpdtStateAsProducedRegst` returns non-zero (the register is not one of the
actor's produced registers) is fatal, and the state at the abort is the state
in which the message arrived: no `Act` has run, nothing has been enqueued and
nothing, `EORD` included, has been sent. -/
theorem C17_input_after_eord_fatal (B : Nat) (s s0 : MdDiffAccActor)
    (regst_wrapper : RegstWrapper) (ret : Int)
    (ht : TryUpdtStateAsProducedRegst s regst_wrapper.regst_raw_ptr = .ok (s0, ret))
    (hr : ret ≠ 0) :
    HandleWaitUntilNoReadableRegst B s (.kRegstMsg regst_wrapper) = .fatal s ∧ s0 = s := by
  obtain ⟨-, -, -, -, -, h6⟩ := TryUpdt_ok s s0 _ ret ht
  have hnone : s.produced_regsts_.find?
      (fun r => r.regst_id = regst_wrapper.regst_raw_ptr) = none := by
    cases hf : s.produced_regsts_.find?
        (fun r => r.regst_id = regst_wrapper.regst_raw_ptr) with
    | none => rfl
    | some q => exact absurd (h6.mpr (by simp [hf])) hr
  have ht2 := TryUpdt_none s _ hnone
  rw [ht2] at ht
  simp only [Outcome.ok.injEq, Prod.mk.injEq] at ht
  refine ⟨?_, ht.1.symm⟩
  simp [HandleWaitUntilNoReadableRegst, ht2]

/-- Claim C17 at a draining accumulator that receives the input register of
piece 1 while its queue still holds a register. -/
theorem C17_input_after_eord_fatal_witness :
    HandleWaitUntilNoReadableRegst 4
        (twoReaderActor .HandleWaitUntilNoReadableRegst 0 [inRegst 1 [3]])
        (.kRegstMsg (inRegst 2 [5]))
      = .fatal (twoReaderActor .HandleWaitUntilNoReadableRegst 0 [inRegst 1 [3]]) ∧
    twoReaderActor .HandleWaitUntilNoReadableRegst 0 [inRegst 1 [3]]
      = twoReaderActor .HandleWaitUntilNoReadableRegst 0 [inRegst 1 [3]] :=
  C17_input_after_eord_fatal 4
    (twoReaderActor .HandleWaitUntilNoReadableRegst 0 [inRegst 1 [3]])
    (twoReaderActor .HandleWaitUntilNoReadableRegst 0 [inRegst 1 [3]])
    (inRegst 2 [5]) (-1) (by decide) (by decide)

/-- Claim C20: the register provider of `Act` resolves a descriptor id that has
a current writable register to that register; any other id resolves to the
head of `waiting_in_regst_` when it is the descriptor id of that head, and is
fatal otherwise.  Whatever it resolves is a current writable register of that
descriptor or the head of the queue. -/
theorem C20_register_provider (s : MdDiffAccActor) (regst_desc_id : Nat) :
    (∀ regst, GetCurWriteableRegst s regst_desc_id = some regst →
      Regst4RegstDescId s regst_desc_id = .ok (Sum.inl regst) ∧
      regst ∈ curWriteableRegsts s ∧ regst.regst_desc_id = regst_desc_id) ∧
    (∀ front rest, GetCurWriteableRegst s regst_desc_id = none →
      s.waiting_in_regst_ = front :: rest →
      (regst_desc_id = front.regst_desc_id →
        Regst4RegstDescId s regst_desc_id = .ok (Sum.inr front)) ∧
      (regst_desc_id ≠ front.regst_desc_id →
        Regst4RegstDescId s regst_desc_id = .fatal s)) ∧
    (∀ resolved, Regst4RegstDescId s regst_desc_id = .ok resolved →
      (∃ regst ∈ curWriteableRegsts s, resolved = Sum.inl regst ∧
        regst.regst_desc_id = regst_desc_id) ∨
      (∃ front rest, s.waiting_in_regst_ = front :: rest ∧ resolved = Sum.inr front ∧
        front.regst_desc_id = regst_desc_id)) := by
  have hsome : ∀ regst, GetCurWriteableRegst s regst_desc_id = some regst →
      regst ∈ curWriteableRegsts s ∧ regst.regst_desc_id = regst_desc_id := by
    intro regst hg
    unfold GetCurWriteableRegst at hg
    exact ⟨List.mem_of_find?_eq_some hg, by simpa using List.find?_some hg⟩
  refine ⟨?_, ?_, ?_⟩
  · intro regst hg
    exact ⟨by simp [Regst4RegstDescId, hg], hsome regst hg⟩
  · intro front rest hg hw
    constructor
    · intro he
      unfold Regst4RegstDescId
      rw [hg]
      simp only [hw]
      rw [if_neg (not_not.mpr he)]
    · intro hne
      unfold Regst4RegstDescId
      rw [hg]
      simp only [hw]
      rw [if_pos hne]
  · intro resolved h
    unfold Regst4RegstDescId at h
    cases hg : GetCurWriteableRegst s regst_desc_id with
    | some regst =>
      simp only [hg, Outcome.ok.injEq] at h
      exact Or.inl ⟨regst, (hsome regst hg).1, h.symm, (hsome regst hg).2⟩
    | none =>
      simp only [hg] at h
      cases hw : s.waiting_in_regst_ with
      | nil => simp [hw] at h
      | cons front rest =>
        simp only [hw] at h
        by_cases he : regst_desc_id = front.regst_desc_id
        · simp only [he, ne_eq, not_true_eq_false, if_false, Outcome.ok.injEq] at h
          exact Or.inr ⟨front, rest, rfl, h.symm, he.symm⟩
        · simp [he] at h

/-- Claim C20 at the first `Act` of an accumulator: descriptor 1 is the output
register, descriptor 0 the input at the head of the queue, descriptor 7 is
neither. -/
theorem C20_register_provider_witness :
    (Regst4RegstDescId (firstActState [0] [2]) 1
        = .ok (Sum.inl
            { regst_id := 0, regst_desc_id := 1, piece_id := 0, packed_blob := [0],
              subscribers := [9], reading_cnt := 0, model_diff_acc_cnt := some 0 }) ∧
      ({ regst_id := 0, regst_desc_id := 1, piece_id := 0, packed_blob := [0],
         subscribers := [9], reading_cnt := 0, model_diff_acc_cnt := some 0 } : Regst)
        ∈ curWriteableRegsts (firstActState [0] [2]) ∧
      ({ regst_id := 0, regst_desc_id := 1, piece_id := 0, packed_blob := [0],
         subscribers := [9], reading_cnt := 0, model_diff_acc_cnt := some 0 } : Regst).regst_desc_id
        = 1) ∧
    Regst4RegstDescId (firstActState [0] [2]) 0 = .ok (Sum.inr (inRegst 0 [2])) ∧
    Regst4RegstDescId (firstActState [0] [2]) 7 = .fatal (firstActState [0] [2]) :=
  ⟨(C20_register_provider (firstActState [0] [2]) 1).1 _ (by decide),
   ((C20_register_provider (firstActState [0] [2]) 0).2.1 (inRegst 0 [2]) [] (by decide)
      (by decide)).1 (by decide),
   ((C20_register_provider (firstActState [0] [2]) 7).2.1 (inRegst 0 [2]) [] (by decide)
      (by decide)).2 (by decide)⟩

/-- Claim C13: an `Act` that completes leaves every produced register that is
being read (`reading_cnt` not 0) exactly as it was: all its writes go to current
writable registers, whose `reading_cnt` is 0.  The consumed input register is
handed back to its producer as it arrived.  A return message lowers the
`reading_cnt` of a register only where it is at least 1, and the total by
exactly one: no reading count goes below 0. -/
theorem C13_act_writes_only_writable (B : Nat) (s : MdDiffAccActor) :
    (∀ s1, Act B s = .ok s1 →
      List.Forall₂ (fun r r1 => (r.reading_cnt ≠ 0 → r1 = r) ∧ r1.regst_id = r.regst_id)
        s.produced_regsts_ s1.produced_regsts_ ∧
      ∃ front, s.waiting_in_regst_ = front :: s1.waiting_in_regst_ ∧
        returnedRegsts s1.sent_msgs = returnedRegsts s.sent_msgs ++ [front]) ∧
    (∀ regst ∈ curWriteableRegsts s, regst.reading_cnt = 0 ∧ regst ∈ s.produced_regsts_) ∧
    (∀ regst s0, TryUpdtStateAsProducedRegst s regst = .ok (s0, 0) →
      total_reading_cnt s0 + 1 = total_reading_cnt s ∧
      List.Forall₂
        (fun r r0 => r0 = r ∨
          (1 ≤ r.reading_cnt ∧ r0 = { r with reading_cnt := r.reading_cnt - 1 }))
        s.produced_regsts_ s0.produced_regsts_) := by
  refine ⟨?_, fun regst hr => curWriteableFrom_reading_cnt _ _ regst hr, ?_⟩
  · intro s1 h
    obtain ⟨w, rest, hw, -, -, rfl⟩ := Act_ok_inv B s s1 h
    constructor
    · simp only [actResult]
      apply mapCurWriteableFrom_forall₂
      · intro r; exact ⟨fun _ => rfl, rfl⟩
      · intro r h0
        exact ⟨fun hne => absurd h0 hne, (actRegst_slot B w (actSrc B s w) r).2.2⟩
    · refine ⟨w, hw, ?_⟩
      simp [actResult, returnedRegsts_append, returnedRegsts_readableMsgs, returnedRegsts]
  · intro regst s0 ht
    unfold TryUpdtStateAsProducedRegst at ht
    cases hf : s.produced_regsts_.find? (fun r => r.regst_id = regst) with
    | none => simp [hf] at ht
    | some q =>
      simp only [hf] at ht
      by_cases hc : q.reading_cnt = 0 ∨ s.total_reading_cnt_ = 0
      · simp [hc] at ht
      · simp only [hc, if_false, Outcome.ok.injEq, Prod.mk.injEq, and_true] at ht
        subst ht
        have htot : s.total_reading_cnt_ ≠ 0 := fun h0 => hc (Or.inr h0)
        constructor
        · simp only [total_reading_cnt]
          omega
        · apply map_forall₂
          intro r
          by_cases hid : r.regst_id = regst
          · dsimp only
            rw [if_pos hid]
            by_cases h1 : 1 ≤ r.reading_cnt
            · exact Or.inr ⟨h1, rfl⟩
            · left
              have h0 : r.reading_cnt = 0 := by omega
              cases r
              simp only at h0
              subst h0
              rfl
          · dsimp only
            rw [if_neg hid]
            exact Or.inl rfl

/-- Claim C13 at an `Act` of an actor with two registers of one descriptor, the
first held by a consumer, the second free: the first is untouched. -/
theorem C13_act_writes_only_writable_witness :
    (List.Forall₂ (fun r r1 => (r.reading_cnt ≠ 0 → r1 = r) ∧ r1.regst_id = r.regst_id)
        (heldAndFreeActor [inRegst 1 [3]]).produced_regsts_
        (actResult 4 (heldAndFreeActor [inRegst 1 [3]]) (inRegst 1 [3]) []).produced_regsts_ ∧
      ∃ front, (heldAndFreeActor [inRegst 1 [3]]).waiting_in_regst_
          = front :: (actResult 4 (heldAndFreeActor [inRegst 1 [3]]) (inRegst 1 [3])
              []).waiting_in_regst_ ∧
        returnedRegsts (actResult 4 (heldAndFreeActor [inRegst 1 [3]]) (inRegst 1 [3])
              []).sent_msgs
          = returnedRegsts (heldAndFreeActor [inRegst 1 [3]]).sent_msgs ++ [front]) ∧
    (total_reading_cnt (twoReaderActor .HandleNormal 1 []) + 1
        = total_reading_cnt (twoReaderActor .HandleNormal 2 []) ∧
      List.Forall₂
        (fun r r0 => r0 = r ∨
          (1 ≤ r.reading_cnt ∧ r0 = { r with reading_cnt := r.reading_cnt - 1 }))
        (twoReaderActor .HandleNormal 2 []).produced_regsts_
        (twoReaderActor .HandleNormal 1 []).produced_regsts_) :=
  ⟨(C13_act_writes_only_writable 4 (heldAndFreeActor [inRegst 1 [3]])).1 _ (by decide),
   (C13_act_writes_only_writable 4 (twoReaderActor .HandleNormal 2 [])).2.2 0
      (twoReaderActor .HandleNormal 1 []) (by decide)⟩

/-- Claim C15, refuted as stated: with batch size 1 the first `Act` after `Init`
on a buffer that holds 9 forwards 11 for the input 2: it is not a
pass-through. -/
theorem C15_counterexample :
    forwardedBlobsOf (runMsgs 1 (Init [soleOutRegst [9] 9]) (inOrderMsgs 0 [[2], [3]]))
      = [[11], [3]] := by
  decide

/-- Claim C15, amended: with batch size 1, for every sequence of in-order inputs
of the size of the output buffer, delivered to a freshly initialised
accumulator (one output register, returned by its consumer after each
forward), every `Act` forwards the output register; the first `Act` after `Init`
leaves in it the initial contents `blob` of the buffer plus the first input,
every later `Act` leaves in it the contents of the consumed input. -/
theorem C15_batch_one_after_first (blob : List Int) (consumer : Nat) (v : List Int)
    (vs : List (List Int)) (hlen : ∀ x ∈ vs, x.length = blob.length) :
    ∃ s, runMsgs 1 (Init [soleOutRegst blob consumer]) (inOrderMsgs 0 (v :: vs)) = .ok s ∧
      (forwardedRegsts s.sent_msgs).map (fun r => r.packed_blob) = addInto blob v :: vs := by
  obtain ⟨p1, c1, b1, t1, hrun, hfwd, -, -⟩ := run_inOrder 1 consumer (v :: vs) 0 0 0 blob []
  rw [← Init_soleOutRegst] at hrun
  refine ⟨_, hrun, ?_⟩
  have e : runningBlobs 1 0 blob (v :: vs)
      = addInto (accBase 1 0 blob) v ::
        runningBlobs 1 (accCnt 1 0) (addInto (accBase 1 0 blob) v) vs := rfl
  have hb : accBase 1 0 blob = blob := rfl
  have hc : accCnt 1 0 = 1 := rfl
  rw [e, hb, hc, runningBlobs_batch_one vs _
    (fun x hx => (hlen x hx).trans (addInto_length blob v).symm)] at hfwd
  simpa [idleActor] using hfwd

/-- Claim C15, amended, at the inputs 2, 3, 5 on a buffer that holds 9. -/
theorem C15_batch_one_after_first_witness :
    ∃ s, runMsgs 1 (Init [soleOutRegst [9] 9]) (inOrderMsgs 0 ([2] :: [[3], [5]])) = .ok s ∧
      (forwardedRegsts s.sent_msgs).map (fun r => r.packed_blob) = addInto [9] [2] :: [[3], [5]] :=
  C15_batch_one_after_first [9] 9 [2] [[3], [5]] (by decide)

/-- Claim C19: the drain flush does not depend on the accumulation counters.
For two actor states that differ only in the values of `model_diff_acc_cnt_`
(in particular two DrainPending states), `HandleWaitUntilNoReadableRegst` on the
same message has the same outcome up to the counter values and the buffer
contents of the produced registers: when one step completes with state `s1` and
result `ret`, the other completes with the same result, the same handler, the
same `EORD` messages, the same queue, the same expected piece and the same
`total_reading_cnt_`; when one aborts, so does the other.  The handler does not
touch a counter itself: the counters after a completed step are those left by
the `Act`s of its `ActUntilFail`, which starts from the counters of `s`, and a
step that finds the queue empty leaves every counter as it was. -/
theorem C19_drain_flush_ignores_counters (B : Nat) (s t : MdDiffAccActor) (msg : ActorMsg)
    (h : eraseCounterValues s = eraseCounterValues t) :
    eraseStep (HandleWaitUntilNoReadableRegst B s msg)
      = eraseStep (HandleWaitUntilNoReadableRegst B t msg) ∧
    (∀ s1 ret, HandleWaitUntilNoReadableRegst B s msg = .ok (s1, ret) →
      ∃ t1, HandleWaitUntilNoReadableRegst B t msg = .ok (t1, ret) ∧
        t1.msg_handle_ = s1.msg_handle_ ∧
        eordPart t1.sent_msgs = eordPart s1.sent_msgs ∧
        t1.waiting_in_regst_ = s1.waiting_in_regst_ ∧
        t1.expected_piece_id_ = s1.expected_piece_id_ ∧
        t1.total_reading_cnt_ = s1.total_reading_cnt_) ∧
    (∀ a, HandleWaitUntilNoReadableRegst B s msg = .fatal a →
      ∃ b, HandleWaitUntilNoReadableRegst B t msg = .fatal b) ∧
    (∀ s1 ret, HandleWaitUntilNoReadableRegst B s msg = .ok (s1, ret) →
      ∃ w s0 s2, msg = .kRegstMsg w ∧
        TryUpdtStateAsProducedRegst s w.regst_raw_ptr = .ok (s0, 0) ∧
        countersOf (.ok s0) = countersOf (.ok s) ∧
        ActUntilFail B s0 = .ok s2 ∧
        s1.produced_regsts_ = s2.produced_regsts_ ∧
        (s.waiting_in_regst_ = [] → countersOf (.ok s1) = countersOf (.ok s))) := by
  have he : eraseActor s = eraseActor t := by
    rw [← eraseActor_eraseCounterValues s, ← eraseActor_eraseCounterValues t, h]
  have hE := HandleWaitUntilNoReadableRegst_erase_congr B s t msg he
  refine ⟨hE, ?_, ?_, ?_⟩
  · intro s1 ret hs
    rw [hs] at hE
    obtain ⟨t1, ht, ht1⟩ := eraseStep_ok_inv _ _ _ hE.symm
    obtain ⟨f1, f2, f3, f4⟩ := erase_eq_fields _ _ ht1
    exact ⟨t1, ht, f1, eordPart_of_erase_eq _ _ ht1, f2, f3, f4⟩
  · intro a hs
    rw [hs] at hE
    obtain ⟨b, hb, -⟩ := eraseStep_fatal_inv _ _ hE.symm
    exact ⟨b, hb⟩
  · intro s1 ret hs
    obtain ⟨w, s0, s2, hm, ht, ha, hc⟩ :=
      HandleWaitUntilNoReadableRegst_ok_inv B s s1 msg ret hs
    have hcnt := TryUpdt_counters s s0 _ _ ht
    have hp : s1.produced_regsts_ = s2.produced_regsts_ := by
      rcases hc with ⟨-, -, -, rfl⟩ | ⟨-, -, -, rfl⟩ | ⟨-, -, rfl⟩ <;> rfl
    refine ⟨w, s0, s2, hm, ht, hcnt, ha, hp, fun hq => ?_⟩
    have hq0 : s0.waiting_in_regst_ = [] := by
      rw [(TryUpdt_ok s s0 _ _ ht).2.1, hq]
    have hrest : ActUntilFail B s0 = .ok s0 :=
      ActUntilFail_at_rest B s0 (by simp [IsReadReady, hq0])
    rw [hrest] at ha
    simp only [Outcome.ok.injEq] at ha
    subst ha
    show s1.produced_regsts_.map _ = s.produced_regsts_.map _
    rw [hp]
    exact hcnt

/-- Claim C19 at two draining actors whose counters are 2 and 1, with batch
size 2: the consumer returns the output register while the input of piece 1
waits, so the step runs one `Act` (which zero-fills in the first actor only),
sends `EORD` and moves to `HandleWaitUntilReadingCntEqualZero` in both. -/
theorem C19_drain_flush_ignores_counters_witness :
    eraseCounterValues (drainingActor 2 [inRegst 1 [3]])
      = eraseCounterValues (drainingActor 1 [inRegst 1 [3]]) ∧
    eraseStep (HandleWaitUntilNoReadableRegst 2 (drainingActor 2 [inRegst 1 [3]])
        outRegstReturnMsg)
      = eraseStep (HandleWaitUntilNoReadableRegst 2 (drainingActor 1 [inRegst 1 [3]])
        outRegstReturnMsg) ∧
    stepSummary (HandleWaitUntilNoReadableRegst 2 (drainingActor 1 [inRegst 1 [3]])
        outRegstReturnMsg)
      = some (0, MsgHandle.HandleWaitUntilReadingCntEqualZero, 0, 1) :=
  ⟨by decide,
   (C19_drain_flush_ignores_counters 2 (drainingActor 2 [inRegst 1 [3]])
      (drainingActor 1 [inRegst 1 [3]]) outRegstReturnMsg (by decide)).1,
   by decide⟩

/-- Claim C21: the accumulation counter, for a batch size `B` of at least 1.  An
`Act` that completes leaves every register either as it was or with its counter
advanced by `accCnt B` (reset to 0 when it equals `B`, then incremented), and a
counter of at most `B` is advanced into the range 1 to `B`.  Starting from the 0
that `Init` sets, the counter after the `k + 1`-st `Act` on a register is
`k % B + 1`, which lies between 1 and `B`; the `Act` that follows `k` earlier
ones finds the counter equal to `B`, and so resets it, exactly when `k` is a
positive multiple of `B`.  In the run of a freshly initialised accumulator on
in-order inputs the register forwarded by `Act` number `i + 1` carries the
counter `i % B + 1`.  With batch size 0 the register forwarded by `Act` number
`i + 1` carries `i + 1`: the counter is not bounded. -/
theorem C21_counter_invariant (B : Nat) (hB : 1 ≤ B) :
    (∀ s s1, Act B s = .ok s1 →
      List.Forall₂
        (fun r r1 => r1 = r ∨
          r1.model_diff_acc_cnt = r.model_diff_acc_cnt.map (accCnt B))
        s.produced_regsts_ s1.produced_regsts_) ∧
    (∀ c, c ≤ B → 1 ≤ accCnt B c ∧ accCnt B c ≤ B) ∧
    (∀ k, (accCnt B)^[k + 1] 0 = k % B + 1 ∧
      1 ≤ (accCnt B)^[k + 1] 0 ∧ (accCnt B)^[k + 1] 0 ≤ B) ∧
    (∀ k, (accCnt B)^[k] 0 = B ↔ 1 ≤ k ∧ k % B = 0) ∧
    (∀ (blob : List Int) (consumer : Nat) (vs : List (List Int)),
      ∃ s, runMsgs B (Init [soleOutRegst blob consumer]) (inOrderMsgs 0 vs) = .ok s ∧
        (forwardedRegsts s.sent_msgs).map (fun r => r.model_diff_acc_cnt)
          = (List.range vs.length).map (fun i => some (i % B + 1)) ∧
        countersOf (.ok s)
          = [some (if vs.length = 0 then 0 else (vs.length - 1) % B + 1)]) ∧
    (∀ (blob : List Int) (consumer : Nat) (vs : List (List Int)),
      ∃ s, runMsgs 0 (Init [soleOutRegst blob consumer]) (inOrderMsgs 0 vs) = .ok s ∧
        (forwardedRegsts s.sent_msgs).map (fun r => r.model_diff_acc_cnt)
          = (List.range vs.length).map (fun i => some (i + 1))) := by
  refine ⟨?_, ?_, ?_, accCnt_reset_iff B hB, ?_, ?_⟩
  · intro s s1 h
    obtain ⟨w, rest, -, -, -, rfl⟩ := Act_ok_inv B s s1 h
    show List.Forall₂ _ s.produced_regsts_ (mapCurWriteableFrom _ [] s.produced_regsts_)
    apply mapCurWriteableFrom_forall₂
    · intro r
      exact Or.inl rfl
    · intro r _
      refine Or.inr ?_
      show (actRegst B w (actSrc B s w) r).model_diff_acc_cnt = _
      rw [actRegst_cnt]
      rfl
  · intro c hc
    unfold accCnt
    by_cases h : c = B
    · rw [if_pos h]; omega
    · rw [if_neg h]; omega
  · intro k
    have hlt : k % B < B := Nat.mod_lt k (by omega)
    rw [accCnt_iterate B hB k]
    exact ⟨rfl, by omega, by omega⟩
  · intro blob consumer vs
    obtain ⟨p1, b1, t1, hrun, hfwd⟩ := run_inOrder_counters B consumer vs 0 0 0 blob []
    rw [← Init_soleOutRegst] at hrun
    refine ⟨_, hrun, ?_, ?_⟩
    · show (forwardedRegsts ([] ++ t1)).map _ = _
      rw [List.nil_append, hfwd]
      apply List.map_congr_left
      intro i _
      rw [accCnt_iterate B hB i]
    · show [some ((accCnt B)^[vs.length] 0)] = _
      cases hl : vs.length with
      | zero => rfl
      | succ k =>
        rw [accCnt_iterate B hB k]
        simp
  · intro blob consumer vs
    obtain ⟨p1, b1, t1, hrun, hfwd⟩ := run_inOrder_counters 0 consumer vs 0 0 0 blob []
    rw [← Init_soleOutRegst] at hrun
    refine ⟨_, hrun, ?_⟩
    show (forwardedRegsts ([] ++ t1)).map _ = _
    rw [List.nil_append, hfwd]
    apply List.map_congr_left
    intro i _
    rw [accCnt_iterate_zero (i + 1)]

/-- Claim C21 at batch size 2: the counters after the first five `Act`s are
1, 2, 1, 2, 1, and the third `Act` is the first that finds the counter at 2. -/
theorem C21_counter_invariant_witness :
    1 ≤ 2 ∧
    ((accCnt 2)^[4 + 1] 0 = 4 % 2 + 1 ∧
      1 ≤ (accCnt 2)^[4 + 1] 0 ∧ (accCnt 2)^[4 + 1] 0 ≤ 2) ∧
    ((accCnt 2)^[2] 0 = 2 ↔ 1 ≤ 2 ∧ 2 % 2 = 0) ∧
    (forwardedRegsts
        (sentOf (runMsgs 2 (Init [soleOutRegst [0] 9])
          (inOrderMsgs 0 [[1], [1], [1], [1], [1]])))).map (fun r => r.model_diff_acc_cnt)
      = [some 1, some 2, some 1, some 2, some 1] :=
  ⟨by decide, (C21_counter_invariant 2 (by decide)).2.2.1 4,
   (C21_counter_invariant 2 (by decide)).2.2.2.1 2, by decide⟩

/-- Claim C30: `StreamOnIndependentThread` answers every one of the eleven
stream types: true exactly for `kAsyncedDevice2Host`, `kCriticalSection` and
`kLazyJobLauncher`, false for `kCompute`, `kHost2Device`, `kDevice2Host`,
`kSyncedLaunchedCommNet`, `kAsyncedLaunchedCommNet` and `kBarrier`; the
methods for `kPinnedCompute` and `kTmpCompute` return what `VisitCompute`
returns. -/
theorem C30_stream_on_independent_thread :
    (∀ stream_type : StreamType,
      StreamOnIndependentThread.Visit stream_type = true ↔
        stream_type = StreamType.kAsyncedDevice2Host ∨
        stream_type = StreamType.kCriticalSection ∨
        stream_type = StreamType.kLazyJobLauncher) ∧
    StreamOnIndependentThread.Visit StreamType.kCompute = false ∧
    StreamOnIndependentThread.Visit StreamType.kHost2Device = false ∧
    StreamOnIndependentThread.Visit StreamType.kDevice2Host = false ∧
    StreamOnIndependentThread.Visit StreamType.kSyncedLaunchedCommNet = false ∧
    StreamOnIndependentThread.Visit StreamType.kAsyncedLaunchedCommNet = false ∧
    StreamOnIndependentThread.Visit StreamType.kBarrier = false ∧
    StreamOnIndependentThread.VisitPinnedCompute = StreamOnIndependentThread.VisitCompute ∧
    StreamOnIndependentThread.VisitTmpCompute = StreamOnIndependentThread.VisitCompute ∧
    StreamOnIndependentThread.Visit StreamType.kPinnedCompute
      = StreamOnIndependentThread.Visit StreamType.kCompute ∧
    StreamOnIndependentThread.Visit StreamType.kTmpCompute
      = StreamOnIndependentThread.Visit StreamType.kCompute := by
  refine ⟨?_, rfl, rfl, rfl, rfl, rfl, rfl, rfl, rfl, rfl, rfl⟩
  intro stream_type
  cases stream_type <;> decide

/-- Claim C28: `FakeQuantizationOp::CheckAttr` returns `Ok` exactly when the
quantization bit is between 2 and 8, the scheme is "symmetric" or "affine" and
the formula is "google" or "cambricon"; for all other attributes it returns an
error. -/
theorem C28_check_attr (quantization_bit : Int) (quantization_scheme : String)
    (quantization_formula : String) :
    (FakeQuantizationOp.CheckAttr quantization_bit quantization_scheme quantization_formula
        = MaybeVoid.Ok ↔
      (2 ≤ quantization_bit ∧ quantization_bit ≤ 8) ∧
      (quantization_scheme = "symmetric" ∨ quantization_scheme = "affine") ∧
      (quantization_formula = "google" ∨ quantization_formula = "cambricon")) ∧
    (FakeQuantizationOp.CheckAttr quantization_bit quantization_scheme quantization_formula
        = MaybeVoid.Ok ∨
      FakeQuantizationOp.CheckAttr quantization_bit quantization_scheme quantization_formula
        = MaybeVoid.Error) := by
  unfold FakeQuantizationOp.CheckAttr
  by_cases h1 : quantization_bit > 1
  · by_cases h2 : quantization_bit ≤ 8
    · by_cases h3 : quantization_scheme = "symmetric" ∨ quantization_scheme = "affine"
      · by_cases h4 : quantization_formula = "google" ∨ quantization_formula = "cambricon"
        · rw [if_neg (not_not.mpr h1), if_neg (not_not.mpr h2), if_neg (not_not.mpr h3),
            if_neg (not_not.mpr h4)]
          exact ⟨⟨fun _ => ⟨⟨by omega, h2⟩, h3, h4⟩, fun _ => rfl⟩, Or.inl rfl⟩
        · rw [if_neg (not_not.mpr h1), if_neg (not_not.mpr h2), if_neg (not_not.mpr h3),
            if_pos h4]
          exact ⟨⟨fun h => (by cases h), fun h => absurd h.2.2 h4⟩, Or.inr rfl⟩
      · rw [if_neg (not_not.mpr h1), if_neg (not_not.mpr h2), if_pos h3]
        exact ⟨⟨fun h => (by cases h), fun h => absurd h.2.1 h3⟩, Or.inr rfl⟩
    · rw [if_neg (not_not.mpr h1), if_pos h2]
      exact ⟨⟨fun h => (by cases h), fun h => absurd h.1.2 h2⟩, Or.inr rfl⟩
  · rw [if_pos h1]
    exact ⟨⟨fun h => (by cases h), fun h => absurd (show quantization_bit > 1 by omega) h1⟩,
      Or.inr rfl⟩

/-- Claim C22: `FlattenOp::InferLogicalTensorDesc` on valid attributes.  Let
`dims` be the dimensions of the input shape after `ExpandDimIf0D` (a shape
without dimensions becomes `[1]`), `n` their number (below `2 ^ 31`), and `e`
the end of the range: `end_dim + n` for a negative `end_dim`, else `end_dim`.
When `0 ≤ start_dim ≤ e < n` the call returns `Ok` and leaves as output shape the
dimensions before `start_dim`, the product of the dimensions from `start_dim` to
`e` (accumulated in `int64_t`; the exact product when that fits), and the
dimensions after `e`; the rank is `n - (e - start_dim)` and `is_dynamic` is that
of the input. -/
theorem C22_flatten_shape (start_dim end_dim : Int)
    (in_tensor_desc out_tensor_desc : TensorDesc)
    (hn : (ExpandDimIf0D in_tensor_desc.shape).NumAxes < 2 ^ 31)
    (hvalid : 0 ≤ start_dim ∧
      start_dim ≤ trueEndDim end_dim (ExpandDimIf0D in_tensor_desc.shape).NumAxes ∧
      trueEndDim end_dim (ExpandDimIf0D in_tensor_desc.shape).NumAxes
        < (ExpandDimIf0D in_tensor_desc.shape).NumAxes) :
    FlattenOp.InferLogicalTensorDesc start_dim end_dim in_tensor_desc out_tensor_desc
      = (MaybeVoid.Ok,
         { shape :=
             { dim_vec := flattenedDims (ExpandDimIf0D in_tensor_desc.shape).dim_vec
                 start_dim.toNat
                 (trueEndDim end_dim (ExpandDimIf0D in_tensor_desc.shape).NumAxes).toNat }
           is_dynamic := in_tensor_desc.is_dynamic }) ∧
    (Shape.mk (flattenedDims (ExpandDimIf0D in_tensor_desc.shape).dim_vec
        start_dim.toNat
        (trueEndDim end_dim (ExpandDimIf0D in_tensor_desc.shape).NumAxes).toNat)).NumAxes
      = (ExpandDimIf0D in_tensor_desc.shape).NumAxes
        - (trueEndDim end_dim (ExpandDimIf0D in_tensor_desc.shape).NumAxes - start_dim) ∧
    (∀ dims a en, IsInt64 ((dims.drop a).take (en - a + 1)).prod →
      flattenedDims dims a en
        = dims.take a ++ [((dims.drop a).take (en - a + 1)).prod] ++ dims.drop (en + 1)) ∧
    (in_tensor_desc.shape.dim_vec = [] → (ExpandDimIf0D in_tensor_desc.shape).dim_vec = [1]) ∧
    (in_tensor_desc.shape.dim_vec ≠ [] →
      ExpandDimIf0D in_tensor_desc.shape = in_tensor_desc.shape) := by
  obtain ⟨h0, h1, h2⟩ := hvalid
  refine ⟨FlattenOp_infer_valid start_dim end_dim in_tensor_desc out_tensor_desc hn h0 h1 h2,
    ?_, ?_, ?_, ?_⟩
  · obtain ⟨a, rfl⟩ := Int.eq_ofNat_of_zero_le h0
    obtain ⟨en, hen⟩ := Int.eq_ofNat_of_zero_le (h0.trans h1)
    rw [hen] at h1 h2 ⊢
    have hlen : (ExpandDimIf0D in_tensor_desc.shape).NumAxes
        = ((ExpandDimIf0D in_tensor_desc.shape).dim_vec.length : Int) := rfl
    rw [hlen] at h2 ⊢
    have ha : a ≤ en := by exact_mod_cast h1
    have hlt : en < (ExpandDimIf0D in_tensor_desc.shape).dim_vec.length := by exact_mod_cast h2
    show ((flattenedDims _ (a : Int).toNat (en : Int).toNat).length : Int) = _
    simp only [Int.toNat_ofNat]
    rw [flattenedDims_length _ a en ha hlt]
    omega
  · intro dims a en hfit
    unfold flattenedDims
    rw [wrap64_eq _ hfit]
  · intro hnil
    simp [ExpandDimIf0D, Shape.NumAxes, hnil]
  · intro hne
    have : in_tensor_desc.shape.dim_vec.length ≠ 0 := by
      intro h
      exact hne (List.length_eq_zero.mp h)
    simp [ExpandDimIf0D, Shape.NumAxes, this]

/-- Claim C22 at the shape 2 x 3 x 4 x 5 with `start_dim` 1 and `end_dim` -2: the
output shape is 2 x 12 x 5. -/
theorem C22_flatten_shape_witness :
    ((ExpandDimIf0D { dim_vec := [2, 3, 4, 5] }).NumAxes < 2 ^ 31 ∧
      (0 : Int) ≤ 1 ∧
      1 ≤ trueEndDim (-2) (ExpandDimIf0D { dim_vec := [2, 3, 4, 5] }).NumAxes ∧
      trueEndDim (-2) (ExpandDimIf0D { dim_vec := [2, 3, 4, 5] }).NumAxes
        < (ExpandDimIf0D { dim_vec := [2, 3, 4, 5] }).NumAxes) ∧
    FlattenOp.InferLogicalTensorDesc 1 (-2)
        { shape := { dim_vec := [2, 3, 4, 5] }, is_dynamic := true }
        { shape := { dim_vec := [] }, is_dynamic := false }
      = (MaybeVoid.Ok,
         { shape :=
             { dim_vec := flattenedDims (ExpandDimIf0D { dim_vec := [2, 3, 4, 5] }).dim_vec
                 (1 : Int).toNat
                 (trueEndDim (-2) (ExpandDimIf0D { dim_vec := [2, 3, 4, 5] }).NumAxes).toNat }
           is_dynamic := true }) ∧
    flattenedDims [2, 3, 4, 5] 1 2 = [2, 12, 5] :=
  ⟨by decide,
   (C22_flatten_shape 1 (-2)
      { shape := { dim_vec := [2, 3, 4, 5] }, is_dynamic := true }
      { shape := { dim_vec := [] }, is_dynamic := false } (by decide) (by decide)).1,
   by decide⟩

/-- Claim C23: for `int32_t` attributes and an input of fewer than `2 ^ 31`
dimensions, `FlattenOp::InferLogicalTensorDesc` returns `Ok` exactly when
`0 ≤ start_dim < n`, `0 ≤ e < n` and `start_dim ≤ e`, where `n` is the number of
dimensions after `ExpandDimIf0D` and `e` is `end_dim + n` for a negative
`end_dim`, else `end_dim`; otherwise it returns an error and leaves the output
as it was.  A negative `start_dim` is an error.  No access is out of range.
The closing comparison of the element counts never fails: the output shape for
valid attributes has the element count of the input. -/
theorem C23_flatten_error_iff (start_dim end_dim : Int)
    (in_tensor_desc out_tensor_desc : TensorDesc) (he : IsInt32 end_dim)
    (hn : (ExpandDimIf0D in_tensor_desc.shape).NumAxes < 2 ^ 31) :
    ((FlattenOp.InferLogicalTensorDesc start_dim end_dim in_tensor_desc out_tensor_desc).1
        = MaybeVoid.Error ↔
      ¬ (0 ≤ start_dim ∧ start_dim < (ExpandDimIf0D in_tensor_desc.shape).NumAxes ∧
        0 ≤ trueEndDim end_dim (ExpandDimIf0D in_tensor_desc.shape).NumAxes ∧
        trueEndDim end_dim (ExpandDimIf0D in_tensor_desc.shape).NumAxes
          < (ExpandDimIf0D in_tensor_desc.shape).NumAxes ∧
        start_dim ≤ trueEndDim end_dim (ExpandDimIf0D in_tensor_desc.shape).NumAxes)) ∧
    ((FlattenOp.InferLogicalTensorDesc start_dim end_dim in_tensor_desc out_tensor_desc).1
        = MaybeVoid.Ok ∨
      FlattenOp.InferLogicalTensorDesc start_dim end_dim in_tensor_desc out_tensor_desc
        = (MaybeVoid.Error, out_tensor_desc)) ∧
    (start_dim < 0 →
      FlattenOp.InferLogicalTensorDesc start_dim end_dim in_tensor_desc out_tensor_desc
        = (MaybeVoid.Error, out_tensor_desc)) ∧
    ((FlattenOp.InferLogicalTensorDesc start_dim end_dim in_tensor_desc out_tensor_desc).1
        = MaybeVoid.Ok →
      (FlattenOp.InferLogicalTensorDesc start_dim end_dim in_tensor_desc
          out_tensor_desc).2.shape.elem_cnt
        = (ExpandDimIf0D in_tensor_desc.shape).elem_cnt) := by
  by_cases hv : 0 ≤ start_dim ∧ start_dim < (ExpandDimIf0D in_tensor_desc.shape).NumAxes ∧
      0 ≤ trueEndDim end_dim (ExpandDimIf0D in_tensor_desc.shape).NumAxes ∧
      trueEndDim end_dim (ExpandDimIf0D in_tensor_desc.shape).NumAxes
        < (ExpandDimIf0D in_tensor_desc.shape).NumAxes ∧
      start_dim ≤ trueEndDim end_dim (ExpandDimIf0D in_tensor_desc.shape).NumAxes
  · obtain ⟨h0, -, -, h2, h1⟩ := hv
    have hok := FlattenOp_infer_valid start_dim end_dim in_tensor_desc out_tensor_desc hn h0 h1 h2
    rw [hok]
    refine ⟨?_, Or.inl rfl, fun hneg => absurd h0 (by omega), fun _ => ?_⟩
    · constructor
      · intro h
        cases h
      · intro h
        exact absurd ⟨h0, by omega, by omega, h2, h1⟩ h
    · obtain ⟨a, rfl⟩ := Int.eq_ofNat_of_zero_le h0
      obtain ⟨en, hen⟩ := Int.eq_ofNat_of_zero_le (h0.trans h1)
      rw [hen] at h1
      rw [hen]
      exact flattenedDims_prod _ a en (by exact_mod_cast h1)
  · have herr := FlattenOp_infer_invalid start_dim end_dim in_tensor_desc out_tensor_desc he hn hv
    rw [herr]
    refine ⟨⟨fun _ => hv, fun _ => rfl⟩, Or.inr rfl, fun _ => rfl, fun h => ?_⟩
    cases h

/-- Claim C23 at the shape 2 x 3 x 4 with `start_dim` 2 and `end_dim` 1, where
the range is empty: the call is an error and the output is untouched. -/
theorem C23_flatten_error_iff_witness :
    (IsInt32 1 ∧ (ExpandDimIf0D { dim_vec := [2, 3, 4] }).NumAxes < 2 ^ 31) ∧
    FlattenOp.InferLogicalTensorDesc 2 1
        { shape := { dim_vec := [2, 3, 4] }, is_dynamic := false }
        { shape := { dim_vec := [] }, is_dynamic := false }
      = (MaybeVoid.Error, { shape := { dim_vec := [] }, is_dynamic := false }) ∧
    ((FlattenOp.InferLogicalTensorDesc 2 1
        { shape := { dim_vec := [2, 3, 4] }, is_dynamic := false }
        { shape := { dim_vec := [] }, is_dynamic := false }).1 = MaybeVoid.Ok ∨
      FlattenOp.InferLogicalTensorDesc 2 1
        { shape := { dim_vec := [2, 3, 4] }, is_dynamic := false }
        { shape := { dim_vec := [] }, is_dynamic := false }
        = (MaybeVoid.Error, { shape := { dim_vec := [] }, is_dynamic := false })) :=
  ⟨⟨by unfold IsInt32; norm_num, by decide⟩, by decide,
   (C23_flatten_error_iff 2 1
      { shape := { dim_vec := [2, 3, 4] }, is_dynamic := false }
      { shape := { dim_vec := [] }, is_dynamic := false }
      (by unfold IsInt32; norm_num) (by decide)).2.1⟩

/-- Claim C24: `FlattenOp::GetSbp` on an input of `n` dimensions (at least one,
fewer than `2 ^ 31`) and valid attributes `0 ≤ start_dim ≤ e < n`.  After the
`PartialSum` signature the call adds the signatures `Split(in, i)`,
`Split(out, j)` for the pairs of `flattenSplitAxes`, in order: `j = i` for
`0 ≤ i ≤ start_dim` and `j = i - (e - start_dim)` for `e < i < n`, and no others.
They number `n - (e - start_dim)`, and their output axes are
0, 1, ..., `r - 1` in this order, each once, where `r` is the number of
dimensions of the shape `FlattenOp::InferLogicalTensorDesc` infers.  For an
input without dimensions only the `PartialSum` signature is added. -/
theorem C24_flatten_sbp_axes (start_dim end_dim : Int) (in_shape : Shape)
    (sbp_sig_list : List SbpSignature) (hn : in_shape.NumAxes < 2 ^ 31)
    (hvalid : 0 ≤ start_dim ∧ start_dim ≤ trueEndDim end_dim in_shape.NumAxes ∧
      trueEndDim end_dim in_shape.NumAxes < in_shape.NumAxes) :
    FlattenOp.GetSbp start_dim end_dim in_shape sbp_sig_list
      = (MaybeVoid.Ok,
         sbp_sig_list ++
           [[(OpArgs.inputs, SbpParallel.PartialSum), (OpArgs.outputs, SbpParallel.PartialSum)]]
           ++ (flattenSplitAxes in_shape.dim_vec.length start_dim.toNat
                (trueEndDim end_dim in_shape.NumAxes).toNat).map splitInOut) ∧
    ((flattenSplitAxes in_shape.dim_vec.length start_dim.toNat
        (trueEndDim end_dim in_shape.NumAxes).toNat).length : Int)
      = in_shape.NumAxes - (trueEndDim end_dim in_shape.NumAxes - start_dim) ∧
    (∀ i j : Int,
      (i, j) ∈ flattenSplitAxes in_shape.dim_vec.length start_dim.toNat
          (trueEndDim end_dim in_shape.NumAxes).toNat ↔
        (0 ≤ i ∧ i ≤ start_dim ∧ j = i) ∨
        (trueEndDim end_dim in_shape.NumAxes < i ∧ i < in_shape.NumAxes ∧
          j = i - (trueEndDim end_dim in_shape.NumAxes - start_dim))) ∧
    (∀ (is_dynamic : Bool) (out_tensor_desc : TensorDesc),
      (flattenSplitAxes in_shape.dim_vec.length start_dim.toNat
          (trueEndDim end_dim in_shape.NumAxes).toNat).map (fun axes => axes.2)
        = (List.range
            (FlattenOp.InferLogicalTensorDesc start_dim end_dim
              { shape := in_shape, is_dynamic := is_dynamic }
              out_tensor_desc).2.shape.dim_vec.length).map (fun (j : Nat) => (j : Int))) ∧
    (∀ l : List SbpSignature,
      FlattenOp.GetSbp start_dim end_dim { dim_vec := [] } l
        = (MaybeVoid.Ok,
           l ++ [[(OpArgs.inputs, SbpParallel.PartialSum),
                  (OpArgs.outputs, SbpParallel.PartialSum)]])) := by
  obtain ⟨h0, h1, h2⟩ := hvalid
  have hlen : in_shape.NumAxes = (in_shape.dim_vec.length : Int) := rfl
  have hE : ExpandDimIf0D in_shape = in_shape := by
    unfold ExpandDimIf0D
    rw [if_neg (by omega)]
  have hinfer := fun (is_dynamic : Bool) (out_tensor_desc : TensorDesc) =>
    FlattenOp_infer_valid start_dim end_dim { shape := in_shape, is_dynamic := is_dynamic }
      out_tensor_desc (by simp only [hE]; exact hn) h0 (by simp only [hE]; exact h1)
      (by simp only [hE]; exact h2)
  simp only [hE] at hinfer
  obtain ⟨a, rfl⟩ := Int.eq_ofNat_of_zero_le h0
  obtain ⟨en, hen⟩ := Int.eq_ofNat_of_zero_le (h0.trans h1)
  rw [hen] at h1 h2 hinfer ⊢
  have ha : a ≤ en := by exact_mod_cast h1
  have hlt : en < in_shape.dim_vec.length := by
    rw [hlen] at h2
    exact_mod_cast h2
  simp only [Int.toNat_ofNat] at hinfer ⊢
  refine ⟨FlattenOp_GetSbp_valid a en end_dim in_shape sbp_sig_list hn ha hlt hen, ?_, ?_, ?_, ?_⟩
  · rw [flattenSplitAxes_length _ a en ha hlt, hlen]
    omega
  · intro i j
    rw [hlen]
    exact flattenSplitAxes_mem _ a en i j
  · intro is_dynamic out_tensor_desc
    rw [hinfer is_dynamic out_tensor_desc]
    show _ = (List.range (flattenedDims in_shape.dim_vec a en).length).map _
    rw [flattenedDims_length _ a en ha hlt]
    exact flattenSplitAxes_out _ a en ha hlt
  · intro l
    simp [FlattenOp.GetSbp, Shape.NumAxes]

/-- Claim C24 at an input of 4 dimensions flattened from 1 to 2: the three
`Split` signatures pair the axes 0, 1 and 3 of the input with the axes 0, 1 and
2 of the output. -/
theorem C24_flatten_sbp_axes_witness :
    ((Shape.mk [2, 3, 4, 5]).NumAxes < 2 ^ 31 ∧ (0 : Int) ≤ 1 ∧
      1 ≤ trueEndDim 2 (Shape.mk [2, 3, 4, 5]).NumAxes ∧
      trueEndDim 2 (Shape.mk [2, 3, 4, 5]).NumAxes < (Shape.mk [2, 3, 4, 5]).NumAxes) ∧
    FlattenOp.GetSbp 1 2 (Shape.mk [2, 3, 4, 5]) []
      = (MaybeVoid.Ok,
         [] ++
           [[(OpArgs.inputs, SbpParallel.PartialSum), (OpArgs.outputs, SbpParallel.PartialSum)]]
           ++ (flattenSplitAxes (Shape.mk [2, 3, 4, 5]).dim_vec.length (1 : Int).toNat
                (trueEndDim 2 (Shape.mk [2, 3, 4, 5]).NumAxes).toNat).map splitInOut) ∧
    flattenSplitAxes 4 1 2 = [(0, 0), (1, 1), (3, 2)] :=
  ⟨by decide,
   (C24_flatten_sbp_axes 1 2 (Shape.mk [2, 3, 4, 5]) [] (by decide) (by decide)).1,
   by decide⟩

/-- Claim C25: `GetSbpFn` of the reduce operators on an input of `n` dimensions
(fewer than `2 ^ 31`) with the predicate `IsReducedAxis`.  The call returns `Ok`
and adds, for the axes 0 to `n - 1` in order, the signatures of
`reduceAxisSignatures` (and one `PartialSum` signature when `n` is 0): an axis
`i` that is not reduced gets exactly one signature, `Split(inputs, i)`,
`Split(outputs, j)`, with `j = i` when `keepdims` holds and otherwise `j = i`
minus the number of reduced axes below `i`; a reduced axis gets no such
signature.  Without `keepdims` the `j` are 0, 1, ..., `n - |R| - 1` in
increasing order of `i`, where `|R|` is the number of reduced axes; and
`n - |R|` is the number of dimensions of the output shape `InferTensorDescFn`
infers without `keepdims` from valid axes, so each `j` is an axis of the
output. -/
theorem C25_reduce_sbp_axes (binary_func : BinaryFunc) (IsReducedAxis : Int → Bool)
    (n : Nat) (keep_dims : Bool) (sbp_sig_list : List SbpSignature) (hn : n < 2 ^ 31) :
    GetSbpFn binary_func IsReducedAxis (n : Int) keep_dims sbp_sig_list
      = (MaybeVoid.Ok,
         sbp_sig_list
           ++ (List.range n).flatMap (reduceAxisSignatures binary_func IsReducedAxis keep_dims)
           ++ (if n = 0 then
                [[(OpArgs.inputs, SbpParallel.PartialSum),
                  (OpArgs.outputs, SbpParallel.PartialSum)]]
               else [])) ∧
    ((List.range n).flatMap
        (reduceAxisSignatures binary_func IsReducedAxis keep_dims)).filterMap splitPairOf
      = ((List.range n).filter (fun (i : Nat) => ! IsReducedAxis (i : Int))).map
          (fun (i : Nat) => ((i : Int),
            if keep_dims then (i : Int)
            else (i : Int) - (reducedBelow IsReducedAxis i : Int))) ∧
    reduceOutAxes IsReducedAxis n
      = (List.range (n - reducedBelow IsReducedAxis n)).map (fun (j : Nat) => (j : Int)) ∧
    (∀ j ∈ reduceOutAxes IsReducedAxis n,
      0 ≤ j ∧ j < ((n - reducedBelow IsReducedAxis n : Nat) : Int)) ∧
    (∀ (input_shape : Shape) (reduce_axes : List Int) (output_shape : Shape),
      (∀ axis ∈ reduce_axes, 0 ≤ ShiftNegativeAxis axis input_shape.NumAxes ∧
        ShiftNegativeAxis axis input_shape.NumAxes < input_shape.NumAxes) →
      ∃ out,
        InferTensorDescFn input_shape reduce_axes false output_shape = (MaybeVoid.Ok, out) ∧
        out.dim_vec.length = input_shape.dim_vec.length
          - reducedBelow
              (ReduceSbpUtil.MakePredicatorIsReducedAxis
                (ReduceSbpUtil.GetRegularAxes input_shape.NumAxes reduce_axes)
                input_shape.NumAxes)
              input_shape.dim_vec.length) := by
  refine ⟨GetSbpFn_eq binary_func IsReducedAxis keep_dims n sbp_sig_list hn,
    splitPairs_reduce binary_func IsReducedAxis keep_dims n,
    reduceOutAxes_eq IsReducedAxis n, ?_, ?_⟩
  · intro j hj
    rw [reduceOutAxes_eq, List.mem_map] at hj
    obtain ⟨k, hk, rfl⟩ := hj
    rw [List.mem_range] at hk
    omega
  · intro input_shape reduce_axes output_shape hvalid
    exact InferTensorDescFn_rank input_shape reduce_axes output_shape hvalid

/-- Claim C25 at `reduce_sum` over the axes 1 and -1 of an input of 4
dimensions, without `keepdims`: the axes 0 and 2 of the input are paired with
the axes 0 and 1 of the output. -/
theorem C25_reduce_sbp_axes_witness :
    4 < 2 ^ 31 ∧
    ((List.range 4).flatMap
        (reduceAxisSignatures BinaryFunc.BinaryFuncSum
          (ReduceSbpUtil.MakePredicatorIsReducedAxis
            (ReduceSbpUtil.GetRegularAxes 4 [1, -1]) 4) false)).filterMap splitPairOf
      = ((List.range 4).filter (fun (i : Nat) =>
          ! ReduceSbpUtil.MakePredicatorIsReducedAxis
              (ReduceSbpUtil.GetRegularAxes 4 [1, -1]) 4 (i : Int))).map
          (fun (i : Nat) => ((i : Int),
            if false = true then (i : Int)
            else (i : Int) - (reducedBelow
              (ReduceSbpUtil.MakePredicatorIsReducedAxis
                (ReduceSbpUtil.GetRegularAxes 4 [1, -1]) 4) i : Int))) ∧
    ((GetSbpFn BinaryFunc.BinaryFuncSum
        (ReduceSbpUtil.MakePredicatorIsReducedAxis (ReduceSbpUtil.GetRegularAxes 4 [1, -1]) 4)
        4 false []).2.filterMap splitPairOf) = [(0, 0), (2, 1)] :=
  ⟨by decide,
   (C25_reduce_sbp_axes BinaryFunc.BinaryFuncSum
      (ReduceSbpUtil.MakePredicatorIsReducedAxis (ReduceSbpUtil.GetRegularAxes 4 [1, -1]) 4)
      4 false [] (by decide)).2.1,
   by decide⟩

/-- Claim C26: `UnsortedBatchSegmentSumOp::InferLogicalTensorDesc`, with `k` the
number of dimensions of `segment_ids`.  The call returns `Ok` exactly when
`segmentSumChecks` holds: `k ≥ 1`, `data` has at least `k` dimensions, the
`is_dynamic` flags agree, `num_segments ≥ 1` and the two shapes agree on every
axis below `k - 1`; otherwise it returns an error and leaves the output as it
was.  No access is out of range: under the checks `k - 1` is an axis of `data`
and the assignment through `at` succeeds.  On success the output shape is the
shape of `data` with `num_segments` on axis `k - 1`: it has as many dimensions
as `data` and agrees with `data` on every other axis. -/
theorem C26_segment_sum_infer (num_segments : Int) (data segment_ids out : TensorDesc) :
    ((UnsortedBatchSegmentSumOp.InferLogicalTensorDesc num_segments data segment_ids out).1
        = MaybeVoid.Ok ↔ segmentSumChecks num_segments data segment_ids) ∧
    (¬ segmentSumChecks num_segments data segment_ids →
      UnsortedBatchSegmentSumOp.InferLogicalTensorDesc num_segments data segment_ids out
        = (MaybeVoid.Error, out)) ∧
    (UnsortedBatchSegmentSumOp.InferLogicalTensorDesc num_segments data segment_ids out).1
      ≠ MaybeVoid.Abort ∧
    (segmentSumChecks num_segments data segment_ids →
      UnsortedBatchSegmentSumOp.InferLogicalTensorDesc num_segments data segment_ids out
        = (MaybeVoid.Ok,
            TensorDesc.mk
              (Shape.mk (data.shape.dim_vec.set (segment_ids.shape.dim_vec.length - 1)
                num_segments))
              out.is_dynamic) ∧
      segment_ids.shape.dim_vec.length - 1 < data.shape.dim_vec.length ∧
      DimVector.at_assign data.shape.dim_vec (segment_ids.shape.NumAxes - 1) num_segments
        = some (data.shape.dim_vec.set (segment_ids.shape.dim_vec.length - 1) num_segments) ∧
      (data.shape.dim_vec.set (segment_ids.shape.dim_vec.length - 1) num_segments).length
        = data.shape.dim_vec.length ∧
      (data.shape.dim_vec.set (segment_ids.shape.dim_vec.length - 1)
          num_segments)[segment_ids.shape.dim_vec.length - 1]? = some num_segments ∧
      ∀ i, i ≠ segment_ids.shape.dim_vec.length - 1 →
        (data.shape.dim_vec.set (segment_ids.shape.dim_vec.length - 1) num_segments)[i]?
          = data.shape.dim_vec[i]?) := by
  have hk : segment_ids.shape.NumAxes = (segment_ids.shape.dim_vec.length : Int) := rfl
  by_cases hc : segmentSumChecks num_segments data segment_ids
  · have hok := segment_infer_ok num_segments data segment_ids out hc
    have h1 : 1 ≤ segment_ids.shape.dim_vec.length := hc.1
    have h2 : segment_ids.shape.dim_vec.length ≤ data.shape.dim_vec.length := hc.2.1
    have hlt : segment_ids.shape.dim_vec.length - 1 < data.shape.dim_vec.length := by omega
    rw [hok]
    refine ⟨⟨fun _ => hc, fun _ => rfl⟩, fun hn => absurd hc hn, by simp, fun _ => ?_⟩
    refine ⟨rfl, hlt, ?_, by simp, ?_, ?_⟩
    · unfold DimVector.at_assign
      have hi : (segment_ids.shape.NumAxes - 1).toNat
          = segment_ids.shape.dim_vec.length - 1 := by omega
      rw [if_pos ⟨by omega, by omega⟩, hi]
    · simp [hlt]
    · intro i hi
      simp [List.getElem?_set, Ne.symm hi]
  · have herr := segment_infer_err num_segments data segment_ids out hc
    rw [herr]
    exact ⟨⟨fun h => (by cases h), fun h => absurd h hc⟩, fun _ => rfl, (by simp),
      fun h => absurd h hc⟩

/-- Claim C26 at `data` of shape 4 x 5 x 6, `segment_ids` of shape 4 x 5 and 7
segments: the output shape is 4 x 7 x 6. -/
theorem C26_segment_sum_infer_witness :
    segmentSumChecks 7 (staticTensor [4, 5, 6]) (staticTensor [4, 5]) ∧
    UnsortedBatchSegmentSumOp.InferLogicalTensorDesc 7 (staticTensor [4, 5, 6])
        (staticTensor [4, 5]) (staticTensor [])
      = (MaybeVoid.Ok, staticTensor [4, 7, 6]) ∧
    UnsortedBatchSegmentSumOp.InferLogicalTensorDesc 7 (staticTensor [4, 5, 6])
        (staticTensor [3, 5]) (staticTensor [])
      = (MaybeVoid.Error, staticTensor []) :=
  ⟨by unfold segmentSumChecks; decide,
   ((C26_segment_sum_infer 7 (staticTensor [4, 5, 6]) (staticTensor [4, 5])
      (staticTensor [])).2.2.2 (by unfold segmentSumChecks; decide)).1,
   by decide⟩

/-- Claim C27: `ParallelCastOp::InferSbpSignature`.  With an empty attribute
`sbp_parallel` the call returns `Ok` and gives `in_0` and `out_0` the hint of the
input.  With a non-empty attribute it returns an error exactly when the string
does not parse or parses to a split whose axis is negative or not below the
number of dimensions of the input, and then the map is left as it was;
otherwise it returns `Ok` and gives `in_0` and `out_0` the parsed value.
Whenever the call returns `Ok`, `in_0` and `out_0` have the same `SbpParallel`
and no other name is assigned. -/
theorem C27_parallel_cast_sbp (ParseSbpParallelFromString : String → Option SbpParallel)
    (sbp_parallel_str : String) (sbp_parallel_hint : SbpParallel) (in_shape : Shape)
    (bn2sbp : String → Option SbpParallel) :
    ParallelCastOp.InferSbpSignature ParseSbpParallelFromString "" sbp_parallel_hint in_shape
        bn2sbp
      = (MaybeVoid.Ok, assignInOut bn2sbp sbp_parallel_hint) ∧
    (sbp_parallel_str ≠ "" →
      ((ParallelCastOp.InferSbpSignature ParseSbpParallelFromString sbp_parallel_str
            sbp_parallel_hint in_shape bn2sbp).1 = MaybeVoid.Error ↔
        (ParseSbpParallelFromString sbp_parallel_str = none ∨
          ∃ sbp_parallel, ParseSbpParallelFromString sbp_parallel_str = some sbp_parallel ∧
            splitOutOfRange sbp_parallel in_shape.NumAxes)) ∧
      ((ParallelCastOp.InferSbpSignature ParseSbpParallelFromString sbp_parallel_str
            sbp_parallel_hint in_shape bn2sbp).1 = MaybeVoid.Error →
        (ParallelCastOp.InferSbpSignature ParseSbpParallelFromString sbp_parallel_str
            sbp_parallel_hint in_shape bn2sbp).2 = bn2sbp) ∧
      (∀ sbp_parallel,
        ParseSbpParallelFromString sbp_parallel_str = some sbp_parallel →
        ¬ splitOutOfRange sbp_parallel in_shape.NumAxes →
        ParallelCastOp.InferSbpSignature ParseSbpParallelFromString sbp_parallel_str
            sbp_parallel_hint in_shape bn2sbp
          = (MaybeVoid.Ok, assignInOut bn2sbp sbp_parallel))) ∧
    (∀ sbp_parallel : SbpParallel,
      assignInOut bn2sbp sbp_parallel (GenRepeatedBn "in" 0) = some sbp_parallel ∧
      assignInOut bn2sbp sbp_parallel (GenRepeatedBn "out" 0) = some sbp_parallel ∧
      ∀ name, name ≠ GenRepeatedBn "in" 0 → name ≠ GenRepeatedBn "out" 0 →
        assignInOut bn2sbp sbp_parallel name = bn2sbp name) ∧
    ((ParallelCastOp.InferSbpSignature ParseSbpParallelFromString sbp_parallel_str
          sbp_parallel_hint in_shape bn2sbp).1 = MaybeVoid.Ok →
      (ParallelCastOp.InferSbpSignature ParseSbpParallelFromString sbp_parallel_str
          sbp_parallel_hint in_shape bn2sbp).2 (GenRepeatedBn "in" 0)
        = (ParallelCastOp.InferSbpSignature ParseSbpParallelFromString sbp_parallel_str
            sbp_parallel_hint in_shape bn2sbp).2 (GenRepeatedBn "out" 0) ∧
      (ParallelCastOp.InferSbpSignature ParseSbpParallelFromString sbp_parallel_str
          sbp_parallel_hint in_shape bn2sbp).2 (GenRepeatedBn "in" 0) ≠ none) ∧
    (ParallelCastOp.InferSbpSignature ParseSbpParallelFromString sbp_parallel_str
        sbp_parallel_hint in_shape bn2sbp).1 ≠ MaybeVoid.Abort := by
  have hsame : ∀ v : SbpParallel,
      assignInOut bn2sbp v (GenRepeatedBn "in" 0) = assignInOut bn2sbp v (GenRepeatedBn "out" 0) ∧
      assignInOut bn2sbp v (GenRepeatedBn "in" 0) ≠ none := by
    intro v
    obtain ⟨h1, h2, -⟩ := assignInOut_spec bn2sbp v
    refine ⟨h1.trans h2.symm, ?_⟩
    rw [h1]
    exact Option.some_ne_none v
  refine ⟨ParallelCast_empty _ _ _ _, ?_, assignInOut_spec bn2sbp, ?_, ?_⟩
  · intro hne
    obtain ⟨l1, l2, l3⟩ := ParallelCast_parsed ParseSbpParallelFromString sbp_parallel_str
      sbp_parallel_hint in_shape bn2sbp hne
    refine ⟨?_, ?_, l3⟩
    · constructor
      · intro herr
        cases hp : ParseSbpParallelFromString sbp_parallel_str with
        | none => exact Or.inl rfl
        | some v =>
          refine Or.inr ⟨v, rfl, ?_⟩
          by_contra hin
          rw [l3 v hp hin] at herr
          cases herr
      · rintro (hp | ⟨v, hp, hout⟩)
        · rw [l1 hp]
        · rw [l2 v hp hout]
    · intro herr
      cases hp : ParseSbpParallelFromString sbp_parallel_str with
      | none => rw [l1 hp]
      | some v =>
        by_cases hout : splitOutOfRange v in_shape.NumAxes
        · rw [l2 v hp hout]
        · rw [l3 v hp hout] at herr
          cases herr
  · intro hok
    by_cases he : sbp_parallel_str = ""
    · subst he
      rw [ParallelCast_empty]
      exact hsame _
    · obtain ⟨l1, l2, l3⟩ := ParallelCast_parsed ParseSbpParallelFromString sbp_parallel_str
        sbp_parallel_hint in_shape bn2sbp he
      cases hp : ParseSbpParallelFromString sbp_parallel_str with
      | none =>
        rw [l1 hp] at hok
        cases hok
      | some v =>
        by_cases hout : splitOutOfRange v in_shape.NumAxes
        · rw [l2 v hp hout] at hok
          cases hok
        · rw [l3 v hp hout]
          exact hsame _
  · by_cases he : sbp_parallel_str = ""
    · subst he
      rw [ParallelCast_empty]
      simp
    · obtain ⟨l1, l2, l3⟩ := ParallelCast_parsed ParseSbpParallelFromString sbp_parallel_str
        sbp_parallel_hint in_shape bn2sbp he
      cases hp : ParseSbpParallelFromString sbp_parallel_str with
      | none => rw [l1 hp]; simp
      | some v =>
        by_cases hout : splitOutOfRange v in_shape.NumAxes
        · rw [l2 v hp hout]; simp
        · rw [l3 v hp hout]; simp

/-- Claim C27 at an input of 2 dimensions: the attribute "S(1)" is accepted and
gives both names the split along axis 1. -/
theorem C27_parallel_cast_sbp_witness :
    ("S(1)" ≠ "" ∧ parseScenario "S(1)" = some (SbpParallel.Split 1) ∧
      ¬ splitOutOfRange (SbpParallel.Split 1) (Shape.mk [2, 3]).NumAxes) ∧
    ParallelCastOp.InferSbpSignature parseScenario "S(1)" SbpParallel.Broadcast
        (Shape.mk [2, 3]) (fun _ => none)
      = (MaybeVoid.Ok, assignInOut (fun _ => none) (SbpParallel.Split 1)) :=
  ⟨⟨by decide, by decide, by
      rintro ⟨axis, hax, hr⟩
      cases hax
      exact hr (by decide)⟩,
   ((C27_parallel_cast_sbp parseScenario "S(1)" SbpParallel.Broadcast (Shape.mk [2, 3])
      (fun _ => none)).2.1 (by decide)).2.2 (SbpParallel.Split 1) (by decide) (by
      rintro ⟨axis, hax, hr⟩
      cases hax
      exact hr (by decide))⟩

/-- Claim C29, evaluated on the code: the generator for `hardshrink` binds the
input `y` of `hardshrink_grad` to the output `("y", 0)` of the forward operator,
not to `("out", 0)`, while the generator for `hardtanh` binds `y` to
`("out", 0)`.  The inference functions of `HardShrinkOp` set a shape and a data
type for `("out", 0)` only: `("y", 0)` gets none.  The other bindings are as the
claim says: `dy` is the gradient of `("out", 0)`, `lambd` is the attribute of the
forward operator, and the gradient of `("in", 0)` is the output `("dx", 0)` of
the operator defined. -/
theorem C29_hardshrink_grad_binds_y (fw_op_name : String) :
    boundInput (hardshrinkBackwardOpConfGenFn fw_op_name).2 "y"
      = some (TensorRef.FwOpOutput "y" 0) ∧
    boundInput (hardshrinkBackwardOpConfGenFn fw_op_name).2 "y"
      ≠ some (TensorRef.FwOpOutput "out" 0) ∧
    boundInput (hardtanhBackwardOpConfGenFn fw_op_name).2 "y"
      = some (TensorRef.FwOpOutput "out" 0) ∧
    (∀ ctx : InferContext,
      (HardShrinkOp.InferLogicalTensorDesc ctx).2.OutputShape "out" 0 = ctx.InputShape "in" 0 ∧
      (HardShrinkOp.InferLogicalTensorDesc ctx).2.OutputShape "y" 0 = ctx.OutputShape "y" 0 ∧
      (HardShrinkOp.InferDataType ctx).2.OutputDType "out" 0 = ctx.InputDType "in" 0 ∧
      (HardShrinkOp.InferDataType ctx).2.OutputDType "y" 0 = ctx.OutputDType "y" 0) ∧
    (HardShrinkOp.InferLogicalTensorDesc onlyInputKnown).2.OutputShape "y" 0 = none ∧
    (HardShrinkOp.InferLogicalTensorDesc onlyInputKnown).2.OutputShape "out" 0
      = some { dim_vec := [2, 3] } ∧
    boundInput (hardshrinkBackwardOpConfGenFn fw_op_name).2 "dy"
      = some (TensorRef.FwOpOutputGrad "out" 0) ∧
    (hardshrinkBackwardOpConfGenFn fw_op_name).2.DefineOp.map (fun op => op.Attr)
      = [[("lambd", AttrRef.FwOpAttr "lambd")]] ∧
    (hardshrinkBackwardOpConfGenFn fw_op_name).2.InputGradBind
      = [(("in", 0), TensorRef.GetOpOutput (fw_op_name ++ "_grad") "dx" 0)] ∧
    (hardshrinkBackwardOpConfGenFn fw_op_name).2.DefineOp.map
        (fun op => (op.op_name, op.OpTypeName, op.Output))
      = [(fw_op_name ++ "_grad", "hardshrink_grad", ["dx"])] := by
  refine ⟨by simp [boundInput, hardshrinkBackwardOpConfGenFn],
    by simp [boundInput, hardshrinkBackwardOpConfGenFn],
    by simp [boundInput, hardtanhBackwardOpConfGenFn], ?_, by decide, by decide,
    by simp [boundInput, hardshrinkBackwardOpConfGenFn], rfl, rfl, rfl⟩
  intro ctx
  refine ⟨?_, ?_, ?_, ?_⟩
  · simp [HardShrinkOp.InferLogicalTensorDesc]
  · simp [HardShrinkOp.InferLogicalTensorDesc]
  · simp [HardShrinkOp.InferDataType]
  · simp [HardShrinkOp.InferDataType]

end oneflow
